import Mathlib

/-!
# QuantLib: the Heston finite-difference operator and instrument argument checks

A shallow embedding of

* `ql/methods/finitedifferences/operators/fdmhestonop.cpp`
  (`FdmHestonEquityPart`, `FdmHestonVariancePart`, `FdmHestonOp`),
* `ql/instruments/dividendvanillaoption.cpp`, `ql/instruments/nonstandardswaption.cpp`
  (argument validation, `setupArguments`, `impliedVolatility`),
* `ql/models/shortrate/calibrationhelpers/swaptionhelper.cpp` (`blackPrice`),
* `ql/pricingengines/vanilla/fdcirvanillaengine.cpp` and `.hpp`
  (`FdCIRVanillaEngine`, `MakeFdCIRVanillaEngine`),
* `ql/pricingengines/vanilla/fddividendengine.hpp`
  (`setupArguments`, `setGridLimits`, `executeIntermediateStep`),
* `ql/instruments/vanillaoption.cpp` (`impliedVolatility`, `setupArguments`).

`Real`, `Time` and `Rate` are read as elements of a linearly ordered field `R`
(exact arithmetic; rounding is not modelled).  `Size` values are natural
numbers.  A C++ exception is a value `Except.error`.  The library functions
`std::exp` and `Sqrt` are parameters of the functions that call them.

Classes of the library whose implementation is not part of the sources under
study (`Array`, `FdmLinearOpLayout`, `FdmMesher`, `TripleBandLinearOp`,
`NinePointLinearOp`) are modelled from the specification; each such
definition says so.
-/

namespace QuantLib

/-! ## Definitions -/

/-- Failure raised by the code.  `fail msg` is `QL_FAIL(msg)` or a failed
`QL_REQUIRE(cond, msg)` with a fixed message; `computation` is the generic
computation failure that propagates out of a banded solve. -/
inductive Error where
  | fail (message : String)
  | computation
  /-- The failure of `DividendVanillaOption::arguments::validate`, whose message
  "the i-th dividend date (d) is later than the exercise date (e)" is formatted
  from an ordinal and two dates; the three are kept as data. -/
  | dividendAfterExercise (ordinal : Nat) (dividendDate exerciseDate : Nat)
  /-- The failure of `SwaptionHelper::blackPrice`, whose message is
  "can not construct engine: " followed by the volatility type. -/
  | canNotConstructEngine
  /-- An empty `shared_ptr` is dereferenced.  This is undefined behaviour in the
  source; it is kept as a failure so that the embedding is total. -/
  | nullPointer
  deriving DecidableEq, Repr

/-! ### Arrays -/

namespace QLArray

variable {R : Type} [LinearOrderedField R]

/-- Modelled from the spec: `Array(size, value)`, a grid function holding
`value` at each of its `size` entries. -/
def fill (size : Nat) (value : R) : List R := List.replicate size value

/-- Modelled from the spec: `Array + Array`, elementwise. -/
def add (a b : List R) : List R := List.zipWith (fun x y => x + y) a b

/-- Modelled from the spec: `Array - Array`, elementwise. -/
def sub (a b : List R) : List R := List.zipWith (fun x y => x - y) a b

/-- Modelled from the spec: `Array * Array`, elementwise. -/
def mul (a b : List R) : List R := List.zipWith (fun x y => x * y) a b

/-- Modelled from the spec: `Real * Array`, elementwise. -/
def scale (c : R) (a : List R) : List R := a.map (fun x => c * x)

/-- Modelled from the spec: `Real - Array`, elementwise. -/
def rsub (c : R) (a : List R) : List R := a.map (fun x => c - x)

/-- Modelled from the spec: a function applied elementwise, as in `Sqrt(Array)`. -/
def mapFn (f : R → R) (a : List R) : List R := a.map f

end QLArray

/-! ### Layout and mesher -/

/-- Coordinates of a linear index for the given per-dimension sizes, the
first dimension varying fastest. -/
def coordinatesOf : List Nat → Nat → List Nat
  | [], _ => []
  | d :: ds, i => (i % d) :: coordinatesOf ds (i / d)

/-- Modelled from the spec: `FdmLinearOpIterator`, a position of the layout:
its linear index and its coordinates. -/
structure FdmLinearOpIterator where
  index : Nat
  coordinates : List Nat
  deriving DecidableEq, Repr

/-- Modelled from the spec: `FdmLinearOpLayout`, the ordered tuple of
per-dimension sizes, with the bijection between coordinates and linear
index.  Dimension 0 has stride 1: `getLeverageFctSlice` stores the value of
the node `(nx, 0)` at linear index `nx`. -/
structure FdmLinearOpLayout where
  dim : List Nat
  deriving DecidableEq, Repr

namespace FdmLinearOpLayout

/-- The number of grid nodes, `layout->size()`. -/
def size (l : FdmLinearOpLayout) : Nat := l.dim.prod

/-- The iterator standing at linear index `i`. -/
def iterAt (l : FdmLinearOpLayout) (i : Nat) : FdmLinearOpIterator :=
  { index := i, coordinates := coordinatesOf l.dim i }

/-- The positions visited by `for (iter = layout->begin(); iter != layout->end(); ++iter)`,
in order. -/
def iterators (l : FdmLinearOpLayout) : List FdmLinearOpIterator :=
  (List.range l.size).map l.iterAt

end FdmLinearOpLayout

/-- Modelled from the spec: `FdmMesher`, the per-dimension grid locations
over a layout (a composite mesher is the direct product of one-dimensional
meshers). -/
structure FdmMesher (R : Type) where
  layout : FdmLinearOpLayout
  locs : List (List R)

namespace FdmMesher

variable {R : Type} [LinearOrderedField R]

/-- The call `mesher->location(iter, direction)`. -/
def location (m : FdmMesher R) (iter : FdmLinearOpIterator) (direction : Nat) : R :=
  (m.locs.getD direction []).getD (iter.coordinates.getD direction 0) 0

/-- The call `mesher->locations(direction)`: the location along `direction` of every
node, by linear index. -/
def locations (m : FdmMesher R) (direction : Nat) : List R :=
  m.layout.iterators.map (fun iter => m.location iter direction)

end FdmMesher

/-! ### Banded operators -/

/-- Modelled from the spec: `TripleBandLinearOp`, a banded operator along one
direction kept as per-row band coefficients.  The band structure
(`direction`, `size`, the neighbour indices `i0` and `i2`) is fixed at
construction; only `lower`, `diag` and `upper` change afterwards. -/
structure TripleBandLinearOp (R : Type) where
  direction : Nat
  size : Nat
  i0 : List Nat
  i2 : List Nat
  lower : List R
  diag : List R
  upper : List R

namespace TripleBandLinearOp

variable {R : Type} [LinearOrderedField R]

/-- Modelled from the spec: `TripleBandLinearOp::apply`, row `i` of the result is
`lower[i]*r[i0[i]] + diag[i]*r[i] + upper[i]*r[i2[i]]`. -/
def apply (m : TripleBandLinearOp R) (r : List R) : List R :=
  (List.range m.size).map (fun i =>
    r.getD (m.i0.getD i 0) 0 * m.lower.getD i 0
      + r.getD i 0 * m.diag.getD i 0
      + r.getD (m.i2.getD i 0) 0 * m.upper.getD i 0)

/-- Modelled from the spec: `TripleBandLinearOp::mult(u)`, multiplication by a
per-grid-point coefficient; the band structure is kept. -/
def mult (m : TripleBandLinearOp R) (u : List R) : TripleBandLinearOp R :=
  { m with
    lower := (List.range m.size).map (fun i => m.lower.getD i 0 * u.getD i 0)
    diag := (List.range m.size).map (fun i => m.diag.getD i 0 * u.getD i 0)
    upper := (List.range m.size).map (fun i => m.upper.getD i 0 * u.getD i 0) }

/-- Modelled from the spec: `TripleBandLinearOp::add(m2)`, additive combination;
the band structure is kept. -/
def add (m m2 : TripleBandLinearOp R) : TripleBandLinearOp R :=
  { m with
    lower := (List.range m.size).map (fun i => m.lower.getD i 0 + m2.lower.getD i 0)
    diag := (List.range m.size).map (fun i => m.diag.getD i 0 + m2.diag.getD i 0)
    upper := (List.range m.size).map (fun i => m.upper.getD i 0 + m2.upper.getD i 0) }

/-- Coefficient `i` of a coefficient array handed to `axpyb`: an array of one
element stands for a constant (`Array(1, -0.5*r)`), the empty array
(`Array()`) for no term. -/
def coeff (a : List R) (i : Nat) : R :=
  a.getD (if 1 < a.length then i else 0) 0

/-- Modelled from the spec: `TripleBandLinearOp::axpyb(a, x, y, b)` builds
`a·x + y + b·I` in place: the band values of the receiver `m` are recomputed
from `a`, `x`, `y` and `b`, its band structure is not touched. -/
def axpyb (m : TripleBandLinearOp R) (a : List R) (x y : TripleBandLinearOp R)
    (b : List R) : TripleBandLinearOp R :=
  { m with
    lower := (List.range m.size).map (fun i =>
      y.lower.getD i 0 + coeff a i * x.lower.getD i 0)
    diag := (List.range m.size).map (fun i =>
      y.diag.getD i 0 + coeff a i * x.diag.getD i 0 + coeff b i)
    upper := (List.range m.size).map (fun i =>
      y.upper.getD i 0 + coeff a i * x.upper.getD i 0) }

end TripleBandLinearOp

/-- Modelled from the spec: the type of `TripleBandLinearOp::solve_splitting(r, a, b)`,
the direction-restricted banded solve of `(a·m + b·I) x = r`.  Its algorithm is
not part of the sources under study, so the methods of `FdmHestonOp` take the
solve as a parameter; `none` is a computation failure (singular system). -/
abbrev BandedSolve (R : Type) := TripleBandLinearOp R → List R → R → R → Option (List R)

namespace TripleBandLinearOp

variable {R : Type} [LinearOrderedField R]

/-- The system matrix of the banded solve applied to `x`: `(a·m + b·I) x`,
written `b*x + a*m.apply(x)`. -/
def implicitOp (m : TripleBandLinearOp R) (a b : R) (x : List R) : List R :=
  QLArray.add (QLArray.scale b x) (QLArray.scale a (m.apply x))

/-- The system `a·m + b·I` is non-singular: as a map on the arrays of the size
of `m` it sends different arrays to different arrays. -/
def NonSingular (m : TripleBandLinearOp R) (a b : R) : Prop :=
  ∀ x y : List R, x.length = m.size → y.length = m.size →
    m.implicitOp a b x = m.implicitOp a b y → x = y

end TripleBandLinearOp

/-- Modelled from the spec: what the direction-restricted solve promises for
the operator `m` and the constants `a`, `b`: when `a·m + b·I` is non-singular
it returns, for every right-hand side `r` of the size of `m`, an array `x` of
that size with `(a·m + b·I) x = r`. -/
def BandedSolve.MeetsContract {R : Type} [LinearOrderedField R] (solve : BandedSolve R)
    (m : TripleBandLinearOp R) (a b : R) : Prop :=
  m.NonSingular a b →
    ∀ r : List R, r.length = m.size →
      ∃ x : List R, solve m r a b = some x ∧ x.length = m.size ∧ m.implicitOp a b x = r

namespace TripleBandLinearOp

variable {R : Type} [LinearOrderedField R]

/-- Modelled from the spec: the matrix of the banded system `a·m + b·I` that the
direction-restricted solve treats: row `i` holds `a*lower[i]` in column
`i0[i]`, `a*diag[i] + b` in column `i` and `a*upper[i]` in column `i2[i]`,
entries that share a column being added, as `apply` adds them. -/
def systemMatrix (m : TripleBandLinearOp R) (a b : R) :
    Matrix (Fin m.size) (Fin m.size) R :=
  fun i j =>
    a * ((if m.i0.getD i 0 = j then m.lower.getD i 0 else 0)
        + (if (i : Nat) = j then m.diag.getD i 0 else 0)
        + (if m.i2.getD i 0 = j then m.upper.getD i 0 else 0))
      + (if (i : Nat) = j then b else 0)

/-- Modelled from the spec: `TripleBandLinearOp::solve_splitting(r, a, b)`, the
direction-restricted solve of the banded system `(a·m + b·I) x = r`; a
singular system is a computation failure (`none`).  The spec gives what the
solve returns, not its elimination order; the model solves the system
exactly, by Cramer's rule. -/
def solve_splitting (m : TripleBandLinearOp R) (r : List R) (a b : R) : Option (List R) :=
  let A := m.systemMatrix a b
  if A.det = 0 then none
  else some (List.ofFn (fun j => A.det⁻¹ * Matrix.cramer A (fun k => r.getD k 0) j))

end TripleBandLinearOp

/-- Modelled from the spec: `NinePointLinearOp`, the banded operator of a mixed
second derivative, kept as per-row band coefficients: row `i` lists the
column index and the coefficient of each of its entries. -/
structure NinePointLinearOp (R : Type) where
  size : Nat
  rows : List (List (Nat × R))

namespace NinePointLinearOp

variable {R : Type} [LinearOrderedField R]

/-- Modelled from the spec: `NinePointLinearOp::apply`, row `i` of the result
is the sum of `coefficient * u[column]` over the entries of row `i`. -/
def apply (m : NinePointLinearOp R) (u : List R) : List R :=
  (List.range m.size).map (fun i =>
    ((m.rows.getD i []).map (fun e => e.2 * u.getD e.1 0)).sum)

/-- Modelled from the spec: `NinePointLinearOp::mult(u)`, multiplication by a
per-grid-point coefficient. -/
def mult (m : NinePointLinearOp R) (u : List R) : NinePointLinearOp R :=
  { m with
    rows := (List.range m.size).map (fun i =>
      (m.rows.getD i []).map (fun e => (e.1, e.2 * u.getD i 0))) }

end NinePointLinearOp

/-- The constructors of the operator algebra used by the Heston operator.
Their band coefficients are not part of the sources under study, so they are
parameters. -/
structure OperatorAlgebra (R : Type) where
  /-- The constructor `FirstDerivativeOp(direction, mesher)`. -/
  firstDerivativeOp : Nat → FdmMesher R → TripleBandLinearOp R
  /-- The constructor `SecondDerivativeOp(direction, mesher)`. -/
  secondDerivativeOp : Nat → FdmMesher R → TripleBandLinearOp R
  /-- The constructor `SecondOrderMixedDerivativeOp(d0, d1, mesher)`. -/
  secondOrderMixedDerivativeOp : Nat → Nat → FdmMesher R → NinePointLinearOp R
  /-- The constructor `TripleBandLinearOp(direction, mesher)`. -/
  tripleBandLinearOp : Nat → FdmMesher R → TripleBandLinearOp R
  /-- The function `std::sqrt`, applied elementwise by `Sqrt`. -/
  sqrt : R → R

/-! ### Market data and process -/

/-- A yield curve, seen through `forwardRate(t1, t2, Continuous).rate()`. -/
structure YieldTermStructure (R : Type) where
  forwardRate : R → R → R

/-- A quanto helper, seen through `quantoAdjustment(sigma, t1, t2)`. -/
structure FdmQuantoHelper (R : Type) where
  quantoAdjustment : List R → R → R → List R

/-- A leverage function: `maxTime()`, `minStrike()`, `maxStrike()` and
`localVol(time, underlyingLevel, true)`. -/
structure LocalVolTermStructure (R : Type) where
  maxTime : R
  minStrike : R
  maxStrike : R
  localVol : R → R → R

/-- The part of a `HestonProcess` read by the operator. -/
structure HestonProcess (R : Type) where
  rho : R
  sigma : R
  kappa : R
  theta : R
  riskFreeRate : YieldTermStructure R
  dividendYield : YieldTermStructure R

/-! ### `FdmHestonEquityPart` -/

/-- The members of `FdmHestonEquityPart`. -/
structure FdmHestonEquityPart (R : Type) where
  varianceValues_ : List R
  volatilityValues_ : List R
  L_ : List R
  dxMap_ : TripleBandLinearOp R
  dxxMap_ : TripleBandLinearOp R
  mapT_ : TripleBandLinearOp R
  mesher_ : FdmMesher R
  rTS_ : YieldTermStructure R
  qTS_ : YieldTermStructure R
  quantoHelper_ : Option (FdmQuantoHelper R)
  leverageFct_ : Option (LocalVolTermStructure R)

namespace FdmHestonEquityPart

variable {R : Type} [LinearOrderedField R]

/-- The loop of the constructor: the variance term is set to zero on the two
extreme indices of the equity dimension.  (`layout->dim()[0]-1` is an
unsigned subtraction; it can only wrap when `dim()[0]` is 0, and then the
layout has no node and the loop body is never run.) -/
def zeroBoundary (layout : FdmLinearOpLayout) (varianceValues : List R) : List R :=
  layout.iterators.foldl (fun v iter =>
    if iter.coordinates.getD 0 0 = 0
        ∨ iter.coordinates.getD 0 0 = layout.dim.getD 0 0 - 1 then
      v.set iter.index 0
    else v) varianceValues

/-- The constructor `FdmHestonEquityPart::FdmHestonEquityPart`.  `L_` starts
empty, and `mapT_` as `TripleBandLinearOp(0, mesher)` leaves it. -/
def create (alg : OperatorAlgebra R) (mesher : FdmMesher R)
    (rTS qTS : YieldTermStructure R) (quantoHelper : Option (FdmQuantoHelper R))
    (leverageFct : Option (LocalVolTermStructure R)) : FdmHestonEquityPart R :=
  let varianceValues :=
    zeroBoundary mesher.layout (QLArray.scale 0.5 (mesher.locations 1))
  { varianceValues_ := varianceValues
    volatilityValues_ := QLArray.mapFn alg.sqrt (QLArray.scale 2 varianceValues)
    L_ := []
    dxMap_ := alg.firstDerivativeOp 0 mesher
    dxxMap_ := (alg.secondDerivativeOp 0 mesher).mult (QLArray.scale 0.5 (mesher.locations 1))
    mapT_ := alg.tripleBandLinearOp 0 mesher
    mesher_ := mesher
    rTS_ := rTS
    qTS_ := qTS
    quantoHelper_ := quantoHelper
    leverageFct_ := leverageFct }

/-- The method `FdmHestonEquityPart::getLeverageFctSlice(t1, t2)`. -/
def getLeverageFctSlice (exp : R → R) (p : FdmHestonEquityPart R) (t1 t2 : R) : List R :=
  let layout := p.mesher_.layout
  let v : List R := QLArray.fill layout.size 1
  match p.leverageFct_ with
  | none => v
  | some leverageFct =>
    let t := 0.5 * (t1 + t2)
    let time := min leverageFct.maxTime t
    layout.iterators.foldl (fun v iter =>
      let nx := iter.coordinates.getD 0 0
      if iter.coordinates.getD 1 0 = 0 then
        let x := exp (p.mesher_.location iter 0)
        let spot := min leverageFct.maxStrike (max leverageFct.minStrike x)
        v.set nx (max 0.01 (leverageFct.localVol time spot))
      else
        v.set iter.index (v.getD nx 0)) v

/-- The first argument of the `axpyb` call of `setTime`: the coefficient of the
first-derivative operator `dxMap_`, given the leverage slice `L`. -/
def driftCoefficient (p : FdmHestonEquityPart R) (L : List R) (t1 t2 : R) : List R :=
  let r := p.rTS_.forwardRate t1 t2
  let q := p.qTS_.forwardRate t1 t2
  let Lsquare := QLArray.mul L L
  match p.quantoHelper_ with
  | some quantoHelper =>
    QLArray.sub (QLArray.rsub (r - q) (QLArray.mul p.varianceValues_ Lsquare))
      (quantoHelper.quantoAdjustment (QLArray.mul p.volatilityValues_ L) t1 t2)
  | none => QLArray.rsub (r - q) (QLArray.mul p.varianceValues_ Lsquare)

/-- The method `FdmHestonEquityPart::setTime(t1, t2)`. -/
def setTime (exp : R → R) (p : FdmHestonEquityPart R) (t1 t2 : R) : FdmHestonEquityPart R :=
  let r := p.rTS_.forwardRate t1 t2
  let L := p.getLeverageFctSlice exp t1 t2
  let Lsquare := QLArray.mul L L
  { p with
    L_ := L
    mapT_ := p.mapT_.axpyb (p.driftCoefficient L t1 t2) p.dxMap_
      (p.dxxMap_.mult Lsquare) (QLArray.fill 1 (-0.5 * r)) }

/-- The accessor `getMap()`. -/
def getMap (p : FdmHestonEquityPart R) : TripleBandLinearOp R := p.mapT_

/-- The accessor `getL()`. -/
def getL (p : FdmHestonEquityPart R) : List R := p.L_

end FdmHestonEquityPart

/-! ### `FdmHestonVariancePart` -/

/-- The members of `FdmHestonVariancePart`. -/
structure FdmHestonVariancePart (R : Type) where
  dyMap_ : TripleBandLinearOp R
  mapT_ : TripleBandLinearOp R
  rTS_ : YieldTermStructure R

namespace FdmHestonVariancePart

variable {R : Type} [LinearOrderedField R]

/-- The constructor `FdmHestonVariancePart::FdmHestonVariancePart`. -/
def create (alg : OperatorAlgebra R) (mesher : FdmMesher R) (rTS : YieldTermStructure R)
    (mixedSigma kappa theta : R) : FdmHestonVariancePart R :=
  { dyMap_ :=
      ((alg.secondDerivativeOp 1 mesher).mult
          (QLArray.scale (0.5 * mixedSigma * mixedSigma) (mesher.locations 1))).add
        ((alg.firstDerivativeOp 1 mesher).mult
          (QLArray.scale kappa (QLArray.rsub theta (mesher.locations 1))))
    mapT_ := alg.tripleBandLinearOp 1 mesher
    rTS_ := rTS }

/-- The method `FdmHestonVariancePart::setTime(t1, t2)`. -/
def setTime (p : FdmHestonVariancePart R) (t1 t2 : R) : FdmHestonVariancePart R :=
  let r := p.rTS_.forwardRate t1 t2
  { p with mapT_ := p.mapT_.axpyb [] p.dyMap_ p.dyMap_ (QLArray.fill 1 (-0.5 * r)) }

/-- The accessor `getMap()`. -/
def getMap (p : FdmHestonVariancePart R) : TripleBandLinearOp R := p.mapT_

end FdmHestonVariancePart

/-! ### `FdmHestonOp` -/

/-- The members of `FdmHestonOp`. -/
structure FdmHestonOp (R : Type) where
  correlationMap_ : NinePointLinearOp R
  dyMap_ : FdmHestonVariancePart R
  dxMap_ : FdmHestonEquityPart R

namespace FdmHestonOp

variable {R : Type} [LinearOrderedField R]

/-- The constructor `FdmHestonOp::FdmHestonOp`. -/
def create (alg : OperatorAlgebra R) (mesher : FdmMesher R) (hestonProcess : HestonProcess R)
    (quantoHelper : Option (FdmQuantoHelper R))
    (leverageFct : Option (LocalVolTermStructure R)) (mixingFactor : R) : FdmHestonOp R :=
  { correlationMap_ :=
      (alg.secondOrderMixedDerivativeOp 0 1 mesher).mult
        (QLArray.scale (hestonProcess.rho * hestonProcess.sigma * mixingFactor)
          (mesher.locations 1))
    dyMap_ := FdmHestonVariancePart.create alg mesher hestonProcess.riskFreeRate
      (hestonProcess.sigma * mixingFactor) hestonProcess.kappa hestonProcess.theta
    dxMap_ := FdmHestonEquityPart.create alg mesher hestonProcess.riskFreeRate
      hestonProcess.dividendYield quantoHelper leverageFct }

/-- The method `FdmHestonOp::setTime(t1, t2)`. -/
def setTime (exp : R → R) (op : FdmHestonOp R) (t1 t2 : R) : FdmHestonOp R :=
  { op with
    dxMap_ := op.dxMap_.setTime exp t1 t2
    dyMap_ := op.dyMap_.setTime t1 t2 }

/-- The method `FdmHestonOp::size()`. -/
def size (_op : FdmHestonOp R) : Nat := 2

/-- The method `FdmHestonOp::apply(u)`. -/
def apply (op : FdmHestonOp R) (u : List R) : List R :=
  QLArray.add (QLArray.add (op.dyMap_.getMap.apply u) (op.dxMap_.getMap.apply u))
    (QLArray.mul op.dxMap_.getL (op.correlationMap_.apply u))

/-- The method `FdmHestonOp::apply_direction(direction, r)`. -/
def apply_direction (op : FdmHestonOp R) (direction : Nat) (r : List R) :
    Except Error (List R) :=
  if direction = 0 then
    .ok (op.dxMap_.getMap.apply r)
  else if direction = 1 then
    .ok (op.dyMap_.getMap.apply r)
  else
    .error (.fail "direction too large")

/-- The method `FdmHestonOp::apply_mixed(r)`. -/
def apply_mixed (op : FdmHestonOp R) (r : List R) : List R :=
  QLArray.mul op.dxMap_.getL (op.correlationMap_.apply r)

/-- A banded solve whose failure is raised as a computation failure. -/
def raiseOnFailure (x : Option (List R)) : Except Error (List R) :=
  match x with
  | some y => .ok y
  | none => .error .computation

/-- The method `FdmHestonOp::solve_splitting(direction, r, a)`. -/
def solve_splitting (solve : BandedSolve R) (op : FdmHestonOp R) (direction : Nat)
    (r : List R) (a : R) : Except Error (List R) :=
  if direction = 0 then
    raiseOnFailure (solve op.dxMap_.getMap r a 1.0)
  else if direction = 1 then
    raiseOnFailure (solve op.dyMap_.getMap r a 1.0)
  else
    .error (.fail "direction too large")

/-- The method `FdmHestonOp::preconditioner(r, dt)`. -/
def preconditioner (solve : BandedSolve R) (op : FdmHestonOp R) (r : List R) (dt : R) :
    Except Error (List R) := do
  let x ← solve_splitting solve op 0 r dt
  solve_splitting solve op 1 x dt

/-- A call of a `const` member function `f` that takes its array argument by
`const` reference, as a step on the pair (receiver, argument): the call
returns the outcome of `f` and leaves the pair as it finds it. -/
def constCall {S A B : Type} (f : S → A → B) (s : S) (a : A) : (S × A) × B :=
  ((s, a), f s a)

end FdmHestonOp

/-! ### Instruments -/

/-- A `Date`, by its serial number; dates compare as their serial numbers. -/
abbrev Date := Nat

/-- The enumeration `Exercise::Type`; `unknown` is a value outside its three
enumerators. -/
inductive ExerciseType where
  | American
  | Bermudan
  | European
  | unknown
  deriving DecidableEq, Repr

/-- An `Exercise`, seen through `type()` and `lastDate()`. -/
structure Exercise where
  type : ExerciseType
  lastDate : Date
  deriving DecidableEq, Repr

/-- A `StrikedTypePayoff`, seen through `strike()`. -/
structure StrikedTypePayoff (R : Type) where
  strike : R

/-- A `Dividend`: its `date()`, its `amount()` and its `amount(underlying)`. -/
structure Dividend (R : Type) where
  date : Date
  amount : R
  amountAt : R → R

/-- Modelled from the spec: `OneAssetOption::arguments::validate()`, which is
not part of the sources under study: it rejects a missing required
sub-object (payoff, exercise). -/
def OneAssetOption.arguments.validate {R : Type} (payoff : Option (StrikedTypePayoff R))
    (exercise : Option Exercise) : Except Error Unit :=
  match payoff, exercise with
  | none, _ => .error (.fail "no payoff given")
  | some _, none => .error (.fail "no exercise given")
  | some _, some _ => .ok ()

/-- The members of `DividendVanillaOption::arguments`. -/
structure DividendVanillaOption.arguments (R : Type) where
  payoff : Option (StrikedTypePayoff R)
  exercise : Option Exercise
  cashFlow : List (Dividend R)

namespace DividendVanillaOption.arguments

variable {R : Type}

/-- The loop of `validate`, from index `i` on: the first dividend dated after
`exerciseDate` fails the `QL_REQUIRE`, with ordinal `i+1`. -/
def checkDates (exerciseDate : Date) : Nat → List (Dividend R) → Except Error Unit
  | _, [] => .ok ()
  | i, d :: ds =>
    if d.date ≤ exerciseDate then checkDates exerciseDate (i + 1) ds
    else .error (.dividendAfterExercise (i + 1) d.date exerciseDate)

/-- The method `DividendVanillaOption::arguments::validate()`.  The exercise is
dereferenced after the base validation; the base validation has rejected a
missing one, so the branch `none` is not reached. -/
def validate (args : DividendVanillaOption.arguments R) : Except Error Unit := do
  OneAssetOption.arguments.validate args.payoff args.exercise
  match args.exercise with
  | none => .error .computation
  | some exercise =>
    let exerciseDate := exercise.lastDate
    checkDates exerciseDate 0 args.cashFlow

end DividendVanillaOption.arguments

/-! ### A small operator, for evaluation -/

namespace Example

/-- A layout of three equity nodes by two variance nodes. -/
def layout : FdmLinearOpLayout := { dim := [3, 2] }

/-- Log-equity locations -1, 0, 1 and variance locations 1, 4. -/
def mesher : FdmMesher ℚ := { layout := layout, locs := [[-1, 0, 1], [1, 4]] }

/-- A band operator over `layout` with the given constant bands. -/
def band (direction : Nat) (l d u : ℚ) : TripleBandLinearOp ℚ :=
  { direction := direction
    size := 6
    i0 := [0, 0, 1, 3, 3, 4]
    i2 := [1, 2, 2, 4, 5, 5]
    lower := List.replicate 6 l
    diag := List.replicate 6 d
    upper := List.replicate 6 u }

/-- Operator constructors for evaluation. -/
def alg : OperatorAlgebra ℚ :=
  { firstDerivativeOp := fun d _ => band d (-1) 0 1
    secondDerivativeOp := fun d _ => band d 1 (-2) 1
    secondOrderMixedDerivativeOp := fun _ _ _ =>
      { size := 6, rows := List.replicate 6 [(0, 1), (5, -1)] }
    tripleBandLinearOp := fun d _ => band d 0 0 0
    sqrt := fun x => x }

/-- A flat curve. -/
def flat (rate : ℚ) : YieldTermStructure ℚ := { forwardRate := fun _ _ => rate }

/-- A process with rates 5% and 2%. -/
def process : HestonProcess ℚ :=
  { rho := -1/2, sigma := 1, kappa := 2, theta := 1
    riskFreeRate := flat (5/100), dividendYield := flat (2/100) }

/-- A leverage function whose local volatility is time times level, valid up
to time 1 and for levels between 1 and 2. -/
def leverage : LocalVolTermStructure ℚ :=
  { maxTime := 1, minStrike := 1, maxStrike := 2, localVol := fun t s => t * s }

/-- A stand-in for `std::exp` on the rationals. -/
def exp (x : ℚ) : ℚ := 1 + x

/-- The operator without leverage function, after `setTime(0, 1)`. -/
def op : FdmHestonOp ℚ :=
  (FdmHestonOp.create alg mesher process none none 1).setTime exp 0 1

/-- The equity part with the leverage function `leverage`. -/
def partL : FdmHestonEquityPart ℚ :=
  FdmHestonEquityPart.create alg mesher (flat (5/100)) (flat (2/100)) none (some leverage)

/-- A banded solve that ignores the off-diagonal bands: exact on diagonal
operators. -/
def diagonalSolve : BandedSolve ℚ := fun m r a b =>
  some ((List.range m.size).map (fun i => r.getD i 0 / (a * m.diag.getD i 0 + b)))

/-- A dividend of the given date and fixed amount. -/
def fixedDividend (date : Date) (amount : ℚ) : Dividend ℚ :=
  { date := date, amount := amount, amountAt := fun _ => amount }

/-- Arguments of an option exercised on day 100, with dividends on the days
given. -/
def dividendArgs (dates : List Date) : DividendVanillaOption.arguments ℚ :=
  { payoff := some { strike := 100 }
    exercise := some { type := .European, lastDate := 100 }
    cashFlow := dates.map (fun d => fixedDividend d 1) }

end Example

/-! ### Materialized operators -/

/-- Modelled from the spec: `SparseMatrix`, a matrix kept by rows, each row
listing the column index and the value of its entries. -/
structure SparseMatrix (R : Type) where
  rows : List (List (Nat × R))

/-- Modelled from the spec: the product of a materialized operator with an
array (dense multiplication of the same input). -/
def SparseMatrix.mulVec {R : Type} [LinearOrderedField R] (A : SparseMatrix R)
    (u : List R) : List R :=
  A.rows.map (fun row => (row.map (fun e => e.2 * u.getD e.1 0)).sum)

/-- Modelled from the spec: `TripleBandLinearOp::toMatrix()`, the
materialization of the three bands. -/
def TripleBandLinearOp.toMatrix {R : Type} [LinearOrderedField R]
    (m : TripleBandLinearOp R) : SparseMatrix R :=
  { rows := (List.range m.size).map (fun i =>
      [(m.i0.getD i 0, m.lower.getD i 0), (i, m.diag.getD i 0),
       (m.i2.getD i 0, m.upper.getD i 0)]) }

/-- Modelled from the spec: `NinePointLinearOp::toMatrix()`, the
materialization of the rows. -/
def NinePointLinearOp.toMatrix {R : Type} [LinearOrderedField R]
    (m : NinePointLinearOp R) : SparseMatrix R :=
  { rows := (List.range m.size).map (fun i => m.rows.getD i []) }

/-- The method `FdmHestonOp::toMatrixDecomp()`. -/
def FdmHestonOp.toMatrixDecomp {R : Type} [LinearOrderedField R] (op : FdmHestonOp R) :
    List (SparseMatrix R) :=
  [op.dxMap_.getMap.toMatrix, op.dyMap_.getMap.toMatrix, op.correlationMap_.toMatrix]

/-- The materialized representation applied to `u`, as the spec words it: the
sum, over the matrices of a decomposition, of matrix times `u`. -/
def applyMaterialized {R : Type} [LinearOrderedField R] (decomp : List (SparseMatrix R))
    (u : List R) : List R :=
  match decomp with
  | [] => []
  | A :: rest => rest.foldl (fun acc B => QLArray.add acc (B.mulVec u)) (A.mulVec u)

/-- The operators that the algebra builds along `direction` on `mesher` have one
row per node of the layout and share the neighbour indices of
`TripleBandLinearOp(direction, mesher)`. -/
def OperatorAlgebra.WellFormed {R : Type} (alg : OperatorAlgebra R) (mesher : FdmMesher R)
    (direction : Nat) : Prop :=
  (alg.tripleBandLinearOp direction mesher).size = mesher.layout.size
  ∧ (alg.firstDerivativeOp direction mesher).size = mesher.layout.size
  ∧ (alg.secondDerivativeOp direction mesher).size = mesher.layout.size
  ∧ (alg.firstDerivativeOp direction mesher).i0 = (alg.tripleBandLinearOp direction mesher).i0
  ∧ (alg.firstDerivativeOp direction mesher).i2 = (alg.tripleBandLinearOp direction mesher).i2
  ∧ (alg.secondDerivativeOp direction mesher).i0 = (alg.tripleBandLinearOp direction mesher).i0
  ∧ (alg.secondDerivativeOp direction mesher).i2 = (alg.tripleBandLinearOp direction mesher).i2

/-! ### `NonstandardSwaption` -/

/-- The members of `NonstandardSwaption::arguments` that the class declares
itself.  The classes `NonstandardSwap`, `Settlement::Type` and
`Settlement::Method` are not part of the sources under study; they are the
type parameters `Swap`, `SType` and `SMethod`. -/
structure NonstandardSwaption.arguments (Swap SType SMethod : Type) where
  swap : Option Swap
  exercise : Option Exercise
  settlementType : SType
  settlementMethod : SMethod

/-- The method `NonstandardSwaption::arguments::validate()`.  The base validation
`NonstandardSwap::arguments::validate()` and
`Settlement::checkTypeAndMethodConsistency` are not part of the sources under
study; they are the parameters `baseValidate` and `checkConsistency`. -/
def NonstandardSwaption.arguments.validate {Swap SType SMethod : Type}
    (baseValidate : NonstandardSwaption.arguments Swap SType SMethod → Except Error Unit)
    (checkConsistency : SType → SMethod → Except Error Unit)
    (args : NonstandardSwaption.arguments Swap SType SMethod) : Except Error Unit := do
  baseValidate args
  if args.swap.isNone then
    throw (.fail "underlying non standard swap not set")
  if args.exercise.isNone then
    throw (.fail "exercise not set")
  checkConsistency args.settlementType args.settlementMethod

/-! ### The instrument/engine boundary -/

/-- The object behind a `PricingEngine::arguments*`, by its dynamic type: an
object that is a `DividendVanillaOption::arguments`, one that is a
`NonstandardSwaption::arguments`, or one of another class. -/
inductive PricingEngine.arguments (R Swap SType SMethod : Type) where
  | dividendVanillaOption (a : DividendVanillaOption.arguments R)
  | nonstandardSwaption (a : NonstandardSwaption.arguments Swap SType SMethod)
  | other (className : String)

/-- The members of `DividendVanillaOption` read by the functions below. -/
structure DividendVanillaOption (R : Type) where
  payoff_ : Option (StrikedTypePayoff R)
  exercise_ : Option Exercise
  cashFlow_ : List (Dividend R)

/-- The method `DividendVanillaOption::setupArguments(args)`.  The base set-up
`OneAssetOption::setupArguments` is not part of the sources under study; it
is the parameter `baseSetup`, which may fail or rewrite the object. -/
def DividendVanillaOption.setupArguments {R Swap SType SMethod : Type}
    (baseSetup : PricingEngine.arguments R Swap SType SMethod →
      Except Error (PricingEngine.arguments R Swap SType SMethod))
    (option : DividendVanillaOption R) (args : PricingEngine.arguments R Swap SType SMethod) :
    Except Error (PricingEngine.arguments R Swap SType SMethod) := do
  let args ← baseSetup args
  match args with
  | .dividendVanillaOption arguments =>
    pure (.dividendVanillaOption { arguments with cashFlow := option.cashFlow_ })
  | _ => throw (.fail "wrong engine type")

/-- The members of `NonstandardSwaption` read by `setupArguments`. -/
structure NonstandardSwaption (Swap SType SMethod : Type) where
  swap_ : Option Swap
  exercise_ : Option Exercise
  settlementType_ : SType
  settlementMethod_ : SMethod

/-- The method `NonstandardSwaption::setupArguments(args)`.  The set-up of the
underlying swap, `swap_->setupArguments(args)`, is not part of the sources
under study; it is the parameter `swapSetup`. -/
def NonstandardSwaption.setupArguments {R Swap SType SMethod : Type}
    (swapSetup : PricingEngine.arguments R Swap SType SMethod →
      Except Error (PricingEngine.arguments R Swap SType SMethod))
    (swaption : NonstandardSwaption Swap SType SMethod)
    (args : PricingEngine.arguments R Swap SType SMethod) :
    Except Error (PricingEngine.arguments R Swap SType SMethod) := do
  let args ← swapSetup args
  match args with
  | .nonstandardSwaption _ =>
    pure (.nonstandardSwaption
      { swap := swaption.swap_
        exercise := swaption.exercise_
        settlementType := swaption.settlementType_
        settlementMethod := swaption.settlementMethod_ })
  | _ => throw (.fail "argument types do not match")

/-- An `Event` of a multi-period engine: a `Dividend`, or an event of another
class with its date. -/
inductive Event (R : Type) where
  | dividend (d : Dividend R)
  | other (date : Date)

/-- The method `FDDividendEngineBase::setupArguments(a)`, on an engine state
`E`.  The base set-up `FDMultiPeriodEngine::setupArguments(a, events)` is not
part of the sources under study; it is the parameter `baseSetup`. -/
def FDDividendEngineBase.setupArguments {R Swap SType SMethod E : Type}
    (baseSetup : PricingEngine.arguments R Swap SType SMethod → List (Event R) → E →
      Except Error E)
    (engine : E) (a : PricingEngine.arguments R Swap SType SMethod) : Except Error E :=
  match a with
  | .dividendVanillaOption args =>
    let events : List (Event R) := args.cashFlow.map Event.dividend
    baseSetup a events engine
  | _ => .error (.fail "incorrect argument type")

/-! ### Implied volatility -/

/-- The engines built by the `impliedVolatility` methods.  The dividends are
`none` when the constructor without dividend schedule is called. -/
inductive VanillaEngine (R : Type) where
  | AnalyticEuropeanEngine
  | AnalyticDividendEuropeanEngine (dividends : Option (List (Dividend R)))
  | FdBlackScholesVanillaEngine (dividends : Option (List (Dividend R)))

/-- What a call of `impliedVolatility` does: its outcome, and the engines with
which `detail::ImpliedVolatilityHelper::calculate` was called, in order. -/
structure ImpliedVolatilityRun (R : Type) where
  outcome : Except Error R
  searches : List (VanillaEngine R)

/-- The method `DividendVanillaOption::impliedVolatility`.  `isExpired()` is the
input `expired`; the search `detail::ImpliedVolatilityHelper::calculate`, with
the target value, accuracy, bounds and cloned process it is given, is the
parameter `calculate`.  A missing exercise makes `exercise_->type()` the
dereference of an empty pointer. -/
def DividendVanillaOption.impliedVolatility {R : Type}
    (calculate : VanillaEngine R → Except Error R) (expired : Bool)
    (option : DividendVanillaOption R) : ImpliedVolatilityRun R :=
  if expired then
    { outcome := .error (.fail "option expired"), searches := [] }
  else
    match option.exercise_ with
    | none => { outcome := .error .nullPointer, searches := [] }
    | some exercise =>
      match exercise.type with
      | .European =>
        { outcome := calculate (.AnalyticDividendEuropeanEngine none)
          searches := [.AnalyticDividendEuropeanEngine none] }
      | .American =>
        { outcome := calculate (.FdBlackScholesVanillaEngine none)
          searches := [.FdBlackScholesVanillaEngine none] }
      | .Bermudan =>
        { outcome := .error (.fail "engine not available for Bermudan option with dividends")
          searches := [] }
      | .unknown =>
        { outcome := .error (.fail "unknown exercise type"), searches := [] }

/-! ### `SwaptionHelper` -/

/-- The enumeration `VolatilityType`; `unknown` is a value outside its two
enumerators. -/
inductive VolatilityType where
  | ShiftedLognormal
  | Normal
  | unknown
  deriving DecidableEq, Repr

/-- The pricing engines a `SwaptionHelper` sets on its swaption: the Black
engine (volatility, shift), the Bachelier engine (volatility), both on the
helper's term structure with day counter `Actual365Fixed`, and an engine
handed to the helper from outside, by an identifier. -/
inductive SwaptionEngine (R : Type) where
  | BlackSwaptionEngine (vol : R) (shift : R)
  | BachelierSwaptionEngine (vol : R)
  | external (id : Nat)

/-- The members of `SwaptionHelper` used by `blackPrice`; `swaptionEngine` is
the pricing engine currently set on `swaption_`. -/
structure SwaptionHelper (R : Type) where
  volatilityType_ : VolatilityType
  shift_ : R
  engine_ : Option (SwaptionEngine R)
  swaptionEngine : Option (SwaptionEngine R)

/-- The method `SwaptionHelper::blackPrice(sigma)`, returning the value and the
helper it leaves.  `calculate()` and `swaption_->NPV()` are not part of the
sources under study; they are the parameters `calculate` and `npv`. -/
def SwaptionHelper.blackPrice {R : Type}
    (calculate : SwaptionHelper R → Except Error (SwaptionHelper R))
    (npv : SwaptionHelper R → Except Error R)
    (helper : SwaptionHelper R) (sigma : R) : Except Error (R × SwaptionHelper R) := do
  let helper ← calculate helper
  let engine ← match helper.volatilityType_ with
    | .ShiftedLognormal => pure (SwaptionEngine.BlackSwaptionEngine sigma helper.shift_)
    | .Normal => pure (SwaptionEngine.BachelierSwaptionEngine sigma)
    | .unknown => throw Error.canNotConstructEngine
  let helper := { helper with swaptionEngine := some engine }
  let value ← npv helper
  let helper := { helper with swaptionEngine := helper.engine_ }
  pure (value, helper)

/-! ### `FdCIRVanillaEngine` -/

/-- Modelled from the spec: `FdmSchemeDesc`, an immutable named set of
splitting weights. -/
structure FdmSchemeDesc (R : Type) where
  type : String
  theta : R
  mu : R

/-- A `CoxIngersollRossProcess`, seen through `x0()`. -/
structure CoxIngersollRossProcess (R : Type) where
  x0 : R

/-- A `GeneralizedBlackScholesProcess`, seen through `x0()`, `time(date)` and the
reference date and day counter of `riskFreeRate()`. -/
structure GeneralizedBlackScholesProcess (R : Type) where
  x0 : R
  time : Date → R
  riskFreeReferenceDate : Date
  riskFreeDayCounter : String

/-- The object built by `new FdmSimpleProcess1dMesher(size, process, maturity,
tAvgSteps)`, by its constructor arguments. -/
structure FdmSimpleProcess1dMesher (R : Type) where
  size : Nat
  process : CoxIngersollRossProcess R
  maturity : R
  tAvgSteps : Nat

/-- The object built by `new FdmBlackScholesMesher(...)`, by its constructor
arguments; `Null<Real>()` is `none`. -/
structure FdmBlackScholesMesher (R : Type) where
  size : Nat
  process : GeneralizedBlackScholesProcess R
  maturity : R
  strike : R
  xMinConstraint : Option R
  xMaxConstraint : Option R
  eps : R
  scaleFactor : R
  cPoint : R × R
  dividendSchedule : List (Dividend R)
  fdmQuantoHelper : Option (FdmQuantoHelper R)
  spotAdjustment : R

/-- The object built by `new FdmMesherComposite(m1, m2)`: the mesher of
dimension 0 and the mesher of dimension 1. -/
structure FdmMesherComposite (R : Type) where
  m1 : FdmBlackScholesMesher R
  m2 : FdmSimpleProcess1dMesher R

/-- The object built by `new FdmLogInnerValue(payoff, mesher, direction)`. -/
structure FdmLogInnerValue (R : Type) where
  payoff : Option (StrikedTypePayoff R)
  mesher : FdmMesherComposite R
  direction : Nat

/-- The object returned by `FdmStepConditionComposite::vanillaComposite(...)`, by
the arguments of the call. -/
structure FdmStepConditionComposite (R : Type) where
  cashFlow : List (Dividend R)
  exercise : Option Exercise
  mesher : FdmMesherComposite R
  calculator : FdmLogInnerValue R
  refDate : Date
  dayCounter : String

/-- A boundary condition; none is built by the code under study. -/
structure FdmBoundaryCondition where
  direction : Nat
  deriving DecidableEq, Repr

/-- The aggregate `FdmSolverDesc`. -/
structure FdmSolverDesc (R : Type) where
  mesher : FdmMesherComposite R
  bcSet : List FdmBoundaryCondition
  condition : FdmStepConditionComposite R
  calculator : FdmLogInnerValue R
  maturity : R
  timeSteps : Nat
  dampingSteps : Nat

/-- The object built by `new FdmCIRSolver(...)`, by its constructor arguments. -/
structure FdmCIRSolver (R : Type) where
  cirProcess : CoxIngersollRossProcess R
  bsProcess : GeneralizedBlackScholesProcess R
  solverDesc : FdmSolverDesc R
  schemeDesc : FdmSchemeDesc R
  rho : R
  strike : R

/-- The queries of `FdmCIRSolver`, which is not part of the sources under study:
parameters. -/
structure FdmCIRSolverQueries (R : Type) where
  valueAt : FdmCIRSolver R → R → R → Except Error R
  deltaAt : FdmCIRSolver R → R → R → Except Error R
  gammaAt : FdmCIRSolver R → R → R → Except Error R
  thetaAt : FdmCIRSolver R → R → R → Except Error R

/-- The results of a one-asset option: the four fields written by the engine
(`none` is `Null<Real>()`), and the remaining fields of the class, whose
declaration is not part of the sources under study, as one value of the type
parameter `Others`. -/
structure OneAssetOption.results (R Others : Type) where
  value : Option R
  delta : Option R
  gamma : Option R
  theta : Option R
  others : Others

/-- The members of `FdCIRVanillaEngine`, with the `arguments_` and `results_` it
has as a `DividendVanillaOption::engine`. -/
structure FdCIRVanillaEngine (R Others : Type) where
  bsProcess_ : GeneralizedBlackScholesProcess R
  cirProcess_ : CoxIngersollRossProcess R
  quantoHelper_ : Option (FdmQuantoHelper R)
  dividends_ : List (Dividend R)
  explicitDividends_ : Bool
  tGrid_ : Nat
  xGrid_ : Nat
  rGrid_ : Nat
  dampingSteps_ : Nat
  rho_ : R
  schemeDesc_ : FdmSchemeDesc R
  arguments_ : DividendVanillaOption.arguments R
  results_ : OneAssetOption.results R Others

namespace FdCIRVanillaEngine

variable {R Others : Type} [LinearOrderedField R]

/-- The constructor of `FdCIRVanillaEngine` without dividend schedule.
`dividends_` and `arguments_` are default-constructed; the content of the
default-constructed `results_` is the parameter `results`. -/
def create (results : OneAssetOption.results R Others)
    (cirProcess : CoxIngersollRossProcess R) (bsProcess : GeneralizedBlackScholesProcess R)
    (tGrid xGrid rGrid dampingSteps : Nat) (rho : R) (schemeDesc : FdmSchemeDesc R)
    (quantoHelper : Option (FdmQuantoHelper R)) : FdCIRVanillaEngine R Others :=
  { bsProcess_ := bsProcess, cirProcess_ := cirProcess, quantoHelper_ := quantoHelper
    dividends_ := [], explicitDividends_ := false
    tGrid_ := tGrid, xGrid_ := xGrid, rGrid_ := rGrid, dampingSteps_ := dampingSteps
    rho_ := rho, schemeDesc_ := schemeDesc
    arguments_ := { payoff := none, exercise := none, cashFlow := [] }
    results_ := results }

/-- The constructor of `FdCIRVanillaEngine` that takes a dividend schedule. -/
def createWithDividends (results : OneAssetOption.results R Others)
    (cirProcess : CoxIngersollRossProcess R) (bsProcess : GeneralizedBlackScholesProcess R)
    (dividends : List (Dividend R))
    (tGrid xGrid rGrid dampingSteps : Nat) (rho : R) (schemeDesc : FdmSchemeDesc R)
    (quantoHelper : Option (FdmQuantoHelper R)) : FdCIRVanillaEngine R Others :=
  { bsProcess_ := bsProcess, cirProcess_ := cirProcess, quantoHelper_ := quantoHelper
    dividends_ := dividends, explicitDividends_ := true
    tGrid_ := tGrid, xGrid_ := xGrid, rGrid_ := rGrid, dampingSteps_ := dampingSteps
    rho_ := rho, schemeDesc_ := schemeDesc
    arguments_ := { payoff := none, exercise := none, cashFlow := [] }
    results_ := results }

/-- An instrument writing its arguments through `getArguments()`. -/
def withArguments (e : FdCIRVanillaEngine R Others) (args : DividendVanillaOption.arguments R) :
    FdCIRVanillaEngine R Others :=
  { e with arguments_ := args }

/-- The method `FdCIRVanillaEngine::getSolverDesc(equityScaleFactor)`; the
parameter has no name in the definition.  `arguments_.payoff` is kept as a
striked-type payoff, `none` when the pointer is empty or the cast fails. -/
def getSolverDesc (e : FdCIRVanillaEngine R Others) (_equityScaleFactor : R) :
    Except Error (FdmSolverDesc R) :=
  let passedDividends := if e.explicitDividends_ then e.dividends_ else e.arguments_.cashFlow
  match e.arguments_.exercise, e.arguments_.payoff with
  | some exercise, some payoff =>
    let maturity := e.bsProcess_.time exercise.lastDate
    let shortRateMesher : FdmSimpleProcess1dMesher R :=
      { size := e.rGrid_, process := e.cirProcess_, maturity := maturity, tAvgSteps := e.tGrid_ }
    let equityMesher : FdmBlackScholesMesher R :=
      { size := e.xGrid_, process := e.bsProcess_, maturity := maturity
        strike := payoff.strike, xMinConstraint := none, xMaxConstraint := none
        eps := 0.0001, scaleFactor := 1.5, cPoint := (payoff.strike, 0.1)
        dividendSchedule := passedDividends, fdmQuantoHelper := e.quantoHelper_
        spotAdjustment := 0.0 }
    let mesher : FdmMesherComposite R := { m1 := equityMesher, m2 := shortRateMesher }
    let calculator : FdmLogInnerValue R :=
      { payoff := e.arguments_.payoff, mesher := mesher, direction := 0 }
    let conditions : FdmStepConditionComposite R :=
      { cashFlow := passedDividends, exercise := e.arguments_.exercise
        mesher := mesher, calculator := calculator
        refDate := e.bsProcess_.riskFreeReferenceDate
        dayCounter := e.bsProcess_.riskFreeDayCounter }
    let boundaries : List FdmBoundaryCondition := []
    .ok { mesher := mesher, bcSet := boundaries, condition := conditions
          calculator := calculator, maturity := maturity
          timeSteps := e.tGrid_, dampingSteps := e.dampingSteps_ }
  | _, _ => .error .nullPointer

/-- The method `FdCIRVanillaEngine::calculate()`, returning the engine it
leaves. -/
def calculate (queries : FdmCIRSolverQueries R) (e : FdCIRVanillaEngine R Others) :
    Except Error (FdCIRVanillaEngine R Others) :=
  match e.arguments_.payoff with
  | none => .error .nullPointer
  | some payoff => do
    let solverDesc ← e.getSolverDesc 1.5
    let solver : FdmCIRSolver R :=
      { cirProcess := e.cirProcess_, bsProcess := e.bsProcess_, solverDesc := solverDesc
        schemeDesc := e.schemeDesc_, rho := e.rho_, strike := payoff.strike }
    let r0 := e.cirProcess_.x0
    let spot := e.bsProcess_.x0
    let value ← queries.valueAt solver spot r0
    let delta ← queries.deltaAt solver spot r0
    let gamma ← queries.gammaAt solver spot r0
    let theta ← queries.thetaAt solver spot r0
    pure { e with results_ := { e.results_ with
      value := some value, delta := some delta, gamma := some gamma, theta := some theta } }

end FdCIRVanillaEngine

/-! ### `MakeFdCIRVanillaEngine` -/

/-- The members of `MakeFdCIRVanillaEngine`. -/
structure MakeFdCIRVanillaEngine (R : Type) where
  cirProcess_ : CoxIngersollRossProcess R
  bsProcess_ : GeneralizedBlackScholesProcess R
  dividends_ : List (Dividend R)
  explicitDividends_ : Bool
  rho_ : R
  tGrid_ : Nat
  xGrid_ : Nat
  rGrid_ : Nat
  dampingSteps_ : Nat
  schemeDesc_ : FdmSchemeDesc R
  quantoHelper_ : Option (FdmQuantoHelper R)

namespace MakeFdCIRVanillaEngine

variable {R Others : Type} [LinearOrderedField R]

/-- The constructor of `MakeFdCIRVanillaEngine`, with the default member
initializers of the class.  The value of `FdmSchemeDesc::ModifiedHundsdorfer()`
is not part of the sources under study; it is the parameter
`modifiedHundsdorfer`. -/
def create (modifiedHundsdorfer : FdmSchemeDesc R) (cirProcess : CoxIngersollRossProcess R)
    (bsProcess : GeneralizedBlackScholesProcess R) (rho : R) : MakeFdCIRVanillaEngine R :=
  { cirProcess_ := cirProcess, bsProcess_ := bsProcess
    dividends_ := [], explicitDividends_ := false, rho_ := rho
    tGrid_ := 10, xGrid_ := 100, rGrid_ := 100, dampingSteps_ := 0
    schemeDesc_ := modifiedHundsdorfer, quantoHelper_ := none }

/-- The method `withQuantoHelper`. -/
def withQuantoHelper (m : MakeFdCIRVanillaEngine R) (quantoHelper : Option (FdmQuantoHelper R)) :
    MakeFdCIRVanillaEngine R :=
  { m with quantoHelper_ := quantoHelper }

/-- The method `withTGrid`. -/
def withTGrid (m : MakeFdCIRVanillaEngine R) (tGrid : Nat) : MakeFdCIRVanillaEngine R :=
  { m with tGrid_ := tGrid }

/-- The method `withXGrid`. -/
def withXGrid (m : MakeFdCIRVanillaEngine R) (xGrid : Nat) : MakeFdCIRVanillaEngine R :=
  { m with xGrid_ := xGrid }

/-- The method `withRGrid`. -/
def withRGrid (m : MakeFdCIRVanillaEngine R) (rGrid : Nat) : MakeFdCIRVanillaEngine R :=
  { m with rGrid_ := rGrid }

/-- The method `withDampingSteps`. -/
def withDampingSteps (m : MakeFdCIRVanillaEngine R) (dampingSteps : Nat) :
    MakeFdCIRVanillaEngine R :=
  { m with dampingSteps_ := dampingSteps }

/-- The method `withFdmSchemeDesc`. -/
def withFdmSchemeDesc (m : MakeFdCIRVanillaEngine R) (schemeDesc : FdmSchemeDesc R) :
    MakeFdCIRVanillaEngine R :=
  { m with schemeDesc_ := schemeDesc }

/-- The method `withCashDividends`.  `DividendVector` is not part of the sources
under study; it is the parameter `dividendVector`. -/
def withCashDividends (dividendVector : List Date → List R → List (Dividend R))
    (m : MakeFdCIRVanillaEngine R) (dividendDates : List Date) (dividendAmounts : List R) :
    MakeFdCIRVanillaEngine R :=
  { m with dividends_ := dividendVector dividendDates dividendAmounts
           explicitDividends_ := true }

/-- The conversion `operator std::shared_ptr<PricingEngine>()`. -/
def toEngine (results : OneAssetOption.results R Others) (m : MakeFdCIRVanillaEngine R) :
    FdCIRVanillaEngine R Others :=
  if m.explicitDividends_ then
    FdCIRVanillaEngine.createWithDividends results m.cirProcess_ m.bsProcess_ m.dividends_
      m.tGrid_ m.xGrid_ m.rGrid_ m.dampingSteps_ m.rho_ m.schemeDesc_ m.quantoHelper_
  else
    FdCIRVanillaEngine.create results m.cirProcess_ m.bsProcess_
      m.tGrid_ m.xGrid_ m.rGrid_ m.dampingSteps_ m.rho_ m.schemeDesc_ m.quantoHelper_

/-- A call of one of the `with...` methods, with its arguments. -/
inductive Call (R : Type) where
  | withQuantoHelper (quantoHelper : Option (FdmQuantoHelper R))
  | withTGrid (tGrid : Nat)
  | withXGrid (xGrid : Nat)
  | withRGrid (rGrid : Nat)
  | withDampingSteps (dampingSteps : Nat)
  | withFdmSchemeDesc (schemeDesc : FdmSchemeDesc R)
  | withCashDividends (dividendDates : List Date) (dividendAmounts : List R)

/-- The option that a call sets, by the position of its method in the class. -/
def Call.option : Call R → Nat
  | .withQuantoHelper _ => 0
  | .withTGrid _ => 1
  | .withXGrid _ => 2
  | .withRGrid _ => 3
  | .withDampingSteps _ => 4
  | .withFdmSchemeDesc _ => 5
  | .withCashDividends _ _ => 6

/-- The builder after a call. -/
def call (dividendVector : List Date → List R → List (Dividend R))
    (m : MakeFdCIRVanillaEngine R) : Call R → MakeFdCIRVanillaEngine R
  | .withQuantoHelper q => m.withQuantoHelper q
  | .withTGrid n => m.withTGrid n
  | .withXGrid n => m.withXGrid n
  | .withRGrid n => m.withRGrid n
  | .withDampingSteps n => m.withDampingSteps n
  | .withFdmSchemeDesc s => m.withFdmSchemeDesc s
  | .withCashDividends dates amounts => m.withCashDividends dividendVector dates amounts

/-- The builder after a chain of calls, first call first. -/
def calls (dividendVector : List Date → List R → List (Dividend R))
    (m : MakeFdCIRVanillaEngine R) (cs : List (Call R)) : MakeFdCIRVanillaEngine R :=
  cs.foldl (call dividendVector) m

/-- The grid size that a call gives option `k` (1 `tGrid`, 2 `xGrid`, 3 `rGrid`,
4 `dampingSteps`), if it sets that option. -/
def Call.size (k : Nat) : Call R → Option Nat
  | .withTGrid n => if k = 1 then some n else none
  | .withXGrid n => if k = 2 then some n else none
  | .withRGrid n => if k = 3 then some n else none
  | .withDampingSteps n => if k = 4 then some n else none
  | _ => none

/-- The scheme that a call sets, if it sets one. -/
def Call.schemeDesc : Call R → Option (FdmSchemeDesc R)
  | .withFdmSchemeDesc s => some s
  | _ => none

/-- The quanto helper that a call sets, if it sets one. -/
def Call.quantoHelper : Call R → Option (Option (FdmQuantoHelper R))
  | .withQuantoHelper q => some q
  | _ => none

/-- The dividend schedule that a call sets, if it sets one. -/
def Call.dividends (dividendVector : List Date → List R → List (Dividend R)) :
    Call R → Option (List (Dividend R))
  | .withCashDividends dates amounts => some (dividendVector dates amounts)
  | _ => none

/-- The value set by the last call of a chain that sets one, `default` when no
call does; `value` tells what a call sets. -/
def lastSet {α : Type} (value : Call R → Option α) (cs : List (Call R)) (default : α) : α :=
  ((cs.filterMap value).getLast?).getD default

end MakeFdCIRVanillaEngine

/-! ### Instruments, for evaluation -/

namespace Example

/-- A consistency check on settlement codes: type and method agree when they are
the same code. -/
def checkConsistency (t m : Nat) : Except Error Unit :=
  if t = m then .ok () else .error (.fail "invalid settlement method")

/-- Arguments of a swaption on swap 7 with the exercise and settlement codes
given. -/
def swaptionArgs (exercise : Option Exercise) (t m : Nat) :
    NonstandardSwaption.arguments Nat Nat Nat :=
  { swap := some 7, exercise := exercise, settlementType := t, settlementMethod := m }

/-- A European exercise on day 100. -/
def european : Exercise := { type := .European, lastDate := 100 }

/-- A dividend option exercised on day 100 with dividends on days 30 and 60. -/
def dividendOption : DividendVanillaOption ℚ :=
  { payoff_ := some { strike := 100 }
    exercise_ := some european
    cashFlow_ := [fixedDividend 30 1, fixedDividend 60 2] }

/-- A swaption on swap 7. -/
def swaption : NonstandardSwaption Nat Nat Nat :=
  { swap_ := some 7, exercise_ := some european, settlementType_ := 0, settlementMethod_ := 0 }

/-- A base set-up that leaves the argument object as it is. -/
def noSetup (a : PricingEngine.arguments ℚ Nat Nat Nat) :
    Except Error (PricingEngine.arguments ℚ Nat Nat Nat) := .ok a

/-- A search that returns 1/5 with the analytic engines and fails with the
finite-difference engine. -/
def search : VanillaEngine ℚ → Except Error ℚ
  | .FdBlackScholesVanillaEngine _ => .error .computation
  | _ => .ok (1/5)

/-- A helper of lognormal type with shift 3/100 whose model engine is engine 1. -/
def helper : SwaptionHelper ℚ :=
  { volatilityType_ := .ShiftedLognormal, shift_ := 3/100
    engine_ := some (.external 1), swaptionEngine := none }

/-- A swaption value: the volatility of the engine that is set, 0 otherwise. -/
def npv (h : SwaptionHelper ℚ) : Except Error ℚ :=
  match h.swaptionEngine with
  | some (.BlackSwaptionEngine vol shift) => .ok (vol + shift)
  | some (.BachelierSwaptionEngine vol) => .ok vol
  | _ => .ok 0

end Example

/-! ### An operator with leverage, for evaluation -/

namespace Example

/-- The operator with the leverage function `leverage`, after `setTime(0, 1)`. -/
def opL : FdmHestonOp ℚ :=
  (FdmHestonOp.create alg mesher process none (some leverage) 1).setTime exp 0 1

end Example

/-! ### The CIR engine, for evaluation -/

namespace Example

/-- A CIR process starting at 4%. -/
def cir : CoxIngersollRossProcess ℚ := { x0 := 4/100 }

/-- A Black-Scholes process starting at 100, measuring time in years of 365
days from day 0. -/
def bs : GeneralizedBlackScholesProcess ℚ :=
  { x0 := 100, time := fun d => (d : ℚ) / 365
    riskFreeReferenceDate := 0, riskFreeDayCounter := "Actual365Fixed" }

/-- A scheme descriptor standing for `FdmSchemeDesc::ModifiedHundsdorfer()`. -/
def modifiedHundsdorfer : FdmSchemeDesc ℚ :=
  { type := "ModifiedHundsdorfer", theta := 3/10, mu := 1/2 }

/-- A scheme descriptor standing for `FdmSchemeDesc::Douglas()`. -/
def douglas : FdmSchemeDesc ℚ := { type := "Douglas", theta := 1/2, mu := 0 }

/-- Results with no field set. -/
def noResults : OneAssetOption.results ℚ Unit :=
  { value := none, delta := none, gamma := none, theta := none, others := () }

/-- A dividend vector of fixed dividends. -/
def dividendVector (dates : List Date) (amounts : List ℚ) : List (Dividend ℚ) :=
  List.zipWith fixedDividend dates amounts

/-- An engine built with the dividend-taking constructor and an empty schedule,
holding the arguments of an option with dividends on days 30 and 60. -/
def engine : FdCIRVanillaEngine ℚ Unit :=
  (FdCIRVanillaEngine.createWithDividends noResults cir bs [] 10 100 50 2 (1/2)
    modifiedHundsdorfer none).withArguments (dividendArgs [30, 60])

/-- Solver queries that return the spot, the short rate, the step count of the
descriptor and the strike. -/
def queries : FdmCIRSolverQueries ℚ :=
  { valueAt := fun _ spot _ => .ok spot
    deltaAt := fun _ _ r0 => .ok r0
    gammaAt := fun solver _ _ => .ok solver.solverDesc.timeSteps
    thetaAt := fun solver _ _ => .ok solver.strike }

end Example

/-! ### Finite-difference dividend engines -/

/-- The call `event->date()`. -/
def Event.date {R : Type} : Event R → Date
  | .dividend d => d.date
  | .other date => date

/-- The amount that `getDividendAmount` reads from an event: `amount()` of a
Dividend, 0.0 for an event of another class. -/
def Event.dividendAmount {R : Type} [LinearOrderedField R] : Event R → R
  | .dividend d => d.amount
  | .other _ => 0.0

/-- The members of the dividend engines (`FDDividendEngineBase` and the classes
derived from it) read or written by the functions below.  `spot` is
`process_->stateVariable()->value()`, the two discount functions are
`process_->riskFreeRate()->discount(date)` and
`process_->dividendYield()->discount(date)`, `dividendTime i` is
`getDividendTime(i)` and `residualTime` is `getResidualTime()`.  The sampled
curves, the operator, the model and the step condition, whose classes are
not part of the sources under study, are one value of the type parameter
`G`. -/
structure FDDividendEngineBase (R G : Type) where
  sMin_ : R
  sMax_ : R
  center_ : R
  events_ : List (Event R)
  spot : R
  riskFreeDiscount : Date → R
  dividendYieldDiscount : Date → R
  dividendTime : Nat → R
  residualTime : R
  grid : G

namespace FDDividendEngineBase

variable {R G : Type} [LinearOrderedField R]

/-- The method `FDDividendEngineBase::getDividendAmount(i)`; `none` when `i` is
not an index of `events_`. -/
def getDividendAmount (e : FDDividendEngineBase R G) (i : Nat) : Option R :=
  match e.events_[i]? with
  | some (.dividend dividend) => some dividend.amount
  | some (.other _) => some 0.0
  | none => none

/-- The method `FDDividendEngineBase::getDiscountedDividend(i)`; `none` when `i`
is not an index of `events_`. -/
def getDiscountedDividend (e : FDDividendEngineBase R G) (i : Nat) : Option R :=
  match e.getDividendAmount i, e.events_[i]? with
  | some dividend, some event =>
    let discount := e.riskFreeDiscount event.date / e.dividendYieldDiscount event.date
    some (dividend * discount)
  | _, _ => none

end FDDividendEngineBase

namespace FDDividendEngineMerton73

variable {R G : Type} [LinearOrderedField R]

/-- The loop of `FDDividendEngineMerton73::setGridLimits()`: the value of
`paidDividends` after it. -/
def paidDividends (e : FDDividendEngineBase R G) : R :=
  (List.range e.events_.length).foldl (fun paidDividends i =>
    if 0.0 ≤ e.dividendTime i then
      match e.getDiscountedDividend i with
      | some d => paidDividends + d
      | none => paidDividends
    else paidDividends) 0.0

/-- The method `FDDividendEngineMerton73::setGridLimits()`.
`FDVanillaEngine::setGridLimits(center, t)` and `ensureStrikeInGrid()` are
not part of the sources under study; they are parameters. -/
def setGridLimits
    (baseSetGridLimits : R → R → FDDividendEngineBase R G → FDDividendEngineBase R G)
    (ensureStrikeInGrid : FDDividendEngineBase R G → FDDividendEngineBase R G)
    (e : FDDividendEngineBase R G) : FDDividendEngineBase R G :=
  ensureStrikeInGrid (baseSetGridLimits (e.spot - paidDividends e) e.residualTime e)

/-- The method `FDDividendEngineMerton73::executeIntermediateStep(step)`; `none`
when `step` is not an index of `events_`.  The calls that follow the three
multiplications act on the members kept in `grid`; they are the parameter
`rest`, given the scale factor. -/
def executeIntermediateStep (rest : R → FDDividendEngineBase R G → G)
    (e : FDDividendEngineBase R G) (step : Nat) : Option (FDDividendEngineBase R G) :=
  match e.getDiscountedDividend step with
  | none => none
  | some discountedDividend =>
    let scaleFactor := discountedDividend / e.center_ + 1.0
    let e1 := { e with
      sMin_ := e.sMin_ * scaleFactor
      sMax_ := e.sMax_ * scaleFactor
      center_ := e.center_ * scaleFactor }
    some { e1 with grid := rest scaleFactor e1 }

/-- The intermediate steps `steps`, run one after the other. -/
def runSteps (rest : R → FDDividendEngineBase R G → G) :
    FDDividendEngineBase R G → List Nat → Option (FDDividendEngineBase R G)
  | e, [] => some e
  | e, step :: steps =>
    match executeIntermediateStep rest e step with
    | none => none
    | some e1 => runSteps rest e1 steps

/-- No step of the run `steps` starts from a center equal to zero. -/
def CentersNonZero (rest : R → FDDividendEngineBase R G → G) :
    FDDividendEngineBase R G → List Nat → Prop
  | _, [] => True
  | e, step :: steps =>
    e.center_ ≠ 0 ∧
      match executeIntermediateStep rest e step with
      | none => True
      | some e1 => CentersNonZero rest e1 steps

end FDDividendEngineMerton73

/-- The functor `detail::DividendAdder`: `operator()(x)` of the adder built on
`dividend`. -/
def detail.DividendAdder {R : Type} [LinearOrderedField R] (dividend : Dividend R) (x : R) : R :=
  x + dividend.amountAt x

namespace FDDividendEngineShiftScale

variable {R G : Type} [LinearOrderedField R]

/-- One round of the loop of `FDDividendEngineShiftScale::setGridLimits()`, for
event `i`: the value of `underlying` after it. -/
def reduceUnderlying (e : FDDividendEngineBase R G) (underlying : R) (i : Nat) : R :=
  match e.events_[i]? with
  | some (.dividend dividend) =>
    if e.dividendTime i < 0.0 then underlying
    else underlying - dividend.amountAt underlying
  | _ => underlying

/-- The method `FDDividendEngineShiftScale::setGridLimits()`, with the absent
`FDVanillaEngine::setGridLimits(center, t)` and `ensureStrikeInGrid()` as
parameters. -/
def setGridLimits
    (baseSetGridLimits : R → R → FDDividendEngineBase R G → FDDividendEngineBase R G)
    (ensureStrikeInGrid : FDDividendEngineBase R G → FDDividendEngineBase R G)
    (e : FDDividendEngineBase R G) : FDDividendEngineBase R G :=
  let underlying := (List.range e.events_.length).foldl (reduceUnderlying e) e.spot
  ensureStrikeInGrid (baseSetGridLimits underlying e.residualTime e)

/-- The method `FDDividendEngineShiftScale::executeIntermediateStep(step)`; `none`
when `step` is not an index of `events_`.  The calls that follow the three
assignments act on the members kept in `grid`; they are the parameter
`rest`, given the adder. -/
def executeIntermediateStep (rest : (R → R) → FDDividendEngineBase R G → G)
    (e : FDDividendEngineBase R G) (step : Nat) : Option (FDDividendEngineBase R G) :=
  match e.events_[step]? with
  | none => none
  | some (.other _) => some e
  | some (.dividend dividend) =>
    let adder := detail.DividendAdder dividend
    let e1 := { e with
      sMin_ := adder e.sMin_
      sMax_ := adder e.sMax_
      center_ := adder e.center_ }
    some { e1 with grid := rest adder e1 }

end FDDividendEngineShiftScale

/-! ### `VanillaOption` -/

/-- The members of `VanillaOption` read by the functions below. -/
structure VanillaOption (R : Type) where
  payoff_ : Option (StrikedTypePayoff R)
  exercise_ : Option Exercise

namespace VanillaOption

variable {R : Type}

/-- The overload of `VanillaOption::impliedVolatility` that takes a
`DividendSchedule`.  `isExpired()` is the input `expired`; the search
`detail::ImpliedVolatilityHelper::calculate` is the parameter `calculate`. -/
def impliedVolatilityWithDividends (calculate : VanillaEngine R → Except Error R)
    (expired : Bool) (option : VanillaOption R) (dividends : List (Dividend R)) :
    ImpliedVolatilityRun R :=
  if expired then
    { outcome := .error (.fail "option expired"), searches := [] }
  else
    match option.exercise_ with
    | none => { outcome := .error .nullPointer, searches := [] }
    | some exercise =>
      match exercise.type with
      | .European =>
        if dividends.isEmpty then
          { outcome := calculate .AnalyticEuropeanEngine
            searches := [.AnalyticEuropeanEngine] }
        else
          { outcome := calculate (.AnalyticDividendEuropeanEngine (some dividends))
            searches := [.AnalyticDividendEuropeanEngine (some dividends)] }
      | .American | .Bermudan =>
        if dividends.isEmpty then
          { outcome := calculate (.FdBlackScholesVanillaEngine none)
            searches := [.FdBlackScholesVanillaEngine none] }
        else
          { outcome := calculate (.FdBlackScholesVanillaEngine (some dividends))
            searches := [.FdBlackScholesVanillaEngine (some dividends)] }
      | .unknown =>
        { outcome := .error (.fail "unknown exercise type"), searches := [] }

/-- The overload of `VanillaOption::impliedVolatility` without dividends. -/
def impliedVolatility (calculate : VanillaEngine R → Except Error R)
    (expired : Bool) (option : VanillaOption R) : ImpliedVolatilityRun R :=
  impliedVolatilityWithDividends calculate expired option []

/-- The method `VanillaOption::setupArguments(args)`.  The base set-up
`OneAssetOption::setupArguments` is the parameter `baseSetup`. -/
def setupArguments {Swap SType SMethod : Type}
    (baseSetup : PricingEngine.arguments R Swap SType SMethod →
      Except Error (PricingEngine.arguments R Swap SType SMethod))
    (_option : VanillaOption R) (args : PricingEngine.arguments R Swap SType SMethod) :
    Except Error (PricingEngine.arguments R Swap SType SMethod) := do
  let args ← baseSetup args
  match args with
  | .dividendVanillaOption arguments =>
    pure (.dividendVanillaOption { arguments with cashFlow := [] })
  | other => pure other

end VanillaOption

/-! ### The calibration swap of `SwaptionHelper` -/

/-- The enumeration `Swap::Type`. -/
inductive SwapType where
  | Receiver
  | Payer
  deriving DecidableEq, Repr

/-- The `VanillaSwap` built by `performCalculations`, by the constructor
arguments that the code under study decides: type, nominal, fixed rate and
spread.  The schedules, the index and the day counters, built from the
calendar code that is not part of the sources under study, are left out. -/
structure VanillaSwap (R : Type) where
  type : SwapType
  nominal : R
  fixedRate : R
  spread : R

/-- What `SwaptionHelper::performCalculations()` decides after it has the fair
rate `forward` of the temporary swap: the value of `exerciseRate_` and the
swap `swap_`.  `strike_` is `none` when it is `Null<Real>()`. -/
def SwaptionHelper.performCalculations {R : Type} [LinearOrderedField R]
    (strike_ : Option R) (nominal_ : R) (forward : R) : R × VanillaSwap R :=
  let type0 := SwapType.Receiver
  let (exerciseRate, type) :=
    match strike_ with
    | none => (forward, type0)
    | some strike => (strike, if strike ≤ forward then SwapType.Receiver else SwapType.Payer)
  (exerciseRate, { type := type, nominal := nominal_, fixedRate := exerciseRate, spread := 0.0 })

/-! ### Dividend engines, for evaluation -/

namespace Example

/-- An engine with center 100 on the grid [50, 200], a dividend of 5 on day 30,
an event that is not a dividend on day 40 and a dividend of 3 on day 60,
flat discount factors 9/10 and 1. -/
def fdEngine : FDDividendEngineBase ℚ Unit :=
  { sMin_ := 50, sMax_ := 200, center_ := 100
    events_ := [.dividend (fixedDividend 30 5), .other 40, .dividend (fixedDividend 60 3)]
    spot := 100 + 5 * (9/10) + 3 * (9/10)
    riskFreeDiscount := fun _ => 9/10
    dividendYieldDiscount := fun _ => 1
    dividendTime := fun _ => 1
    residualTime := 1
    grid := () }

/-- An engine with center 1 on the grid [1/2, 2] whose only event is a dividend
of amount -1, with discount factors 1. -/
def fdEngineNegative : FDDividendEngineBase ℚ Unit :=
  { sMin_ := 1/2, sMax_ := 2, center_ := 1
    events_ := [.dividend (fixedDividend 30 (-1))]
    spot := 1
    riskFreeDiscount := fun _ => 1
    dividendYieldDiscount := fun _ => 1
    dividendTime := fun _ => 1
    residualTime := 1
    grid := () }

/-- A vanilla option with the European exercise on day 100. -/
def vanillaOption : VanillaOption ℚ :=
  { payoff_ := some { strike := 100 }, exercise_ := some european }

end Example

/-! ## Theorems -/

section Heston

variable {R : Type} [LinearOrderedField R]

/-! ### Loops over the layout -/

/-- A property that holds before a loop and is kept by every round holds
after the loop. -/
theorem foldl_invariant {α β : Type} (P : β → Prop) (f : β → α → β) :
    ∀ (l : List α) (b : β), P b → (∀ b a, a ∈ l → P b → P (f b a)) → P (l.foldl f b) := by
  intro l
  induction l with
  | nil => intro b hb _; simpa using hb
  | cons x xs ih =>
    intro b hb hstep
    simp only [List.foldl_cons]
    apply ih
    · exact hstep b x (List.mem_cons_self _ _) hb
    · intro b2 a ha hP
      exact hstep b2 a (List.mem_cons_of_mem _ ha) hP

/-- The first coordinate of a node is itself a linear index of the layout. -/
theorem coordinatesOf_zero_lt (dim : List Nat) (i : Nat) (hi : i < dim.prod) :
    (coordinatesOf dim i).getD 0 0 < dim.prod := by
  cases dim with
  | nil => simp [coordinatesOf]
  | cons d ds =>
    simp only [coordinatesOf, List.getD_cons_zero, List.prod_cons] at hi ⊢
    have hd : 0 < d := by
      rcases Nat.eq_zero_or_pos d with h | h
      · subst h; simp at hi
      · exact h
    have hp : 0 < ds.prod := by
      rcases Nat.eq_zero_or_pos ds.prod with h | h
      · rw [h] at hi; simp at hi
      · exact h
    calc i % d < d := Nat.mod_lt _ hd
      _ ≤ d * ds.prod := Nat.le_mul_of_pos_right d hp

/-- The slice keeps the layout size and every entry stays at or above 0.01,
whatever the layout. -/
theorem FdmHestonEquityPart.slice_invariant (exp : R → R) (p : FdmHestonEquityPart R)
    (t1 t2 : R) :
    (p.getLeverageFctSlice exp t1 t2).length = p.mesher_.layout.size
    ∧ ∀ x ∈ p.getLeverageFctSlice exp t1 t2, (0.01 : R) ≤ x := by
  unfold FdmHestonEquityPart.getLeverageFctSlice
  cases hl : p.leverageFct_ with
  | none =>
    simp only [QLArray.fill, List.length_replicate, true_and]
    intro x hx
    rw [List.eq_of_mem_replicate hx]
    norm_num
  | some lf =>
    simp only
    apply foldl_invariant
      (fun v : List R => v.length = p.mesher_.layout.size ∧ ∀ x ∈ v, (0.01 : R) ≤ x)
    · simp only [QLArray.fill, List.length_replicate, true_and]
      intro x hx
      rw [List.eq_of_mem_replicate hx]
      norm_num
    · intro v iter hiter hv
      obtain ⟨hlen, hge⟩ := hv
      simp only [FdmLinearOpLayout.iterators, List.mem_map, List.mem_range] at hiter
      obtain ⟨i, hi, rfl⟩ := hiter
      have hnx : (coordinatesOf p.mesher_.layout.dim i).getD 0 0 < v.length := by
        rw [hlen]; exact coordinatesOf_zero_lt _ _ hi
      simp only [FdmLinearOpLayout.iterAt]
      split
      · refine ⟨by simp [hlen], ?_⟩
        intro x hx
        rcases List.mem_or_eq_of_mem_set hx with h | h
        · exact hge x h
        · rw [h]; exact le_max_left _ _
      · refine ⟨by simp [hlen], ?_⟩
        intro x hx
        rcases List.mem_or_eq_of_mem_set hx with h | h
        · exact hge x h
        · rw [h]
          apply hge
          rw [List.getD_eq_getElem _ _ hnx]
          exact List.getElem_mem _

/-- Each entry of the slice is at least 0.01 and its square, the entry of
`L_*L_`, is strictly positive. -/
theorem FdmHestonEquityPart.slice_square (exp : R → R) (p : FdmHestonEquityPart R)
    (t1 t2 : R) :
    ∀ i, i < p.mesher_.layout.size →
      ∃ x : R, (p.getLeverageFctSlice exp t1 t2)[i]? = some x ∧ 0.01 ≤ x
        ∧ (QLArray.mul (p.getLeverageFctSlice exp t1 t2)
              (p.getLeverageFctSlice exp t1 t2))[i]? = some (x * x)
        ∧ 0 < x * x := by
  obtain ⟨hlen, hge⟩ := slice_invariant exp p t1 t2
  intro i hi
  have hil : i < (p.getLeverageFctSlice exp t1 t2).length := by rw [hlen]; exact hi
  refine ⟨(p.getLeverageFctSlice exp t1 t2)[i], List.getElem?_eq_getElem hil, ?_, ?_, ?_⟩
  · exact hge _ (List.getElem_mem _)
  · simp [QLArray.mul, List.getElem?_zipWith, List.getElem?_eq_getElem hil]
  · have h1 : (0.01 : R) ≤ (p.getLeverageFctSlice exp t1 t2)[i] :=
      hge _ (List.getElem_mem _)
    have h2 : (0 : R) < 0.01 := by norm_num
    have h3 : (0 : R) < (p.getLeverageFctSlice exp t1 t2)[i] := lt_of_lt_of_le h2 h1
    exact mul_pos h3 h3

/-- The loop of `getLeverageFctSlice` over a two-dimensional layout, after `k`
rounds. -/
theorem slice_loop (G : Nat → R) (d0 d1 : Nat) :
    ∀ k, k ≤ d0 * d1 →
      ((List.range k).foldl (fun (v : List R) (i : Nat) =>
          if (i / d0) % d1 = 0 then v.set (i % d0) (G (i % d0))
          else v.set i (v.getD (i % d0) 0)) (List.replicate (d0 * d1) 1)).length = d0 * d1
      ∧ ∀ j, j < d0 * d1 →
        ((List.range k).foldl (fun (v : List R) (i : Nat) =>
          if (i / d0) % d1 = 0 then v.set (i % d0) (G (i % d0))
          else v.set i (v.getD (i % d0) 0)) (List.replicate (d0 * d1) 1))[j]?
          = some (if j < k then G (j % d0) else 1) := by
  intro k
  induction k with
  | zero =>
    intro _
    refine ⟨by simp, ?_⟩
    intro j hj
    simp [List.getElem?_replicate, hj]
  | succ k ih =>
    intro hk
    have hklt : k < d0 * d1 := hk
    obtain ⟨hlen, hval⟩ := ih (Nat.le_of_lt hklt)
    have hd0 : 0 < d0 := by
      rcases Nat.eq_zero_or_pos d0 with h | h
      · subst h; simp at hklt
      · exact h
    have hdiv : k / d0 < d1 := Nat.div_lt_of_lt_mul hklt
    rw [List.range_succ, List.foldl_append]
    simp only [List.foldl_cons, List.foldl_nil]
    generalize hv : (List.range k).foldl (fun (v : List R) (i : Nat) =>
          if (i / d0) % d1 = 0 then v.set (i % d0) (G (i % d0))
          else v.set i (v.getD (i % d0) 0)) (List.replicate (d0 * d1) 1) = v at hlen hval ⊢
    rw [Nat.mod_eq_of_lt hdiv]
    by_cases hrow : k / d0 = 0
    · have hkd : k < d0 := by
        rcases (Nat.div_eq_zero_iff hd0).mp hrow with h
        exact h
      rw [if_pos hrow, Nat.mod_eq_of_lt hkd]
      refine ⟨by simp [hlen], ?_⟩
      intro j hj
      rw [List.getElem?_set]
      by_cases hjk : k = j
      · subst hjk
        simp [hlen, hklt, Nat.mod_eq_of_lt hkd]
      · rw [if_neg hjk, hval j hj]
        have : (j < k + 1) = (j < k) := by
          apply propext; omega
        simp only [this]
    · have hkd : d0 ≤ k := by
        by_contra h
        exact hrow ((Nat.div_eq_zero_iff hd0).mpr (Nat.lt_of_not_le h))
      rw [if_neg hrow]
      have hnx : k % d0 < d0 := Nat.mod_lt _ hd0
      have hnxk : k % d0 < k := Nat.lt_of_lt_of_le hnx hkd
      have hread : v.getD (k % d0) 0 = G (k % d0) := by
        rw [List.getD_eq_getElem?_getD, hval (k % d0) (by omega)]
        simp [hnxk]
      rw [hread]
      refine ⟨by simp [hlen], ?_⟩
      intro j hj
      rw [List.getElem?_set]
      by_cases hjk : k = j
      · subst hjk
        simp [hlen, hklt]
      · rw [if_neg hjk, hval j hj]
        have : (j < k + 1) = (j < k) := by
          apply propext; omega
        simp only [this]

/-- Entry `i` of the leverage slice over a two-dimensional layout: the floored
local volatility of the node with the same equity coordinate and variance
coordinate 0. -/
theorem FdmHestonEquityPart.slice_entry (exp : R → R) (p : FdmHestonEquityPart R)
    (lf : LocalVolTermStructure R) (t1 t2 : R) (d0 d1 i : Nat)
    (hdim : p.mesher_.layout.dim = [d0, d1]) (hlf : p.leverageFct_ = some lf)
    (hi : i < d0 * d1) :
    (p.getLeverageFctSlice exp t1 t2)[i]?
      = some (max 0.01 (lf.localVol (min lf.maxTime (0.5 * (t1 + t2)))
          (min lf.maxStrike (max lf.minStrike
            (exp ((p.mesher_.locs.getD 0 []).getD (i % d0) 0)))))) := by
  have hloop := (slice_loop (fun nx => max 0.01 (lf.localVol (min lf.maxTime (0.5 * (t1 + t2)))
          (min lf.maxStrike (max lf.minStrike
            (exp ((p.mesher_.locs.getD 0 []).getD nx 0)))))) d0 d1 (d0 * d1) le_rfl).2 i hi
  rw [if_pos hi] at hloop
  rw [← hloop]
  unfold FdmHestonEquityPart.getLeverageFctSlice
  simp only [hlf, FdmLinearOpLayout.iterators, FdmLinearOpLayout.size, hdim, List.prod_cons,
    List.prod_nil, Nat.mul_one, List.foldl_map, FdmLinearOpLayout.iterAt, coordinatesOf,
    FdmMesher.location, QLArray.fill, List.getD_cons_zero, List.getD_cons_succ]

/-- A loop over the first `n` indices that at most overwrites the entry at the
index of the round. -/
theorem foldl_set_self {α : Type} (c : Nat → Prop) [DecidablePred c] (g : Nat → α)
    (v : List α) :
    ∀ n, ((List.range n).foldl (fun (w : List α) (k : Nat) =>
        if c k then w.set k (g k) else w) v).length = v.length
      ∧ ∀ i, ((List.range n).foldl (fun (w : List α) (k : Nat) =>
        if c k then w.set k (g k) else w) v)[i]?
      = if i < n ∧ c i then (if i < v.length then some (g i) else none) else v[i]? := by
  intro n
  induction n with
  | zero => simp
  | succ n ih =>
    obtain ⟨hlen, hval⟩ := ih
    rw [List.range_succ, List.foldl_append]
    simp only [List.foldl_cons, List.foldl_nil]
    generalize (List.range n).foldl (fun (w : List α) (k : Nat) =>
        if c k then w.set k (g k) else w) v = w at hlen hval ⊢
    by_cases hc : c n
    · rw [if_pos hc]
      refine ⟨by simp [hlen], ?_⟩
      intro i
      rw [List.getElem?_set, hlen]
      by_cases hni : n = i
      · subst hni
        simp [hc]
      · rw [if_neg hni, hval i]
        have : (i < n + 1 ∧ c i) = (i < n ∧ c i) := by
          apply propext
          constructor
          · rintro ⟨h1, h2⟩; exact ⟨by omega, h2⟩
          · rintro ⟨h1, h2⟩; exact ⟨by omega, h2⟩
        simp only [this]
    · rw [if_neg hc]
      refine ⟨hlen, ?_⟩
      intro i
      rw [hval i]
      have : (i < n + 1 ∧ c i) = (i < n ∧ c i) := by
        apply propext
        constructor
        · rintro ⟨h1, h2⟩
          refine ⟨?_, h2⟩
          rcases Nat.lt_succ_iff_lt_or_eq.mp h1 with h | h
          · exact h
          · subst h; exact absurd h2 hc
        · rintro ⟨h1, h2⟩; exact ⟨by omega, h2⟩
      simp only [this]

/-- Entry `i` of `mesher->locations(direction)`. -/
theorem FdmMesher.locations_entry (m : FdmMesher R) (direction i : Nat)
    (hi : i < m.layout.size) :
    (m.locations direction)[i]? = some (m.location (m.layout.iterAt i) direction) := by
  simp [FdmMesher.locations, FdmLinearOpLayout.iterators, List.getElem?_range hi]

/-- Entry `i` of `varianceValues_` after the loop of the constructor. -/
theorem FdmHestonEquityPart.zeroBoundary_entry (layout : FdmLinearOpLayout) (v : List R)
    (i : Nat) (hi : i < layout.size) (hv : v.length = layout.size) :
    (FdmHestonEquityPart.zeroBoundary layout v)[i]?
      = some (if (layout.iterAt i).coordinates.getD 0 0 = 0
            ∨ (layout.iterAt i).coordinates.getD 0 0 = layout.dim.getD 0 0 - 1
          then 0 else v.getD i 0) := by
  unfold FdmHestonEquityPart.zeroBoundary FdmLinearOpLayout.iterators
  rw [List.foldl_map]
  have h := (foldl_set_self
    (fun k => (layout.iterAt k).coordinates.getD 0 0 = 0
      ∨ (layout.iterAt k).coordinates.getD 0 0 = layout.dim.getD 0 0 - 1)
    (fun _ => (0 : R)) v layout.size).2 i
  simp only [FdmLinearOpLayout.iterAt] at h ⊢
  rw [h]
  have hil : i < v.length := by rw [hv]; exact hi
  by_cases hc : (coordinatesOf layout.dim i).getD 0 0 = 0
      ∨ (coordinatesOf layout.dim i).getD 0 0 = layout.dim.getD 0 0 - 1
  · simp only [hi, hc, hil, and_self, if_true]
  · rw [if_neg (fun hh => hc hh.2), if_neg hc, List.getD_eq_getElem _ _ hil,
      List.getElem?_eq_getElem hil]

namespace FdmHestonEquityPart

/-- C3: after construction, `varianceValues_[i]` is 0 when the equity
coordinate of `i` is 0 or `dim[0]-1` and half the variance location of `i`
otherwise; so, without quanto helper, the coefficient that `setTime(t1, t2)`
gives the first-derivative operator at a node of the two extreme equity
indices is `r - q`, whatever the variance locations and the leverage
function. -/
theorem variance_term_vanishes_on_boundary (alg : OperatorAlgebra R) (mesher : FdmMesher R)
    (rTS qTS : YieldTermStructure R) (quantoHelper : Option (FdmQuantoHelper R))
    (leverageFct : Option (LocalVolTermStructure R)) (exp : R → R) (i : Nat)
    (hi : i < mesher.layout.size) :
    (create alg mesher rTS qTS quantoHelper leverageFct).varianceValues_[i]?
        = some (if (mesher.layout.iterAt i).coordinates.getD 0 0 = 0
              ∨ (mesher.layout.iterAt i).coordinates.getD 0 0 = mesher.layout.dim.getD 0 0 - 1
            then 0 else 0.5 * mesher.location (mesher.layout.iterAt i) 1)
    ∧ (quantoHelper = none →
        ((mesher.layout.iterAt i).coordinates.getD 0 0 = 0
          ∨ (mesher.layout.iterAt i).coordinates.getD 0 0 = mesher.layout.dim.getD 0 0 - 1) →
        ∀ t1 t2 : R,
          ((create alg mesher rTS qTS quantoHelper leverageFct).setTime exp t1 t2).mapT_
            = (create alg mesher rTS qTS quantoHelper leverageFct).mapT_.axpyb
                ((create alg mesher rTS qTS quantoHelper leverageFct).driftCoefficient
                  ((create alg mesher rTS qTS quantoHelper leverageFct).getLeverageFctSlice
                    exp t1 t2) t1 t2)
                (create alg mesher rTS qTS quantoHelper leverageFct).dxMap_
                ((create alg mesher rTS qTS quantoHelper leverageFct).dxxMap_.mult
                  (QLArray.mul
                    ((create alg mesher rTS qTS quantoHelper leverageFct).getLeverageFctSlice
                      exp t1 t2)
                    ((create alg mesher rTS qTS quantoHelper leverageFct).getLeverageFctSlice
                      exp t1 t2)))
                (QLArray.fill 1 (-0.5 * rTS.forwardRate t1 t2))
          ∧ ((create alg mesher rTS qTS quantoHelper leverageFct).driftCoefficient
                ((create alg mesher rTS qTS quantoHelper leverageFct).getLeverageFctSlice
                  exp t1 t2) t1 t2)[i]?
              = some (rTS.forwardRate t1 t2 - qTS.forwardRate t1 t2)) := by
  have hlocs : (QLArray.scale (0.5 : R) (mesher.locations 1)).length = mesher.layout.size := by
    simp [QLArray.scale, FdmMesher.locations, FdmLinearOpLayout.iterators]
  have hvv := zeroBoundary_entry mesher.layout (QLArray.scale (0.5 : R) (mesher.locations 1))
    i hi hlocs
  have hscale : (QLArray.scale (0.5 : R) (mesher.locations 1)).getD i 0
      = 0.5 * mesher.location (mesher.layout.iterAt i) 1 := by
    rw [List.getD_eq_getElem?_getD]
    simp [QLArray.scale, FdmMesher.locations_entry mesher 1 i hi]
  rw [hscale] at hvv
  refine ⟨hvv, ?_⟩
  intro hq hb t1 t2
  refine ⟨rfl, ?_⟩
  subst hq
  obtain ⟨x, hx, -, hxx, -⟩ :=
    slice_square exp (create alg mesher rTS qTS none leverageFct) t1 t2 i hi
  rw [if_pos hb] at hvv
  have hvv2 : (create alg mesher rTS qTS none leverageFct).varianceValues_[i]? = some 0 := hvv
  have hrT : (create alg mesher rTS qTS none leverageFct).rTS_ = rTS := rfl
  have hqT : (create alg mesher rTS qTS none leverageFct).qTS_ = qTS := rfl
  have hqh : (create alg mesher rTS qTS none leverageFct).quantoHelper_ = none := rfl
  simp only [driftCoefficient, hqh, hrT, hqT, QLArray.rsub, QLArray.mul, List.getElem?_map,
    List.getElem?_zipWith, hvv2, hx]
  simp

/-- Evaluation of `variance_term_vanishes_on_boundary` on the example mesher:
node 5 has equity coordinate 2, the last one, so its variance term is 0 and
its drift coefficient over [0, 1] is `5/100 - 2/100`. -/
theorem variance_term_vanishes_on_boundary_witness :
    Example.partL.varianceValues_[5]? = some 0
    ∧ (Example.partL.driftCoefficient
        (Example.partL.getLeverageFctSlice Example.exp 0 1) 0 1)[5]? = some (3 / 100) := by
  have h := variance_term_vanishes_on_boundary Example.alg Example.mesher
    (Example.flat (5/100)) (Example.flat (2/100)) none (some Example.leverage) Example.exp 5
    (by decide)
  refine ⟨?_, ?_⟩
  · have h1 := h.1
    rw [if_pos (by decide)] at h1
    exact h1
  · have h2 := (h.2 rfl (by decide) 0 1).2
    rw [show (3 / 100 : ℚ) = (Example.flat (5/100)).forwardRate 0 1
      - (Example.flat (2/100)).forwardRate 0 1 by norm_num [Example.flat]]
    exact h2

/-- C7, as the claim states it, fails: with a leverage function valid up to
time 1 and the step interval [2, 4], entry 0 of the slice is not the floored
local volatility at the midpoint time 3. -/
theorem leverage_midpoint_counterexample :
    (Example.partL.getLeverageFctSlice Example.exp 2 4)[0]?
      ≠ some (max 0.01 (Example.leverage.localVol (0.5 * (2 + 4))
          (min Example.leverage.maxStrike (max Example.leverage.minStrike
            (Example.exp ((Example.mesher.locs.getD 0 []).getD 0 0)))))) := by
  rw [slice_entry Example.exp Example.partL Example.leverage 2 4 3 2 0 rfl rfl (by decide)]
  simp only [Example.leverage, Example.exp, Example.partL, create, Example.mesher]
  norm_num

/-- C7, amended: when a leverage function is present, the slice evaluates it
at the time `min(maxTime, 0.5*(t1 + t2))`: every entry is the floored local
volatility at that time; this is the midpoint of the step interval whenever
the midpoint does not exceed `maxTime()`. -/
theorem leverage_time (exp : R → R) (p : FdmHestonEquityPart R)
    (lf : LocalVolTermStructure R) (t1 t2 : R) (d0 d1 i : Nat)
    (hdim : p.mesher_.layout.dim = [d0, d1]) (hlf : p.leverageFct_ = some lf)
    (hi : i < p.mesher_.layout.size) :
    (p.getLeverageFctSlice exp t1 t2)[i]?
        = some (max 0.01 (lf.localVol (min lf.maxTime (0.5 * (t1 + t2)))
            (min lf.maxStrike (max lf.minStrike
              (exp (p.mesher_.location (p.mesher_.layout.iterAt i) 0))))))
    ∧ (0.5 * (t1 + t2) ≤ lf.maxTime →
        (p.getLeverageFctSlice exp t1 t2)[i]?
          = some (max 0.01 (lf.localVol (0.5 * (t1 + t2))
              (min lf.maxStrike (max lf.minStrike
                (exp (p.mesher_.location (p.mesher_.layout.iterAt i) 0))))))) := by
  have hi2 : i < d0 * d1 := by
    simpa [FdmLinearOpLayout.size, hdim] using hi
  have hloc : p.mesher_.location (p.mesher_.layout.iterAt i) 0
      = (p.mesher_.locs.getD 0 []).getD (i % d0) 0 := by
    simp [FdmMesher.location, FdmLinearOpLayout.iterAt, hdim, coordinatesOf]
  have h := slice_entry exp p lf t1 t2 d0 d1 i hdim hlf hi2
  rw [hloc]
  refine ⟨h, ?_⟩
  intro hle
  rw [h, min_eq_right hle]

/-- Evaluation of `leverage_time` on the example equity part: over the step
[0, 1] entry 5 (equity coordinate 2) is `max(0.01, 0.5 * 2) = 1`. -/
theorem leverage_time_witness :
    (Example.partL.getLeverageFctSlice Example.exp 0 1)[5]? = some 1 := by
  have h := (leverage_time Example.exp Example.partL Example.leverage 0 1 3 2 5 rfl rfl
    (by decide)).2 (by norm_num [Example.leverage])
  rw [h]
  simp only [Example.leverage, Example.exp, Example.partL, create, Example.mesher,
    FdmMesher.location, FdmLinearOpLayout.iterAt, Example.layout, coordinatesOf]
  norm_num

/-- C8: when a leverage function is present, the level handed to `localVol`
for a node with log-equity location `x` is
`min(maxStrike, max(minStrike, exp(x)))`; it lies in `[minStrike, maxStrike]`
when `minStrike <= maxStrike`, and it is `exp(x)` when `exp(x)` lies within
the bounds. -/
theorem leverage_spot_clamped (exp : R → R) (p : FdmHestonEquityPart R)
    (lf : LocalVolTermStructure R) (t1 t2 : R) (d0 d1 i : Nat)
    (hdim : p.mesher_.layout.dim = [d0, d1]) (hlf : p.leverageFct_ = some lf)
    (hi : i < p.mesher_.layout.size) :
    ∃ spot : R,
      spot = min lf.maxStrike (max lf.minStrike
          (exp (p.mesher_.location (p.mesher_.layout.iterAt i) 0)))
      ∧ (p.getLeverageFctSlice exp t1 t2)[i]?
          = some (max 0.01 (lf.localVol (min lf.maxTime (0.5 * (t1 + t2))) spot))
      ∧ (lf.minStrike ≤ lf.maxStrike → lf.minStrike ≤ spot ∧ spot ≤ lf.maxStrike)
      ∧ (lf.minStrike ≤ exp (p.mesher_.location (p.mesher_.layout.iterAt i) 0)
          ∧ exp (p.mesher_.location (p.mesher_.layout.iterAt i) 0) ≤ lf.maxStrike →
          spot = exp (p.mesher_.location (p.mesher_.layout.iterAt i) 0)) := by
  have hi2 : i < d0 * d1 := by
    simpa [FdmLinearOpLayout.size, hdim] using hi
  have hloc : p.mesher_.location (p.mesher_.layout.iterAt i) 0
      = (p.mesher_.locs.getD 0 []).getD (i % d0) 0 := by
    simp [FdmMesher.location, FdmLinearOpLayout.iterAt, hdim, coordinatesOf]
  refine ⟨_, rfl, ?_, ?_, ?_⟩
  · rw [hloc]
    exact slice_entry exp p lf t1 t2 d0 d1 i hdim hlf hi2
  · intro hle
    exact ⟨le_min hle (le_max_left _ _), min_le_left _ _⟩
  · rintro ⟨hlo, hhi⟩
    rw [max_eq_right hlo, min_eq_right hhi]

/-- Evaluation of `leverage_spot_clamped` on the example equity part: at
entry 3 (equity coordinate 0, `exp(x) = 0`) the level is raised to
`minStrike = 1`, so the entry is `max(0.01, 0.5 * 1)`. -/
theorem leverage_spot_clamped_witness :
    (Example.partL.getLeverageFctSlice Example.exp 0 1)[3]? = some (1 / 2) := by
  obtain ⟨spot, hspot, hentry, -, -⟩ :=
    leverage_spot_clamped Example.exp Example.partL Example.leverage 0 1 3 2 3 rfl rfl
      (by decide)
  rw [hentry, hspot]
  simp only [Example.leverage, Example.exp, Example.partL, create, Example.mesher,
    FdmMesher.location, FdmLinearOpLayout.iterAt, Example.layout, coordinatesOf]
  norm_num

/-- C9: the leverage slice has layout size, each of its entries is at least
0.01 and has a strictly positive square (the entry of `L_*L_` used by
`setTime`); without a leverage function every entry is exactly 1. -/
theorem leverage_slice_floor (exp : R → R) (p : FdmHestonEquityPart R) (t1 t2 : R) :
    (p.getLeverageFctSlice exp t1 t2).length = p.mesher_.layout.size
    ∧ (∀ i, i < p.mesher_.layout.size →
        ∃ x : R, (p.getLeverageFctSlice exp t1 t2)[i]? = some x ∧ 0.01 ≤ x
          ∧ (QLArray.mul (p.getLeverageFctSlice exp t1 t2)
                (p.getLeverageFctSlice exp t1 t2))[i]? = some (x * x)
          ∧ 0 < x * x)
    ∧ (p.leverageFct_ = none →
        p.getLeverageFctSlice exp t1 t2 = List.replicate p.mesher_.layout.size 1) := by
  refine ⟨(slice_invariant exp p t1 t2).1, slice_square exp p t1 t2, ?_⟩
  · intro hnone
    simp [getLeverageFctSlice, hnone, QLArray.fill]

/-- Evaluation of `leverage_slice_floor` on the example operator, which has no
leverage function: the slice is six times 1. -/
theorem leverage_slice_floor_witness :
    Example.op.dxMap_.getLeverageFctSlice Example.exp 0 1 = [1, 1, 1, 1, 1, 1] := by
  have h := (leverage_slice_floor Example.exp Example.op.dxMap_ 0 1).2.2 rfl
  rw [h]
  rfl

end FdmHestonEquityPart

namespace FdmHestonOp

/-- C1: a direction index outside {0, 1} makes `apply_direction` and
`solve_splitting` fail with 'direction too large', the operator and the input
array being left as they were (both are `const`); for a direction in {0, 1}
neither call raises that error; `size()` is 2. -/
theorem direction_too_large (solve : BandedSolve R) (op : FdmHestonOp R) (d : Nat)
    (r : List R) (a : R) :
    op.size = 2
    ∧ (¬ (d = 0 ∨ d = 1) →
        constCall (fun o x => apply_direction o d x) op r
            = ((op, r), .error (.fail "direction too large"))
        ∧ constCall (fun o x => solve_splitting solve o d x a) op r
            = ((op, r), .error (.fail "direction too large")))
    ∧ ((d = 0 ∨ d = 1) →
        apply_direction op d r ≠ .error (.fail "direction too large")
        ∧ solve_splitting solve op d r a ≠ .error (.fail "direction too large")) := by
  refine ⟨rfl, ?_, ?_⟩
  · intro h
    have h0 : d ≠ 0 := fun e => h (Or.inl e)
    have h1 : d ≠ 1 := fun e => h (Or.inr e)
    simp [constCall, apply_direction, solve_splitting, h0, h1]
  · rintro (h | h)
    · subst h
      constructor
      · simp [apply_direction]
      · cases hs : solve op.dxMap_.getMap r a 1.0 <;>
          simp [solve_splitting, raiseOnFailure, hs]
    · subst h
      constructor
      · simp [apply_direction]
      · cases hs : solve op.dyMap_.getMap r a 1.0 <;>
          simp [solve_splitting, raiseOnFailure, hs]

/-- Evaluation of `direction_too_large` on the example operator, at
direction 2 and at direction 0. -/
theorem direction_too_large_witness :
    apply_direction Example.op 2 [1, 2, 3, 4, 5, 6] = .error (.fail "direction too large")
    ∧ solve_splitting Example.diagonalSolve Example.op 2 [1, 2, 3, 4, 5, 6] 1
        = .error (.fail "direction too large")
    ∧ apply_direction Example.op 0 [1, 2, 3, 4, 5, 6] ≠ .error (.fail "direction too large") := by
  have h2 := (direction_too_large Example.diagonalSolve Example.op 2 [1, 2, 3, 4, 5, 6] 1).2.1
    (by decide)
  have h0 := (direction_too_large Example.diagonalSolve Example.op 0 [1, 2, 3, 4, 5, 6] 1).2.2
    (by decide)
  exact ⟨congrArg Prod.snd h2.1, congrArg Prod.snd h2.2, h0.1⟩

/-- C2: `apply(u)` is the elementwise sum of `apply_direction(0, u)`,
`apply_direction(1, u)` and `apply_mixed(u)`; both direction calls return. -/
theorem apply_eq_sum_of_directions (op : FdmHestonOp R) (u : List R) :
    ∃ x0 x1 : List R,
      apply_direction op 0 u = .ok x0 ∧ apply_direction op 1 u = .ok x1
      ∧ apply op u = QLArray.add (QLArray.add x0 x1) (apply_mixed op u) := by
  refine ⟨op.dxMap_.getMap.apply u, op.dyMap_.getMap.apply u, rfl, rfl, ?_⟩
  unfold apply apply_mixed QLArray.add
  congr 1
  exact List.zipWith_comm_of_comm _ (fun x y => add_comm x y) _ _

/-- C6: `preconditioner(r, dt)` is `solve_splitting(1, solve_splitting(0, r, dt), dt)`:
the banded solve of the equity map comes first, the banded solve of the
variance map is applied to its result, both with `dt` and relaxation
constant 1, and a failure of either is raised. -/
theorem preconditioner_eq (solve : BandedSolve R) (op : FdmHestonOp R) (r : List R) (dt : R) :
    preconditioner solve op r dt
        = (solve_splitting solve op 0 r dt).bind (fun x => solve_splitting solve op 1 x dt)
    ∧ preconditioner solve op r dt
        = raiseOnFailure ((solve op.dxMap_.getMap r dt 1).bind
            (fun x => solve op.dyMap_.getMap x dt 1)) := by
  refine ⟨rfl, ?_⟩
  have h1 : (1.0 : R) = 1 := by norm_num
  cases hs : solve op.dxMap_.getMap r dt 1 <;>
    simp [preconditioner, solve_splitting, raiseOnFailure, hs, h1, bind, Except.bind]

/-- C4: the state after `setTime(t1, t2)` (equity map, variance map and
leverage slice `L_` included) does not depend on the `setTime` calls made
before it; in particular, calling `setTime(t1, t2)` twice gives the state
that one call gives. -/
theorem setTime_forgets_earlier_calls (exp : R → R) (op : FdmHestonOp R) (t1 t2 : R)
    (earlier : List (R × R)) :
    setTime exp (earlier.foldl (fun o c => setTime exp o c.1 c.2) op) t1 t2
        = setTime exp op t1 t2
    ∧ setTime exp (setTime exp op t1 t2) t1 t2 = setTime exp op t1 t2 := by
  have step : ∀ (o : FdmHestonOp R) (s1 s2 : R),
      setTime exp (setTime exp o s1 s2) t1 t2 = setTime exp o t1 t2 := by
    intro o s1 s2
    rfl
  refine ⟨?_, step op t1 t2⟩
  induction earlier generalizing op with
  | nil => rfl
  | cons c cs ih =>
    simp only [List.foldl_cons]
    rw [ih (setTime exp op c.1 c.2), step]

end FdmHestonOp

end Heston

section Instruments

variable {R : Type}

/-- The loop of `validate` fails exactly when some dividend is dated after the
exercise date. -/
theorem DividendVanillaOption.arguments.checkDates_error_iff (exerciseDate : Date) :
    ∀ (l : List (Dividend R)) (i : Nat),
      (checkDates exerciseDate i l ≠ .ok ()) ↔ ∃ d ∈ l, exerciseDate < d.date := by
  intro l
  induction l with
  | nil => intro i; simp [checkDates]
  | cons d ds ih =>
    intro i
    by_cases h : d.date ≤ exerciseDate
    · simp only [checkDates, if_pos h, ih (i + 1), List.mem_cons, exists_eq_or_imp]
      constructor
      · intro hh; exact Or.inr hh
      · rintro (hh | hh)
        · exact absurd h (Nat.not_le_of_lt hh)
        · exact hh
    · simp only [checkDates, if_neg h, List.mem_cons, exists_eq_or_imp]
      constructor
      · intro _; exact Or.inl (Nat.lt_of_not_le h)
      · intro _ hc; cases hc

namespace DividendVanillaOption.arguments

/-- C10: when the base one-asset-option validation passes, `validate()` raises
exactly when some dividend of `cashFlow` is dated strictly after the last
exercise date; dividends dated on or before it are accepted, and an empty
`cashFlow` passes. -/
theorem validate_raises_iff (args : DividendVanillaOption.arguments R)
    (hbase : OneAssetOption.arguments.validate args.payoff args.exercise = .ok ()) :
    ∃ exercise : Exercise, args.exercise = some exercise
      ∧ ((validate args ≠ .ok ()) ↔ ∃ d ∈ args.cashFlow, exercise.lastDate < d.date)
      ∧ ((∀ d ∈ args.cashFlow, d.date ≤ exercise.lastDate) → validate args = .ok ())
      ∧ (args.cashFlow = [] → validate args = .ok ()) := by
  cases hp : args.payoff with
  | none => simp [OneAssetOption.arguments.validate, hp] at hbase
  | some payoff =>
    cases he : args.exercise with
    | none => simp [OneAssetOption.arguments.validate, hp, he] at hbase
    | some exercise =>
      have hval : validate args = checkDates exercise.lastDate 0 args.cashFlow := by
        rw [he] at hbase
        simp only [validate, he, hbase]
        rfl
      have hiff := checkDates_error_iff exercise.lastDate args.cashFlow 0
      refine ⟨exercise, rfl, ?_, ?_, ?_⟩
      · rw [hval]; exact hiff
      · intro hall
        rw [hval]
        by_contra hne
        obtain ⟨d, hd, hlt⟩ := hiff.mp hne
        exact absurd (hall d hd) (Nat.not_le_of_lt hlt)
      · intro hnil
        rw [hval, hnil]
        rfl

/-- Evaluation of `validate_raises_iff`: with exercise on day 100, dividends on
days 50 and 100 pass, and a dividend on day 101 raises. -/
theorem validate_raises_iff_witness :
    validate (Example.dividendArgs [50, 100]) = .ok ()
    ∧ validate (Example.dividendArgs [50, 101]) ≠ .ok () := by
  obtain ⟨e1, he1, -, hok, -⟩ := validate_raises_iff (Example.dividendArgs [50, 100]) rfl
  obtain ⟨e2, he2, hiff, -, -⟩ := validate_raises_iff (Example.dividendArgs [50, 101]) rfl
  have h1 : e1 = { type := .European, lastDate := 100 } := (Option.some.inj he1).symm
  have h2 : e2 = { type := .European, lastDate := 100 } := (Option.some.inj he2).symm
  subst h1 h2
  refine ⟨hok ?_, hiff.mpr ?_⟩
  · intro d hd
    simp only [Example.dividendArgs, List.map_cons, List.map_nil, List.mem_cons,
      List.mem_singleton, List.not_mem_nil, or_false] at hd
    rcases hd with rfl | rfl <;> simp [Example.fixedDividend]
  · exact ⟨Example.fixedDividend 101 1, by simp [Example.dividendArgs], by
      simp [Example.fixedDividend]⟩

end DividendVanillaOption.arguments

end Instruments

section Boundary

variable {R Swap SType SMethod E : Type}

/-- C11: when the base validation of the swap arguments passes,
`NonstandardSwaption::arguments::validate()` raises 'underlying non standard
swap not set' when the swap is unset, otherwise 'exercise not set' when the
exercise is unset, otherwise whatever the consistency check of settlement
type and method raises; it succeeds exactly when swap and exercise are set
and that check passes. -/
theorem NonstandardSwaption.arguments.validate_order
    (baseValidate : NonstandardSwaption.arguments Swap SType SMethod → Except Error Unit)
    (checkConsistency : SType → SMethod → Except Error Unit)
    (args : NonstandardSwaption.arguments Swap SType SMethod)
    (hbase : baseValidate args = .ok ()) :
    (args.swap = none →
        validate baseValidate checkConsistency args
          = .error (.fail "underlying non standard swap not set"))
    ∧ (args.swap ≠ none → args.exercise = none →
        validate baseValidate checkConsistency args = .error (.fail "exercise not set"))
    ∧ (args.swap ≠ none → args.exercise ≠ none →
        validate baseValidate checkConsistency args
          = checkConsistency args.settlementType args.settlementMethod)
    ∧ (validate baseValidate checkConsistency args = .ok () ↔
        args.swap ≠ none ∧ args.exercise ≠ none
          ∧ checkConsistency args.settlementType args.settlementMethod = .ok ()) := by
  cases hs : args.swap with
  | none =>
    have h : validate baseValidate checkConsistency args
        = .error (.fail "underlying non standard swap not set") := by
      simp only [validate, hbase, hs]
      rfl
    refine ⟨fun _ => h, fun hne => absurd rfl hne, fun hne => absurd rfl hne, ?_⟩
    rw [h]
    simp
  | some sw =>
    cases he : args.exercise with
    | none =>
      have h : validate baseValidate checkConsistency args
          = .error (.fail "exercise not set") := by
        simp only [validate, hbase, hs, he]
        rfl
      refine ⟨fun hc => (by cases hc), fun _ _ => h, fun _ hne => absurd rfl hne, ?_⟩
      rw [h]
      simp
    | some ex =>
      have h : validate baseValidate checkConsistency args
          = checkConsistency args.settlementType args.settlementMethod := by
        simp only [validate, hbase, hs, he]
        rfl
      refine ⟨fun hc => (by cases hc), fun _ hc => (by cases hc), fun _ _ => h, ?_⟩
      rw [h]
      simp

/-- Evaluation of `validate_order`: with swap and exercise set, equal settlement
codes pass and different ones raise; without exercise the call raises
'exercise not set'. -/
theorem NonstandardSwaption.arguments.validate_order_witness :
    validate (fun _ => .ok ()) Example.checkConsistency
        (Example.swaptionArgs (some Example.european) 1 1) = .ok ()
    ∧ validate (fun _ => .ok ()) Example.checkConsistency
        (Example.swaptionArgs (some Example.european) 1 2)
          = .error (.fail "invalid settlement method")
    ∧ validate (fun _ => .ok ()) Example.checkConsistency (Example.swaptionArgs none 1 1)
          = .error (.fail "exercise not set") := by
  have h1 := validate_order (fun _ => .ok ()) Example.checkConsistency
    (Example.swaptionArgs (some Example.european) 1 1) rfl
  have h2 := validate_order (fun _ => .ok ()) Example.checkConsistency
    (Example.swaptionArgs (some Example.european) 1 2) rfl
  have h3 := validate_order (fun _ => .ok ()) Example.checkConsistency
    (Example.swaptionArgs none 1 1) rfl
  refine ⟨h1.2.2.2.mpr ⟨by simp [Example.swaptionArgs], by simp [Example.swaptionArgs], rfl⟩,
    ?_, h3.2.1 (by simp [Example.swaptionArgs]) rfl⟩
  rw [h2.2.2.1 (by simp [Example.swaptionArgs]) (by simp [Example.swaptionArgs])]
  rfl

/-- C13: `DividendVanillaOption::impliedVolatility` fails with 'option expired'
when the option is expired, before it looks at anything else; otherwise a
European exercise is searched with the analytic dividend European engine, an
American one with the finite-difference Black-Scholes vanilla engine, a
Bermudan one fails with 'engine not available for Bermudan option with
dividends' and any other type fails with 'unknown exercise type'; on these
failing paths no search is run. -/
theorem DividendVanillaOption.impliedVolatility_paths
    (calculate : VanillaEngine R → Except Error R) (option : DividendVanillaOption R) :
    DividendVanillaOption.impliedVolatility calculate true option
        = { outcome := .error (.fail "option expired"), searches := [] }
    ∧ ∀ exercise : Exercise, option.exercise_ = some exercise →
        (exercise.type = .European →
          DividendVanillaOption.impliedVolatility calculate false option
            = { outcome := calculate (.AnalyticDividendEuropeanEngine none)
                searches := [.AnalyticDividendEuropeanEngine none] })
        ∧ (exercise.type = .American →
          DividendVanillaOption.impliedVolatility calculate false option
            = { outcome := calculate (.FdBlackScholesVanillaEngine none)
                searches := [.FdBlackScholesVanillaEngine none] })
        ∧ (exercise.type = .Bermudan →
          DividendVanillaOption.impliedVolatility calculate false option
            = { outcome :=
                  .error (.fail "engine not available for Bermudan option with dividends")
                searches := [] })
        ∧ (exercise.type = .unknown →
          DividendVanillaOption.impliedVolatility calculate false option
            = { outcome := .error (.fail "unknown exercise type"), searches := [] }) := by
  refine ⟨rfl, ?_⟩
  intro exercise hex
  refine ⟨?_, ?_, ?_, ?_⟩ <;> intro ht <;>
    simp [DividendVanillaOption.impliedVolatility, hex, ht]

/-- Evaluation of `impliedVolatility_paths` on the example option, which has a
European exercise: one search, with the analytic dividend European engine. -/
theorem DividendVanillaOption.impliedVolatility_paths_witness :
    (DividendVanillaOption.impliedVolatility Example.search false
        Example.dividendOption).outcome = .ok (1/5)
    ∧ (DividendVanillaOption.impliedVolatility Example.search false
        Example.dividendOption).searches.length = 1
    ∧ (DividendVanillaOption.impliedVolatility Example.search true
        Example.dividendOption).searches.length = 0 := by
  have h := DividendVanillaOption.impliedVolatility_paths Example.search Example.dividendOption
  have h1 := (h.2 Example.european rfl).1 rfl
  rw [h1, h.1]
  exact ⟨rfl, rfl, rfl⟩

/-- C14: after `calculate()` has returned, `SwaptionHelper::blackPrice(sigma)`
values the swaption with the Black engine of volatility `sigma` and the
helper's shift when the volatility type is `ShiftedLognormal`, with the
Bachelier engine of volatility `sigma` when it is `Normal`, and fails with
'can not construct engine' for any other type; when it returns, the engine
of the swaption is the helper's `engine_` again. -/
theorem SwaptionHelper.blackPrice_engine
    (calculate : SwaptionHelper R → Except Error (SwaptionHelper R))
    (npv : SwaptionHelper R → Except Error R)
    (helper h1 : SwaptionHelper R) (sigma : R) (hc : calculate helper = .ok h1) :
    (h1.volatilityType_ = .ShiftedLognormal →
        SwaptionHelper.blackPrice calculate npv helper sigma
          = (npv { h1 with swaptionEngine := some (.BlackSwaptionEngine sigma h1.shift_) }).map
              (fun value => (value, { h1 with swaptionEngine := h1.engine_ })))
    ∧ (h1.volatilityType_ = .Normal →
        SwaptionHelper.blackPrice calculate npv helper sigma
          = (npv { h1 with swaptionEngine := some (.BachelierSwaptionEngine sigma) }).map
              (fun value => (value, { h1 with swaptionEngine := h1.engine_ })))
    ∧ (h1.volatilityType_ = .unknown →
        SwaptionHelper.blackPrice calculate npv helper sigma = .error .canNotConstructEngine)
    ∧ (∀ (value : R) (h2 : SwaptionHelper R),
        SwaptionHelper.blackPrice calculate npv helper sigma = .ok (value, h2) →
          h2.swaptionEngine = h2.engine_ ∧ h2.engine_ = h1.engine_) := by
  have hB : h1.volatilityType_ = .ShiftedLognormal →
      SwaptionHelper.blackPrice calculate npv helper sigma
        = (npv { h1 with swaptionEngine := some (.BlackSwaptionEngine sigma h1.shift_) }).map
            (fun value => (value, { h1 with swaptionEngine := h1.engine_ })) := by
    intro ht
    obtain ⟨vt, sh, en, se⟩ := h1
    simp only at ht
    subst ht
    cases hn : npv { volatilityType_ := .ShiftedLognormal, shift_ := sh, engine_ := en
                     swaptionEngine := some (.BlackSwaptionEngine sigma sh) } <;>
      simp [SwaptionHelper.blackPrice, hc, hn, bind, Except.bind, pure, Except.pure,
        Except.map]
  have hN : h1.volatilityType_ = .Normal →
      SwaptionHelper.blackPrice calculate npv helper sigma
        = (npv { h1 with swaptionEngine := some (.BachelierSwaptionEngine sigma) }).map
            (fun value => (value, { h1 with swaptionEngine := h1.engine_ })) := by
    intro ht
    obtain ⟨vt, sh, en, se⟩ := h1
    simp only at ht
    subst ht
    cases hn : npv { volatilityType_ := .Normal, shift_ := sh, engine_ := en
                     swaptionEngine := some (.BachelierSwaptionEngine sigma) } <;>
      simp [SwaptionHelper.blackPrice, hc, hn, bind, Except.bind, pure, Except.pure,
        Except.map]
  have hU : h1.volatilityType_ = .unknown →
      SwaptionHelper.blackPrice calculate npv helper sigma = .error .canNotConstructEngine := by
    intro ht
    simp [SwaptionHelper.blackPrice, hc, ht, bind, Except.bind, throw, throwThe,
      MonadExceptOf.throw]
  refine ⟨hB, hN, hU, ?_⟩
  intro value h2 hok
  cases ht : h1.volatilityType_ with
  | ShiftedLognormal =>
    rw [hB ht] at hok
    cases hn : npv { h1 with swaptionEngine := some (.BlackSwaptionEngine sigma h1.shift_) } with
    | error e => rw [hn] at hok; cases hok
    | ok v =>
      rw [hn] at hok
      simp only [Except.map, Except.ok.injEq, Prod.mk.injEq] at hok
      rw [← hok.2]
      exact ⟨rfl, rfl⟩
  | Normal =>
    rw [hN ht] at hok
    cases hn : npv { h1 with swaptionEngine := some (.BachelierSwaptionEngine sigma) } with
    | error e => rw [hn] at hok; cases hok
    | ok v =>
      rw [hn] at hok
      simp only [Except.map, Except.ok.injEq, Prod.mk.injEq] at hok
      rw [← hok.2]
      exact ⟨rfl, rfl⟩
  | unknown =>
    rw [hU ht] at hok
    cases hok

/-- Evaluation of `blackPrice_engine` on the example helper, of lognormal type
with shift 3/100: the value is that of the Black engine, and the swaption is
left with the model engine 1. -/
theorem SwaptionHelper.blackPrice_engine_witness :
    SwaptionHelper.blackPrice (fun h => .ok h) Example.npv Example.helper (1/5)
      = .ok (23/100, { Example.helper with swaptionEngine := some (.external 1) }) := by
  have h := (SwaptionHelper.blackPrice_engine (fun h => .ok h) Example.npv Example.helper
    Example.helper (1/5) rfl).1 rfl
  rw [h]
  simp only [Example.npv, Example.helper, Except.map]
  norm_num

end Boundary

section Builder

variable {R Others : Type}

namespace MakeFdCIRVanillaEngine

/-- A member that every call either sets to a value of its own or leaves alone
holds, after a chain of calls, the value of the last call that set it. -/
theorem calls_member {α : Type} (dividendVector : List Date → List R → List (Dividend R))
    (member : MakeFdCIRVanillaEngine R → α) (value : Call R → Option α)
    (hstep : ∀ m c, member (call dividendVector m c) = (value c).getD (member m)) :
    ∀ (cs : List (Call R)) (m : MakeFdCIRVanillaEngine R),
      member (calls dividendVector m cs) = lastSet value cs (member m) := by
  intro cs
  induction cs with
  | nil => intro m; rfl
  | cons c cs ih =>
    intro m
    have h := ih (call dividendVector m c)
    simp only [calls, List.foldl_cons] at h ⊢
    rw [h, hstep]
    unfold lastSet
    rw [List.filterMap_cons]
    cases hv : value c with
    | none => simp
    | some a =>
      simp only [Option.getD_some]
      rw [List.getLast?_cons]
      cases (List.filterMap value cs).getLast? <;> rfl

/-- The builder is in explicit-dividend mode after a chain of calls exactly when
it was so before or the chain has a call of `withCashDividends`. -/
theorem calls_explicit (dividendVector : List Date → List R → List (Dividend R)) :
    ∀ (cs : List (Call R)) (m : MakeFdCIRVanillaEngine R),
      (calls dividendVector m cs).explicitDividends_ = true
        ↔ m.explicitDividends_ = true ∨ ∃ c ∈ cs, c.option = 6 := by
  intro cs
  induction cs with
  | nil => intro m; simp [calls]
  | cons c cs ih =>
    intro m
    have h := ih (call dividendVector m c)
    simp only [calls, List.foldl_cons] at h ⊢
    rw [h]
    cases c <;>
      simp [call, withQuantoHelper, withTGrid, withXGrid, withRGrid, withDampingSteps,
        withFdmSchemeDesc, withCashDividends, Call.option]

/-- C16: the engine converted from a builder after any chain of `with...` calls
holds, for each option, the value of the last call that set it, or the
default (tGrid 10, xGrid 100, rGrid 100, dampingSteps 0, the scheme
ModifiedHundsdorfer, no quanto helper, no schedule of its own); it is in
explicit-dividend mode exactly when `withCashDividends` was called; calls on
different options commute. -/
theorem built_engine_carries_last_values
    (dividendVector : List Date → List R → List (Dividend R))
    (modifiedHundsdorfer : FdmSchemeDesc R) (results : OneAssetOption.results R Others)
    (cirProcess : CoxIngersollRossProcess R) (bsProcess : GeneralizedBlackScholesProcess R)
    (rho : R) (cs : List (Call R)) :
    (toEngine results (calls dividendVector
        (create modifiedHundsdorfer cirProcess bsProcess rho) cs)).tGrid_
      = lastSet (Call.size 1) cs 10
    ∧ (toEngine results (calls dividendVector
        (create modifiedHundsdorfer cirProcess bsProcess rho) cs)).xGrid_
      = lastSet (Call.size 2) cs 100
    ∧ (toEngine results (calls dividendVector
        (create modifiedHundsdorfer cirProcess bsProcess rho) cs)).rGrid_
      = lastSet (Call.size 3) cs 100
    ∧ (toEngine results (calls dividendVector
        (create modifiedHundsdorfer cirProcess bsProcess rho) cs)).dampingSteps_
      = lastSet (Call.size 4) cs 0
    ∧ (toEngine results (calls dividendVector
        (create modifiedHundsdorfer cirProcess bsProcess rho) cs)).schemeDesc_
      = lastSet Call.schemeDesc cs modifiedHundsdorfer
    ∧ (toEngine results (calls dividendVector
        (create modifiedHundsdorfer cirProcess bsProcess rho) cs)).quantoHelper_
      = lastSet Call.quantoHelper cs none
    ∧ (toEngine results (calls dividendVector
        (create modifiedHundsdorfer cirProcess bsProcess rho) cs)).dividends_
      = lastSet (Call.dividends dividendVector) cs []
    ∧ ((toEngine results (calls dividendVector
        (create modifiedHundsdorfer cirProcess bsProcess rho) cs)).explicitDividends_ = true
      ↔ ∃ c ∈ cs, c.option = 6)
    ∧ (toEngine results (calls dividendVector
        (create modifiedHundsdorfer cirProcess bsProcess rho) cs)).rho_ = rho
    ∧ (toEngine results (calls dividendVector
        (create modifiedHundsdorfer cirProcess bsProcess rho) cs)).cirProcess_ = cirProcess
    ∧ (toEngine results (calls dividendVector
        (create modifiedHundsdorfer cirProcess bsProcess rho) cs)).bsProcess_ = bsProcess
    ∧ ∀ (m : MakeFdCIRVanillaEngine R) (c1 c2 : Call R), c1.option ≠ c2.option →
        call dividendVector (call dividendVector m c1) c2
          = call dividendVector (call dividendVector m c2) c1 := by
  have hfield : ∀ {α : Type} (engineMember : FdCIRVanillaEngine R Others → α)
      (member : MakeFdCIRVanillaEngine R → α) (value : Call R → Option α),
      (∀ m, engineMember (toEngine results m) = member m) →
      (∀ m c, member (call dividendVector m c) = (value c).getD (member m)) →
      engineMember (toEngine results (calls dividendVector
          (create modifiedHundsdorfer cirProcess bsProcess rho) cs))
        = lastSet value cs (member (create modifiedHundsdorfer cirProcess bsProcess rho)) := by
    intro α engineMember member value h1 h2
    rw [h1]
    exact calls_member dividendVector member value h2 cs _
  have hto : ∀ m : MakeFdCIRVanillaEngine R,
      (toEngine results m : FdCIRVanillaEngine R Others).explicitDividends_
        = m.explicitDividends_ := by
    intro m
    unfold toEngine
    cases m.explicitDividends_ <;> rfl
  have hstepAll : ∀ (m : MakeFdCIRVanillaEngine R) (c : Call R),
      (call dividendVector m c).tGrid_ = ((Call.size 1 c).getD m.tGrid_)
      ∧ (call dividendVector m c).xGrid_ = ((Call.size 2 c).getD m.xGrid_)
      ∧ (call dividendVector m c).rGrid_ = ((Call.size 3 c).getD m.rGrid_)
      ∧ (call dividendVector m c).dampingSteps_ = ((Call.size 4 c).getD m.dampingSteps_)
      ∧ (call dividendVector m c).schemeDesc_ = ((Call.schemeDesc c).getD m.schemeDesc_)
      ∧ (call dividendVector m c).quantoHelper_ = ((Call.quantoHelper c).getD m.quantoHelper_)
      ∧ (call dividendVector m c).dividends_
          = ((Call.dividends dividendVector c).getD m.dividends_)
      ∧ (call dividendVector m c).rho_ = m.rho_
      ∧ (call dividendVector m c).cirProcess_ = m.cirProcess_
      ∧ (call dividendVector m c).bsProcess_ = m.bsProcess_ := by
    intro m c
    cases c <;>
      simp [call, withQuantoHelper, withTGrid, withXGrid, withRGrid, withDampingSteps,
        withFdmSchemeDesc, withCashDividends, Call.size, Call.schemeDesc, Call.quantoHelper,
        Call.dividends]
  have hconst : ∀ {α : Type} (member : MakeFdCIRVanillaEngine R → α),
      (∀ m c, member (call dividendVector m c) = member m) →
      ∀ (l : List (Call R)) (m : MakeFdCIRVanillaEngine R),
        member (calls dividendVector m l) = member m := by
    intro α member h l
    induction l with
    | nil => intro m; rfl
    | cons c l ih =>
      intro m
      have := ih (call dividendVector m c)
      simp only [calls, List.foldl_cons] at this ⊢
      rw [this, h]
  have hexp := calls_explicit dividendVector cs
    (create modifiedHundsdorfer cirProcess bsProcess rho)
  refine ⟨?_, ?_, ?_, ?_, ?_, ?_, ?_, ?_, ?_, ?_, ?_, ?_⟩
  · exact hfield (fun e => e.tGrid_) (fun m => m.tGrid_) (Call.size 1)
      (fun m => by unfold toEngine; cases m.explicitDividends_ <;> rfl)
      (fun m c => (hstepAll m c).1)
  · exact hfield (fun e => e.xGrid_) (fun m => m.xGrid_) (Call.size 2)
      (fun m => by unfold toEngine; cases m.explicitDividends_ <;> rfl)
      (fun m c => (hstepAll m c).2.1)
  · exact hfield (fun e => e.rGrid_) (fun m => m.rGrid_) (Call.size 3)
      (fun m => by unfold toEngine; cases m.explicitDividends_ <;> rfl)
      (fun m c => (hstepAll m c).2.2.1)
  · exact hfield (fun e => e.dampingSteps_) (fun m => m.dampingSteps_) (Call.size 4)
      (fun m => by unfold toEngine; cases m.explicitDividends_ <;> rfl)
      (fun m c => (hstepAll m c).2.2.2.1)
  · exact hfield (fun e => e.schemeDesc_) (fun m => m.schemeDesc_) Call.schemeDesc
      (fun m => by unfold toEngine; cases m.explicitDividends_ <;> rfl)
      (fun m c => (hstepAll m c).2.2.2.2.1)
  · exact hfield (fun e => e.quantoHelper_) (fun m => m.quantoHelper_) Call.quantoHelper
      (fun m => by unfold toEngine; cases m.explicitDividends_ <;> rfl)
      (fun m c => (hstepAll m c).2.2.2.2.2.1)
  · have hdiv := calls_member dividendVector (fun m => m.dividends_)
      (Call.dividends dividendVector) (fun m c => (hstepAll m c).2.2.2.2.2.2.1) cs
      (create modifiedHundsdorfer cirProcess bsProcess rho)
    simp only at hdiv
    unfold toEngine
    cases hm : (calls dividendVector
        (create modifiedHundsdorfer cirProcess bsProcess rho) cs).explicitDividends_ with
    | true => simpa [FdCIRVanillaEngine.createWithDividends] using hdiv
    | false =>
      have hnone : ¬ ∃ c ∈ cs, c.option = 6 := by
        intro hc
        have := hexp.mpr (Or.inr hc)
        rw [hm] at this
        cases this
      have hfm : List.filterMap (Call.dividends dividendVector) cs = [] := by
        rw [List.filterMap_eq_nil_iff]
        intro c hc
        cases c <;> first | rfl | exact absurd ⟨_, hc, rfl⟩ hnone
      simp [FdCIRVanillaEngine.create, lastSet, hfm]
  · rw [hto, hexp]
    simp [create]
  · have h := hconst (fun m => m.rho_) (fun m c => (hstepAll m c).2.2.2.2.2.2.2.1) cs
      (create modifiedHundsdorfer cirProcess bsProcess rho)
    simp only at h
    unfold toEngine
    split <;> simpa [FdCIRVanillaEngine.createWithDividends, FdCIRVanillaEngine.create] using h
  · have h := hconst (fun m => m.cirProcess_) (fun m c => (hstepAll m c).2.2.2.2.2.2.2.2.1) cs
      (create modifiedHundsdorfer cirProcess bsProcess rho)
    simp only at h
    unfold toEngine
    split <;> simpa [FdCIRVanillaEngine.createWithDividends, FdCIRVanillaEngine.create] using h
  · have h := hconst (fun m => m.bsProcess_) (fun m c => (hstepAll m c).2.2.2.2.2.2.2.2.2) cs
      (create modifiedHundsdorfer cirProcess bsProcess rho)
    simp only at h
    unfold toEngine
    split <;> simpa [FdCIRVanillaEngine.createWithDividends, FdCIRVanillaEngine.create] using h
  · intro m c1 c2 hne
    cases c1 <;> cases c2 <;>
      first
        | exact absurd rfl hne
        | rfl

/-- Evaluation of `built_engine_carries_last_values` on the chain
`withTGrid(20).withXGrid(50).withTGrid(30).withCashDividends({30}, {1})`. -/
theorem built_engine_carries_last_values_witness :
    (toEngine Example.noResults (calls Example.dividendVector
        (create Example.modifiedHundsdorfer Example.cir Example.bs (1/2))
        [.withTGrid 20, .withXGrid 50, .withTGrid 30, .withCashDividends [30] [1]])).tGrid_ = 30
    ∧ (toEngine Example.noResults (calls Example.dividendVector
        (create Example.modifiedHundsdorfer Example.cir Example.bs (1/2))
        [.withTGrid 20, .withXGrid 50, .withTGrid 30, .withCashDividends [30] [1]])).rGrid_ = 100
    ∧ (toEngine Example.noResults (calls Example.dividendVector
        (create Example.modifiedHundsdorfer Example.cir Example.bs (1/2))
        [.withTGrid 20, .withXGrid 50, .withTGrid 30,
          .withCashDividends [30] [1]])).explicitDividends_ = true
    ∧ call Example.dividendVector (call Example.dividendVector
          (create Example.modifiedHundsdorfer Example.cir Example.bs (1/2)) (.withTGrid 20))
          (.withXGrid 50)
        = call Example.dividendVector (call Example.dividendVector
          (create Example.modifiedHundsdorfer Example.cir Example.bs (1/2)) (.withXGrid 50))
          (.withTGrid 20) := by
  have h := built_engine_carries_last_values Example.dividendVector Example.modifiedHundsdorfer
    Example.noResults Example.cir Example.bs (1/2)
    [.withTGrid 20, .withXGrid 50, .withTGrid 30, .withCashDividends [30] [1]]
  refine ⟨?_, ?_, ?_, ?_⟩
  · rw [h.1]; rfl
  · rw [h.2.2.1]; rfl
  · exact h.2.2.2.2.2.2.2.1.mpr ⟨.withCashDividends [30] [1], by simp, rfl⟩
  · exact h.2.2.2.2.2.2.2.2.2.2.2 _ (.withTGrid 20) (.withXGrid 50) (by decide)

end MakeFdCIRVanillaEngine

end Builder

section CIREngine

variable {R Others : Type} [LinearOrderedField R]

namespace FdCIRVanillaEngine

/-- C15: the dividend-input mode is fixed by the constructor: the constructor
that takes a schedule sets `explicitDividends_` and the other one clears it,
and neither `calculate()` nor an instrument writing the arguments changes
`explicitDividends_` or `dividends_`; `getSolverDesc` gives the equity mesher
and the step conditions the same schedule, `dividends_` in explicit mode
(empty or not) and `arguments_.cashFlow` otherwise. -/
theorem dividend_mode_fixed_by_constructor (results : OneAssetOption.results R Others)
    (cirProcess : CoxIngersollRossProcess R) (bsProcess : GeneralizedBlackScholesProcess R)
    (dividends : List (Dividend R)) (tGrid xGrid rGrid dampingSteps : Nat) (rho : R)
    (schemeDesc : FdmSchemeDesc R) (quantoHelper : Option (FdmQuantoHelper R))
    (args : DividendVanillaOption.arguments R) (queries : FdmCIRSolverQueries R) (x : R)
    (payoff : StrikedTypePayoff R) (exercise : Exercise)
    (hp : args.payoff = some payoff) (he : args.exercise = some exercise) :
    (∃ desc : FdmSolverDesc R,
        ((createWithDividends results cirProcess bsProcess dividends tGrid xGrid rGrid
            dampingSteps rho schemeDesc quantoHelper).withArguments args).getSolverDesc x
          = .ok desc
        ∧ desc.mesher.m1.dividendSchedule = dividends ∧ desc.condition.cashFlow = dividends)
    ∧ (∃ desc : FdmSolverDesc R,
        ((create results cirProcess bsProcess tGrid xGrid rGrid
            dampingSteps rho schemeDesc quantoHelper).withArguments args).getSolverDesc x
          = .ok desc
        ∧ desc.mesher.m1.dividendSchedule = args.cashFlow
        ∧ desc.condition.cashFlow = args.cashFlow)
    ∧ (∀ e : FdCIRVanillaEngine R Others,
        (e.withArguments args).explicitDividends_ = e.explicitDividends_
        ∧ (e.withArguments args).dividends_ = e.dividends_)
    ∧ (∀ e e2 : FdCIRVanillaEngine R Others, calculate queries e = .ok e2 →
        e2.explicitDividends_ = e.explicitDividends_ ∧ e2.dividends_ = e.dividends_) := by
  refine ⟨?_, ?_, fun e => ⟨rfl, rfl⟩, ?_⟩
  · simp only [getSolverDesc, withArguments, createWithDividends, hp, he]
    exact ⟨_, rfl, rfl, rfl⟩
  · simp only [getSolverDesc, withArguments, create, hp, he]
    exact ⟨_, rfl, rfl, rfl⟩
  · intro e e2 h
    unfold calculate at h
    cases hpe : e.arguments_.payoff with
    | none => rw [hpe] at h; cases h
    | some p =>
      rw [hpe] at h
      simp only [bind, Except.bind, pure, Except.pure] at h
      split at h
      · cases h
      · split at h
        · cases h
        · split at h
          · cases h
          · split at h
            · cases h
            · split at h
              · cases h
              · cases h
                exact ⟨rfl, rfl⟩

/-- Evaluation of `dividend_mode_fixed_by_constructor`: the example engine, built
with an empty schedule of its own, passes the empty schedule on although the
arguments hold two dividends. -/
theorem dividend_mode_fixed_by_constructor_witness :
    ∃ desc : FdmSolverDesc ℚ, Example.engine.getSolverDesc 1 = .ok desc
      ∧ desc.mesher.m1.dividendSchedule = [] ∧ desc.condition.cashFlow = [] :=
  (dividend_mode_fixed_by_constructor Example.noResults Example.cir Example.bs [] 10 100 50 2
    (1/2) Example.modifiedHundsdorfer none (Example.dividendArgs [30, 60]) Example.queries 1
    { strike := 100 } { type := .European, lastDate := 100 } rfl rfl).1

/-- C17: with payoff and exercise set, `getSolverDesc` returns, whatever its
parameter, a descriptor with no boundary condition, the process time of the
last exercise date as maturity, `tGrid_` steps and `dampingSteps_` damping
steps, a composite mesher of the equity mesher (dimension 0) and the
short-rate mesher (dimension 1), and an inner-value calculator on that
mesher reading direction 0; the parameter has no influence on the result. -/
theorem getSolverDesc_contents (e : FdCIRVanillaEngine R Others) (x : R)
    (payoff : StrikedTypePayoff R) (exercise : Exercise)
    (hp : e.arguments_.payoff = some payoff) (he : e.arguments_.exercise = some exercise) :
    (∃ desc : FdmSolverDesc R, e.getSolverDesc x = .ok desc
        ∧ desc.bcSet = []
        ∧ desc.maturity = e.bsProcess_.time exercise.lastDate
        ∧ desc.timeSteps = e.tGrid_
        ∧ desc.dampingSteps = e.dampingSteps_
        ∧ desc.mesher.m1.size = e.xGrid_ ∧ desc.mesher.m1.process = e.bsProcess_
        ∧ desc.mesher.m1.maturity = desc.maturity
        ∧ desc.mesher.m2.size = e.rGrid_ ∧ desc.mesher.m2.process = e.cirProcess_
        ∧ desc.mesher.m2.maturity = desc.maturity
        ∧ desc.calculator.mesher = desc.mesher
        ∧ desc.calculator.payoff = some payoff
        ∧ desc.calculator.direction = 0
        ∧ desc.condition.mesher = desc.mesher
        ∧ desc.condition.calculator = desc.calculator)
    ∧ ∀ y : R, e.getSolverDesc y = e.getSolverDesc x := by
  refine ⟨?_, fun y => rfl⟩
  simp only [getSolverDesc, hp, he]
  exact ⟨_, rfl, rfl, rfl, rfl, rfl, rfl, rfl, rfl, rfl, rfl, rfl, rfl, rfl, rfl, rfl, rfl⟩

/-- Evaluation of `getSolverDesc_contents` on the example engine: exercise on day
100 gives maturity 100/365, with 10 steps, 2 damping steps and grids of 100
and 50 points. -/
theorem getSolverDesc_contents_witness :
    ∃ desc : FdmSolverDesc ℚ, Example.engine.getSolverDesc (3/2) = .ok desc
      ∧ desc.bcSet = [] ∧ desc.maturity = 100 / 365 ∧ desc.timeSteps = 10
      ∧ desc.dampingSteps = 2 ∧ desc.mesher.m1.size = 100 ∧ desc.mesher.m2.size = 50
      ∧ desc.calculator.direction = 0 := by
  obtain ⟨desc, h, hb, hm, ht, hd, hx, -, -, hr, -, -, -, -, hdir, -, -⟩ :=
    (getSolverDesc_contents Example.engine (3/2) { strike := 100 }
      { type := .European, lastDate := 100 } rfl rfl).1
  refine ⟨desc, h, hb, ?_, ht, hd, hx, hr, hdir⟩
  rw [hm]
  norm_num [Example.engine, withArguments, createWithDividends, Example.bs]

/-- C18: when the solver descriptor is built and the four queries return,
`calculate()` stores `valueAt`, `deltaAt`, `gammaAt` and `thetaAt` of one
solver, built from the CIR and Black-Scholes processes, `getSolverDesc(1.5)`,
the scheme, `rho_` and the strike of the payoff, all read at
`(bsProcess_->x0(), cirProcess_->x0())`, in `value`, `delta`, `gamma` and
`theta`; nothing else of the results or of the engine changes. -/
theorem calculate_results (queries : FdmCIRSolverQueries R) (e : FdCIRVanillaEngine R Others)
    (payoff : StrikedTypePayoff R) (desc : FdmSolverDesc R) (value delta gamma theta : R)
    (hp : e.arguments_.payoff = some payoff)
    (hdesc : e.getSolverDesc 1.5 = .ok desc)
    (hv : queries.valueAt
      { cirProcess := e.cirProcess_, bsProcess := e.bsProcess_, solverDesc := desc
        schemeDesc := e.schemeDesc_, rho := e.rho_, strike := payoff.strike }
      e.bsProcess_.x0 e.cirProcess_.x0 = .ok value)
    (hd : queries.deltaAt
      { cirProcess := e.cirProcess_, bsProcess := e.bsProcess_, solverDesc := desc
        schemeDesc := e.schemeDesc_, rho := e.rho_, strike := payoff.strike }
      e.bsProcess_.x0 e.cirProcess_.x0 = .ok delta)
    (hg : queries.gammaAt
      { cirProcess := e.cirProcess_, bsProcess := e.bsProcess_, solverDesc := desc
        schemeDesc := e.schemeDesc_, rho := e.rho_, strike := payoff.strike }
      e.bsProcess_.x0 e.cirProcess_.x0 = .ok gamma)
    (ht : queries.thetaAt
      { cirProcess := e.cirProcess_, bsProcess := e.bsProcess_, solverDesc := desc
        schemeDesc := e.schemeDesc_, rho := e.rho_, strike := payoff.strike }
      e.bsProcess_.x0 e.cirProcess_.x0 = .ok theta) :
    calculate queries e
      = .ok { e with results_ :=
          { value := some value, delta := some delta, gamma := some gamma
            theta := some theta, others := e.results_.others } } := by
  simp only [calculate, hp, hdesc, hv, hd, hg, ht, bind, Except.bind, pure, Except.pure]

/-- Evaluation of `calculate_results` on the example engine: the value is the
spot 100, the delta the short rate 4/100, the gamma the 10 steps of the
descriptor and the theta the strike 100. -/
theorem calculate_results_witness :
    (calculate Example.queries Example.engine).map (fun e => e.results_.value)
        = .ok (some 100)
    ∧ (calculate Example.queries Example.engine).map (fun e => e.results_.delta)
        = .ok (some (4/100))
    ∧ (calculate Example.queries Example.engine).map (fun e => e.results_.gamma)
        = .ok (some 10)
    ∧ (calculate Example.queries Example.engine).map (fun e => e.results_.theta)
        = .ok (some 100) := by
  obtain ⟨desc, hdesc, -, -, hsteps, -⟩ :=
    (show ∃ desc : FdmSolverDesc ℚ, Example.engine.getSolverDesc 1.5 = .ok desc
        ∧ desc.bcSet = [] ∧ desc.maturity = Example.engine.bsProcess_.time 100
        ∧ desc.timeSteps = 10 ∧ True by
      simp only [getSolverDesc, Example.engine, withArguments, createWithDividends,
        Example.dividendArgs]
      exact ⟨_, rfl, rfl, rfl, rfl, trivial⟩)
  have h := calculate_results Example.queries Example.engine { strike := 100 } desc
    100 (4/100) 10 100 rfl hdesc rfl rfl (by simp [Example.queries, hsteps]) rfl
  rw [h]
  exact ⟨rfl, rfl, rfl, rfl⟩

end FdCIRVanillaEngine

end CIREngine

section Materialized

variable {R : Type} [LinearOrderedField R]

/-- The materialized band operator times `u` is the band operator applied to
`u`. -/
theorem TripleBandLinearOp.mulVec_toMatrix (m : TripleBandLinearOp R) (u : List R) :
    m.toMatrix.mulVec u = m.apply u := by
  simp only [TripleBandLinearOp.toMatrix, SparseMatrix.mulVec, TripleBandLinearOp.apply,
    List.map_map]
  apply List.map_congr_left
  intro i _
  simp only [Function.comp, List.map_cons, List.map_nil, List.sum_cons, List.sum_nil]
  ring

/-- The materialized mixed-derivative operator times `u` is the operator applied
to `u`. -/
theorem NinePointLinearOp.mulVec_toMatrix_ninePoint (m : NinePointLinearOp R) (u : List R) :
    m.toMatrix.mulVec u = m.apply u := by
  simp only [NinePointLinearOp.toMatrix, SparseMatrix.mulVec, NinePointLinearOp.apply,
    List.map_map]
  rfl

/-- The decomposition of `toMatrixDecomp()` applied to `u`: the two direction
maps and the correlation map, the latter without the leverage slice. -/
theorem FdmHestonOp.applyMaterialized_toMatrixDecomp (op : FdmHestonOp R) (u : List R) :
    applyMaterialized op.toMatrixDecomp u
      = QLArray.add (QLArray.add (op.dxMap_.getMap.apply u) (op.dyMap_.getMap.apply u))
          (op.correlationMap_.apply u) := by
  simp only [applyMaterialized, FdmHestonOp.toMatrixDecomp, List.foldl_cons, List.foldl_nil,
    TripleBandLinearOp.mulVec_toMatrix, NinePointLinearOp.mulVec_toMatrix_ninePoint]

/-- C19, evaluated on the operator with leverage function after `setTime(0, 1)`
and the array `[1, 0, 0, 0, 0, 0]`: `apply(u)` multiplies the correlation
term by the leverage slice, the matrices of `toMatrixDecomp()` do not, and
the two results differ; on the operator without leverage function they
agree. -/
theorem FdmHestonOp.toMatrixDecomp_misses_leverage :
    FdmHestonOp.apply Example.opL [1, 0, 0, 0, 0, 0]
        = [-191/200, 47/100, -1/2, -1, -1, -2]
    ∧ applyMaterialized Example.opL.toMatrixDecomp [1, 0, 0, 0, 0, 0]
        = [-241/200, 11/50, -1/2, -2, -2, -2]
    ∧ FdmHestonOp.apply Example.opL [1, 0, 0, 0, 0, 0]
        ≠ applyMaterialized Example.opL.toMatrixDecomp [1, 0, 0, 0, 0, 0]
    ∧ FdmHestonOp.apply Example.op [1, 0, 0, 0, 0, 0]
        = applyMaterialized Example.op.toMatrixDecomp [1, 0, 0, 0, 0, 0] := by
  have h1 : FdmHestonOp.apply Example.opL [1, 0, 0, 0, 0, 0]
      = [-191/200, 47/100, -1/2, -1, -1, -2] := by with_unfolding_all rfl
  have h2 : applyMaterialized Example.opL.toMatrixDecomp [1, 0, 0, 0, 0, 0]
      = [-241/200, 11/50, -1/2, -2, -2, -2] := by with_unfolding_all rfl
  refine ⟨h1, h2, ?_, by with_unfolding_all rfl⟩
  rw [h1, h2]
  intro h
  have h3 := (List.cons.inj h).1
  norm_num at h3

end Materialized

section EquityMap

variable {R : Type} [LinearOrderedField R]

/-- Entry `i` of a list built over the first `n` indices. -/
theorem getD_map_range {α : Type} (f : Nat → α) (n i : Nat) (d : α) (hi : i < n) :
    ((List.range n).map f).getD i d = f i := by
  rw [List.getD_eq_getElem?_getD, List.getElem?_map, List.getElem?_range hi]
  rfl

/-- Entry `i` of an elementwise combination of two arrays. -/
theorem getD_zipWith {α β γ : Type} (f : α → β → γ) (a : List α) (b : List β) (i : Nat)
    (da : α) (db : β) (d : γ) (ha : i < a.length) (hb : i < b.length) :
    (List.zipWith f a b).getD i d = f (a.getD i da) (b.getD i db) := by
  simp only [List.getD_eq_getElem?_getD, List.getElem?_zipWith, List.getElem?_eq_getElem ha,
    List.getElem?_eq_getElem hb, Option.getD_some]

/-- Entry `i` of an array mapped elementwise. -/
theorem getD_map {α β : Type} (f : α → β) (a : List α) (i : Nat) (da : α) (d : β)
    (ha : i < a.length) : (a.map f).getD i d = f (a.getD i da) := by
  simp only [List.getD_eq_getElem?_getD, List.getElem?_map, List.getElem?_eq_getElem ha,
    Option.map_some', Option.getD_some]

/-- A coefficient array of layout size is read at the index of the row. -/
theorem TripleBandLinearOp.coeff_of_length (a : List R) (n i : Nat) (ha : a.length = n)
    (hi : i < n) : TripleBandLinearOp.coeff a i = a.getD i 0 := by
  unfold TripleBandLinearOp.coeff
  by_cases h : 1 < a.length
  · rw [if_pos h]
  · rw [if_neg h]
    have : i = 0 := by omega
    rw [this]

/-- A coefficient array of one element is read as a constant. -/
theorem TripleBandLinearOp.coeff_fill_one (c : R) (i : Nat) :
    TripleBandLinearOp.coeff (QLArray.fill 1 c) i = c := by
  simp [TripleBandLinearOp.coeff, QLArray.fill]

/-- The constructor loop keeps the length of `varianceValues_`. -/
theorem FdmHestonEquityPart.zeroBoundary_length (layout : FdmLinearOpLayout) (v : List R) :
    (FdmHestonEquityPart.zeroBoundary layout v).length = v.length := by
  unfold FdmHestonEquityPart.zeroBoundary FdmLinearOpLayout.iterators
  rw [List.foldl_map]
  exact (foldl_set_self
    (fun k => (layout.iterAt k).coordinates.getD 0 0 = 0
      ∨ (layout.iterAt k).coordinates.getD 0 0 = layout.dim.getD 0 0 - 1)
    (fun _ => (0 : R)) v layout.size).1

namespace FdmHestonEquityPart

/-- C20: after `setTime(t1, t2)` on a freshly built equity part, row `i` of the
equity map is `a*D_x + (0.5*v*L^2)*D_xx + (-0.5*r)*I`, band by band and
applied to any array, where `v` is the variance location of node `i` (not
zeroed on the equity boundary), `L` the leverage slice at `i`, and `a` is
`r - q - varianceValues_*L^2`, less the quanto adjustment of
`sqrt(2*varianceValues_)*L` when a quanto helper is set. -/
theorem equity_map_after_setTime (alg : OperatorAlgebra R) (mesher : FdmMesher R)
    (rTS qTS : YieldTermStructure R) (quantoHelper : Option (FdmQuantoHelper R))
    (leverageFct : Option (LocalVolTermStructure R)) (exp : R → R) (t1 t2 : R)
    (p : FdmHestonEquityPart R) (L : List R) (i : Nat) (u : List R)
    (hp : p = create alg mesher rTS qTS quantoHelper leverageFct)
    (hL : L = p.getLeverageFctSlice exp t1 t2)
    (hwf : alg.WellFormed mesher 0)
    (hq : ∀ qh, quantoHelper = some qh →
      (qh.quantoAdjustment (QLArray.mul p.volatilityValues_ L) t1 t2).length
        = mesher.layout.size)
    (hi : i < mesher.layout.size) :
    ∃ a v l : R,
      v = mesher.location (mesher.layout.iterAt i) 1
      ∧ l = L.getD i 0
      ∧ (quantoHelper = none →
          a = rTS.forwardRate t1 t2 - qTS.forwardRate t1 t2
                - p.varianceValues_.getD i 0 * (l * l))
      ∧ (∀ qh, quantoHelper = some qh →
          a = rTS.forwardRate t1 t2 - qTS.forwardRate t1 t2
                - p.varianceValues_.getD i 0 * (l * l)
                - (qh.quantoAdjustment
                    (QLArray.mul (QLArray.mapFn alg.sqrt (QLArray.scale 2 p.varianceValues_)) L)
                    t1 t2).getD i 0)
      ∧ (p.setTime exp t1 t2).getMap.lower.getD i 0
          = a * (alg.firstDerivativeOp 0 mesher).lower.getD i 0
            + (0.5 * v * (l * l)) * (alg.secondDerivativeOp 0 mesher).lower.getD i 0
      ∧ (p.setTime exp t1 t2).getMap.diag.getD i 0
          = a * (alg.firstDerivativeOp 0 mesher).diag.getD i 0
            + (0.5 * v * (l * l)) * (alg.secondDerivativeOp 0 mesher).diag.getD i 0
            + (-0.5 * rTS.forwardRate t1 t2)
      ∧ (p.setTime exp t1 t2).getMap.upper.getD i 0
          = a * (alg.firstDerivativeOp 0 mesher).upper.getD i 0
            + (0.5 * v * (l * l)) * (alg.secondDerivativeOp 0 mesher).upper.getD i 0
      ∧ ((p.setTime exp t1 t2).getMap.apply u).getD i 0
          = a * ((alg.firstDerivativeOp 0 mesher).apply u).getD i 0
            + (0.5 * v * (l * l)) * ((alg.secondDerivativeOp 0 mesher).apply u).getD i 0
            + (-0.5 * rTS.forwardRate t1 t2) * u.getD i 0 := by
  obtain ⟨hsT, hsX, hsXX, hX0, hX2, hXX0, hXX2⟩ := hwf
  have hLlen : L.length = mesher.layout.size := by
    rw [hL, hp]; exact (slice_invariant exp _ t1 t2).1
  have hwlen : (QLArray.scale (0.5 : R) (mesher.locations 1)).length = mesher.layout.size := by
    simp [QLArray.scale, FdmMesher.locations, FdmLinearOpLayout.iterators]
  have hvvlen : p.varianceValues_.length = mesher.layout.size := by
    rw [hp]
    simp only [create]
    rw [zeroBoundary_length, hwlen]
  have hw : (QLArray.scale (0.5 : R) (mesher.locations 1)).getD i 0
      = 0.5 * mesher.location (mesher.layout.iterAt i) 1 := by
    rw [List.getD_eq_getElem?_getD]
    simp [QLArray.scale, FdmMesher.locations_entry mesher 1 i hi]
  have hLL : (QLArray.mul L L).getD i 0 = L.getD i 0 * L.getD i 0 :=
    getD_zipWith _ L L i 0 0 0 (by rw [hLlen]; exact hi) (by rw [hLlen]; exact hi)
  have hLLlen : (QLArray.mul L L).length = mesher.layout.size := by
    simp [QLArray.mul, hLlen]
  have hvLL : (QLArray.mul p.varianceValues_ (QLArray.mul L L)).getD i 0
      = p.varianceValues_.getD i 0 * (L.getD i 0 * L.getD i 0) := by
    rw [← hLL]
    exact getD_zipWith _ _ _ i 0 0 0 (by rw [hvvlen]; exact hi) (by rw [hLLlen]; exact hi)
  have hvLLlen : (QLArray.mul p.varianceValues_ (QLArray.mul L L)).length
      = mesher.layout.size := by
    simp [QLArray.mul, hLlen, hvvlen]
  have hrT : p.rTS_ = rTS := by rw [hp]; rfl
  have hqT : p.qTS_ = qTS := by rw [hp]; rfl
  have hqh : p.quantoHelper_ = quantoHelper := by rw [hp]; rfl
  have hvol : p.volatilityValues_
      = QLArray.mapFn alg.sqrt (QLArray.scale 2 p.varianceValues_) := by rw [hp]; rfl
  -- the drift coefficient
  have halen : (p.driftCoefficient L t1 t2).length = mesher.layout.size := by
    unfold driftCoefficient
    rw [hqh]
    cases hqc : quantoHelper with
    | none => simp [QLArray.rsub, hvLLlen]
    | some qh =>
      have := hq qh hqc
      simp only [QLArray.sub, QLArray.rsub, List.length_zipWith, List.length_map, hvLLlen, this,
        Nat.min_self]
  have ha0 : quantoHelper = none → (p.driftCoefficient L t1 t2).getD i 0
      = rTS.forwardRate t1 t2 - qTS.forwardRate t1 t2
          - p.varianceValues_.getD i 0 * (L.getD i 0 * L.getD i 0) := by
    intro hqc
    unfold driftCoefficient
    rw [hqh, hqc, hrT, hqT]
    simp only [QLArray.rsub]
    rw [getD_map _ _ i 0 0 (by rw [hvLLlen]; exact hi), hvLL]
  have ha1 : ∀ qh, quantoHelper = some qh → (p.driftCoefficient L t1 t2).getD i 0
      = rTS.forwardRate t1 t2 - qTS.forwardRate t1 t2
          - p.varianceValues_.getD i 0 * (L.getD i 0 * L.getD i 0)
          - (qh.quantoAdjustment
              (QLArray.mul (QLArray.mapFn alg.sqrt (QLArray.scale 2 p.varianceValues_)) L)
              t1 t2).getD i 0 := by
    intro qh hqc
    have hqlen := hq qh hqc
    unfold driftCoefficient
    rw [hqh, hqc, hrT, hqT]
    simp only [QLArray.sub, QLArray.rsub]
    rw [getD_zipWith _ _ _ i 0 0 0 (by simp [hvLLlen]; exact hi) (by rw [hqlen]; exact hi),
      getD_map _ _ i 0 0 (by rw [hvLLlen]; exact hi), hvLL, hvol]
  have hcoeff := TripleBandLinearOp.coeff_of_length (p.driftCoefficient L t1 t2)
    mesher.layout.size i halen hi
  -- the members of the part
  have hmapT : p.mapT_ = alg.tripleBandLinearOp 0 mesher := by rw [hp]; rfl
  have hdx : p.dxMap_ = alg.firstDerivativeOp 0 mesher := by rw [hp]; rfl
  have hdxx : p.dxxMap_ = (alg.secondDerivativeOp 0 mesher).mult
      (QLArray.scale 0.5 (mesher.locations 1)) := by rw [hp]; rfl
  have hmap : (p.setTime exp t1 t2).getMap
      = p.mapT_.axpyb (p.driftCoefficient L t1 t2) p.dxMap_
          (p.dxxMap_.mult (QLArray.mul L L))
          (QLArray.fill 1 (-0.5 * rTS.forwardRate t1 t2)) := by
    rw [hL, ← hrT]; rfl
  have hsize : p.mapT_.size = mesher.layout.size := by rw [hmapT]; exact hsT
  have hi0 : (p.setTime exp t1 t2).getMap.i0 = (alg.tripleBandLinearOp 0 mesher).i0 := by
    rw [hmap, ← hmapT]; rfl
  have hi2 : (p.setTime exp t1 t2).getMap.i2 = (alg.tripleBandLinearOp 0 mesher).i2 := by
    rw [hmap, ← hmapT]; rfl
  have hmsize : (p.setTime exp t1 t2).getMap.size = mesher.layout.size := by
    rw [hmap]; exact hsize
  have hlow : (p.setTime exp t1 t2).getMap.lower.getD i 0
      = (p.driftCoefficient L t1 t2).getD i 0 * (alg.firstDerivativeOp 0 mesher).lower.getD i 0
        + (0.5 * mesher.location (mesher.layout.iterAt i) 1 * (L.getD i 0 * L.getD i 0))
          * (alg.secondDerivativeOp 0 mesher).lower.getD i 0 := by
    rw [hmap]
    simp only [TripleBandLinearOp.axpyb, hsize]
    rw [getD_map_range _ _ _ _ hi, hcoeff, hdx, hdxx]
    simp only [TripleBandLinearOp.mult, hsXX]
    rw [getD_map_range _ _ _ _ hi, getD_map_range _ _ _ _ hi, hw, hLL]
    ring
  have hdiag : (p.setTime exp t1 t2).getMap.diag.getD i 0
      = (p.driftCoefficient L t1 t2).getD i 0 * (alg.firstDerivativeOp 0 mesher).diag.getD i 0
        + (0.5 * mesher.location (mesher.layout.iterAt i) 1 * (L.getD i 0 * L.getD i 0))
          * (alg.secondDerivativeOp 0 mesher).diag.getD i 0
        + (-0.5 * rTS.forwardRate t1 t2) := by
    rw [hmap]
    simp only [TripleBandLinearOp.axpyb, hsize]
    rw [getD_map_range _ _ _ _ hi, hcoeff, TripleBandLinearOp.coeff_fill_one, hdx, hdxx]
    simp only [TripleBandLinearOp.mult, hsXX]
    rw [getD_map_range _ _ _ _ hi, getD_map_range _ _ _ _ hi, hw, hLL]
    ring
  have hupp : (p.setTime exp t1 t2).getMap.upper.getD i 0
      = (p.driftCoefficient L t1 t2).getD i 0 * (alg.firstDerivativeOp 0 mesher).upper.getD i 0
        + (0.5 * mesher.location (mesher.layout.iterAt i) 1 * (L.getD i 0 * L.getD i 0))
          * (alg.secondDerivativeOp 0 mesher).upper.getD i 0 := by
    rw [hmap]
    simp only [TripleBandLinearOp.axpyb, hsize]
    rw [getD_map_range _ _ _ _ hi, hcoeff, hdx, hdxx]
    simp only [TripleBandLinearOp.mult, hsXX]
    rw [getD_map_range _ _ _ _ hi, getD_map_range _ _ _ _ hi, hw, hLL]
    ring
  refine ⟨(p.driftCoefficient L t1 t2).getD i 0, mesher.location (mesher.layout.iterAt i) 1,
    L.getD i 0, rfl, rfl, ha0, ha1, hlow, hdiag, hupp, ?_⟩
  simp only [TripleBandLinearOp.apply, hmsize, hsX, hsXX]
  rw [getD_map_range _ _ _ _ hi, getD_map_range _ _ _ _ hi, getD_map_range _ _ _ _ hi,
    hlow, hdiag, hupp, hi0, hi2, hX0, hX2, hXX0, hXX2]
  ring

/-- Evaluation of `equity_map_after_setTime` on the example part with leverage,
at node 4 (equity coordinate 1, variance location 4, leverage 1/2): the
diagonal of the equity map is `-47/100 * 0 + (0.5 * 4 * 1/4) * (-2) - 0.5 * 5/100`. -/
theorem equity_map_after_setTime_witness :
    (Example.partL.setTime Example.exp 0 1).getMap.diag.getD 4 0 = -41/40 := by
  obtain ⟨a, v, l, hv, hl, ha, -, -, hdiag, -, -⟩ :=
    equity_map_after_setTime Example.alg Example.mesher (Example.flat (5/100))
      (Example.flat (2/100)) none (some Example.leverage) Example.exp 0 1 Example.partL
      (Example.partL.getLeverageFctSlice Example.exp 0 1) 4 [1, 2, 3, 4, 5, 6] rfl rfl
      ⟨rfl, rfl, rfl, rfl, rfl, rfl, rfl⟩ (fun qh h => by cases h) (by decide)
  rw [hdiag, ha rfl, hv, hl]
  with_unfolding_all rfl

end FdmHestonEquityPart

end EquityMap

section Frame

variable {R : Type} [LinearOrderedField R]

/-- C23: `FdmHestonOp::setTime(t1, t2)` writes the band values of the two maps
`mapT_` and the leverage slice `L_` and nothing else: the correlation map,
`dxMap_`, `dxxMap_`, `dyMap_`, `varianceValues_`, `volatilityValues_`, the
other members and the band structure of the two maps are the same before
and after, also after any chain of `setTime` calls. -/
theorem FdmHestonOp.setTime_frame (exp : R → R) (op : FdmHestonOp R) (t1 t2 : R)
    (earlier : List (R × R)) :
    (FdmHestonOp.setTime exp op t1 t2).correlationMap_ = op.correlationMap_
    ∧ (FdmHestonOp.setTime exp op t1 t2).dxMap_.dxMap_ = op.dxMap_.dxMap_
    ∧ (FdmHestonOp.setTime exp op t1 t2).dxMap_.dxxMap_ = op.dxMap_.dxxMap_
    ∧ (FdmHestonOp.setTime exp op t1 t2).dyMap_.dyMap_ = op.dyMap_.dyMap_
    ∧ (FdmHestonOp.setTime exp op t1 t2).dxMap_.varianceValues_ = op.dxMap_.varianceValues_
    ∧ (FdmHestonOp.setTime exp op t1 t2).dxMap_.volatilityValues_
        = op.dxMap_.volatilityValues_
    ∧ (FdmHestonOp.setTime exp op t1 t2).dxMap_.mapT_.direction = op.dxMap_.mapT_.direction
    ∧ (FdmHestonOp.setTime exp op t1 t2).dxMap_.mapT_.size = op.dxMap_.mapT_.size
    ∧ (FdmHestonOp.setTime exp op t1 t2).dxMap_.mapT_.i0 = op.dxMap_.mapT_.i0
    ∧ (FdmHestonOp.setTime exp op t1 t2).dxMap_.mapT_.i2 = op.dxMap_.mapT_.i2
    ∧ (FdmHestonOp.setTime exp op t1 t2).dyMap_.mapT_.direction = op.dyMap_.mapT_.direction
    ∧ (FdmHestonOp.setTime exp op t1 t2).dyMap_.mapT_.size = op.dyMap_.mapT_.size
    ∧ (FdmHestonOp.setTime exp op t1 t2).dyMap_.mapT_.i0 = op.dyMap_.mapT_.i0
    ∧ (FdmHestonOp.setTime exp op t1 t2).dyMap_.mapT_.i2 = op.dyMap_.mapT_.i2
    ∧ FdmHestonOp.setTime exp op t1 t2
        = { op with
            dxMap_ := { op.dxMap_ with
              L_ := (FdmHestonOp.setTime exp op t1 t2).dxMap_.L_
              mapT_ := (FdmHestonOp.setTime exp op t1 t2).dxMap_.mapT_ }
            dyMap_ := { op.dyMap_ with
              mapT_ := (FdmHestonOp.setTime exp op t1 t2).dyMap_.mapT_ } }
    ∧ (earlier.foldl (fun o c => FdmHestonOp.setTime exp o c.1 c.2) op).correlationMap_
        = op.correlationMap_
    ∧ (earlier.foldl (fun o c => FdmHestonOp.setTime exp o c.1 c.2) op).dxMap_.dxMap_
        = op.dxMap_.dxMap_
    ∧ (earlier.foldl (fun o c => FdmHestonOp.setTime exp o c.1 c.2) op).dxMap_.dxxMap_
        = op.dxMap_.dxxMap_
    ∧ (earlier.foldl (fun o c => FdmHestonOp.setTime exp o c.1 c.2) op).dyMap_.dyMap_
        = op.dyMap_.dyMap_
    ∧ (earlier.foldl (fun o c => FdmHestonOp.setTime exp o c.1 c.2) op).dxMap_.varianceValues_
        = op.dxMap_.varianceValues_
    ∧ (earlier.foldl (fun o c => FdmHestonOp.setTime exp o c.1 c.2) op).dxMap_.volatilityValues_
        = op.dxMap_.volatilityValues_ := by
  refine ⟨rfl, rfl, rfl, rfl, rfl, rfl, rfl, rfl, rfl, rfl, rfl, rfl, rfl, rfl, rfl, ?_⟩
  induction earlier generalizing op with
  | nil => exact ⟨rfl, rfl, rfl, rfl, rfl, rfl⟩
  | cons c cs ih =>
    simp only [List.foldl_cons]
    exact ih (FdmHestonOp.setTime exp op c.1 c.2)

/-- C27: with a leverage function, on the two-dimensional layout (dimension 0
varying fastest), the slice is constant along the variance direction: the
node `i` has equity coordinate `nx = i % dim[0]`, the node `(nx, 0)` has
linear index `nx`, and entry `i` is entry `nx`, namely
`max(0.01, localVol(time, clamped spot at nx))`. -/
theorem FdmHestonEquityPart.slice_constant_along_variance (exp : R → R)
    (p : FdmHestonEquityPart R) (lf : LocalVolTermStructure R) (t1 t2 : R) (d0 d1 i : Nat)
    (hdim : p.mesher_.layout.dim = [d0, d1]) (hlf : p.leverageFct_ = some lf)
    (hi : i < p.mesher_.layout.size) :
    (p.mesher_.layout.iterAt i).coordinates.getD 0 0 = i % d0
    ∧ i % d0 < p.mesher_.layout.size
    ∧ (p.mesher_.layout.iterAt (i % d0)).coordinates = [i % d0, 0]
    ∧ (p.getLeverageFctSlice exp t1 t2)[i]? = (p.getLeverageFctSlice exp t1 t2)[i % d0]?
    ∧ (p.getLeverageFctSlice exp t1 t2)[i]?
        = some (max 0.01 (lf.localVol (min lf.maxTime (0.5 * (t1 + t2)))
            (min lf.maxStrike (max lf.minStrike
              (exp (p.mesher_.location (p.mesher_.layout.iterAt (i % d0)) 0)))))) := by
  have hi2 : i < d0 * d1 := by
    simpa [FdmLinearOpLayout.size, hdim] using hi
  have hd0 : 0 < d0 := by
    rcases Nat.eq_zero_or_pos d0 with h | h
    · subst h; simp at hi2
    · exact h
  have hd1 : 0 < d1 := by
    rcases Nat.eq_zero_or_pos d1 with h | h
    · subst h; simp at hi2
    · exact h
  have hnx : i % d0 < d0 := Nat.mod_lt _ hd0
  have hnx2 : i % d0 < d0 * d1 := Nat.lt_of_lt_of_le hnx (Nat.le_mul_of_pos_right d0 hd1)
  have hloc : p.mesher_.location (p.mesher_.layout.iterAt (i % d0)) 0
      = (p.mesher_.locs.getD 0 []).getD (i % d0) 0 := by
    simp [FdmMesher.location, FdmLinearOpLayout.iterAt, hdim, coordinatesOf]
  have h1 := FdmHestonEquityPart.slice_entry exp p lf t1 t2 d0 d1 i hdim hlf hi2
  have h2 := FdmHestonEquityPart.slice_entry exp p lf t1 t2 d0 d1 (i % d0) hdim hlf hnx2
  rw [Nat.mod_mod] at h2
  refine ⟨?_, ?_, ?_, ?_, ?_⟩
  · simp [FdmLinearOpLayout.iterAt, hdim, coordinatesOf]
  · simpa [FdmLinearOpLayout.size, hdim] using hnx2
  · simp [FdmLinearOpLayout.iterAt, hdim, coordinatesOf, Nat.mod_eq_of_lt hnx,
      (Nat.div_eq_zero_iff hd0).mpr hnx]
  · rw [h1, h2]
  · rw [h1, hloc]

/-- Evaluation of `slice_constant_along_variance` on the example part: entry 4
(equity coordinate 1, variance coordinate 1) is entry 1. -/
theorem FdmHestonEquityPart.slice_constant_along_variance_witness :
    (Example.partL.getLeverageFctSlice Example.exp 0 1)[4]?
      = (Example.partL.getLeverageFctSlice Example.exp 0 1)[1]? :=
  (FdmHestonEquityPart.slice_constant_along_variance Example.exp Example.partL Example.leverage
    0 1 3 2 4 rfl rfl (by decide)).2.2.2.1

end Frame

section Vanilla

variable {R Swap SType SMethod : Type}

/-- C25: `VanillaOption::setupArguments(args)` fails only when the base set-up
fails, with the failure of the base; after it has returned, an argument
object of the dividend-option type has an empty `cashFlow`, whatever it held
before, with its other members as the base left them, and an object of any
other type is as the base left it. -/
theorem VanillaOption.setupArguments_clears
    (baseSetup : PricingEngine.arguments R Swap SType SMethod →
      Except Error (PricingEngine.arguments R Swap SType SMethod))
    (option : VanillaOption R) (args : PricingEngine.arguments R Swap SType SMethod) :
    (∀ e, baseSetup args = .error e →
        VanillaOption.setupArguments baseSetup option args = .error e)
    ∧ (∀ a, baseSetup args = .ok (.dividendVanillaOption a) →
        VanillaOption.setupArguments baseSetup option args
          = .ok (.dividendVanillaOption { a with cashFlow := [] }))
    ∧ (∀ args1, baseSetup args = .ok args1 → (∀ a, args1 ≠ .dividendVanillaOption a) →
        VanillaOption.setupArguments baseSetup option args = .ok args1)
    ∧ (∀ e, VanillaOption.setupArguments baseSetup option args = .error e →
        baseSetup args = .error e) := by
  refine ⟨?_, ?_, ?_, ?_⟩
  · intro e h
    simp [VanillaOption.setupArguments, h, bind, Except.bind]
  · intro a h
    simp [VanillaOption.setupArguments, h, bind, Except.bind, pure, Except.pure]
  · intro args1 h hne
    cases args1 with
    | dividendVanillaOption a => exact absurd rfl (hne a)
    | nonstandardSwaption a =>
      simp [VanillaOption.setupArguments, h, bind, Except.bind, pure, Except.pure]
    | other c =>
      simp [VanillaOption.setupArguments, h, bind, Except.bind, pure, Except.pure]
  · intro e h
    cases hb : baseSetup args with
    | error e2 =>
      simp [VanillaOption.setupArguments, hb, bind, Except.bind] at h
      rw [h]
    | ok args1 =>
      cases args1 <;>
        simp [VanillaOption.setupArguments, hb, bind, Except.bind, pure, Except.pure] at h

/-- Evaluation of `setupArguments_clears`: dividend arguments holding dividends on
days 30 and 60 are left with none. -/
theorem VanillaOption.setupArguments_clears_witness :
    VanillaOption.setupArguments Example.noSetup Example.vanillaOption
        (.dividendVanillaOption (Example.dividendArgs [30, 60]))
      = .ok (.dividendVanillaOption (Example.dividendArgs [])) :=
  (VanillaOption.setupArguments_clears Example.noSetup Example.vanillaOption
    (.dividendVanillaOption (Example.dividendArgs [30, 60]))).2.1 _ rfl

/-- C29: `VanillaOption::impliedVolatility` without dividends is the overload
called with an empty schedule; the overload fails with 'option expired'
when expired, and otherwise searches a European exercise with the analytic
European engine (no dividends) or the analytic dividend European engine
(dividends), an American or Bermudan exercise with the finite-difference
Black-Scholes engine, given the dividends exactly when there are some, and
fails with 'unknown exercise type' for any other type. -/
theorem VanillaOption.impliedVolatility_overloads
    (calculate : VanillaEngine R → Except Error R) (option : VanillaOption R)
    (dividends : List (Dividend R)) (expired : Bool) :
    VanillaOption.impliedVolatility calculate expired option
        = VanillaOption.impliedVolatilityWithDividends calculate expired option []
    ∧ VanillaOption.impliedVolatilityWithDividends calculate true option dividends
        = { outcome := .error (.fail "option expired"), searches := [] }
    ∧ ∀ exercise : Exercise, option.exercise_ = some exercise →
        (exercise.type = .European → dividends = [] →
          VanillaOption.impliedVolatilityWithDividends calculate false option dividends
            = { outcome := calculate .AnalyticEuropeanEngine
                searches := [.AnalyticEuropeanEngine] })
        ∧ (exercise.type = .European → dividends ≠ [] →
          VanillaOption.impliedVolatilityWithDividends calculate false option dividends
            = { outcome := calculate (.AnalyticDividendEuropeanEngine (some dividends))
                searches := [.AnalyticDividendEuropeanEngine (some dividends)] })
        ∧ (exercise.type = .American ∨ exercise.type = .Bermudan → dividends = [] →
          VanillaOption.impliedVolatilityWithDividends calculate false option dividends
            = { outcome := calculate (.FdBlackScholesVanillaEngine none)
                searches := [.FdBlackScholesVanillaEngine none] })
        ∧ (exercise.type = .American ∨ exercise.type = .Bermudan → dividends ≠ [] →
          VanillaOption.impliedVolatilityWithDividends calculate false option dividends
            = { outcome := calculate (.FdBlackScholesVanillaEngine (some dividends))
                searches := [.FdBlackScholesVanillaEngine (some dividends)] })
        ∧ (exercise.type = .unknown →
          VanillaOption.impliedVolatilityWithDividends calculate false option dividends
            = { outcome := .error (.fail "unknown exercise type"), searches := [] }) := by
  refine ⟨rfl, rfl, ?_⟩
  intro exercise hex
  have hemp : dividends ≠ [] → dividends.isEmpty = false := by
    intro h
    cases dividends with
    | nil => exact absurd rfl h
    | cons d ds => rfl
  refine ⟨?_, ?_, ?_, ?_, ?_⟩
  · intro ht hd
    subst hd
    simp [VanillaOption.impliedVolatilityWithDividends, hex, ht]
  · intro ht hd
    simp [VanillaOption.impliedVolatilityWithDividends, hex, ht, hemp hd]
  · rintro (ht | ht) hd <;> subst hd <;>
      simp [VanillaOption.impliedVolatilityWithDividends, hex, ht]
  · rintro (ht | ht) hd <;>
      simp [VanillaOption.impliedVolatilityWithDividends, hex, ht, hemp hd]
  · intro ht
    simp [VanillaOption.impliedVolatilityWithDividends, hex, ht]

/-- Evaluation of `impliedVolatility_overloads` on the example option, of European
exercise: without dividends the analytic European engine is searched. -/
theorem VanillaOption.impliedVolatility_overloads_witness :
    (VanillaOption.impliedVolatility Example.search false Example.vanillaOption).outcome
        = .ok (1/5)
    ∧ (VanillaOption.impliedVolatility Example.search false
        Example.vanillaOption).searches.length = 1 := by
  have h := VanillaOption.impliedVolatility_overloads Example.search Example.vanillaOption
    [] false
  rw [h.1, (h.2.2 Example.european rfl).1 rfl rfl]
  exact ⟨rfl, rfl⟩

end Vanilla

section Calibration

variable {R G : Type} [LinearOrderedField R]

/-- C26: `SwaptionHelper::performCalculations` keeps the calibration swaption
out of the money: with a strike, the exercise rate is the strike and the
swap is a Receiver exactly when `strike <= forward` and a Payer exactly
when `strike > forward`; without a strike, the exercise rate is the forward
and the swap is a Receiver.  The swap is built with that rate as its fixed
rate: a Receiver receives no more than the forward, a Payer pays more. -/
theorem SwaptionHelper.performCalculations_swap (strike_ : Option R) (nominal_ forward : R) :
    (∀ strike, strike_ = some strike →
        (SwaptionHelper.performCalculations strike_ nominal_ forward).1 = strike
        ∧ ((SwaptionHelper.performCalculations strike_ nominal_ forward).2.type = .Receiver
            ↔ strike ≤ forward)
        ∧ ((SwaptionHelper.performCalculations strike_ nominal_ forward).2.type = .Payer
            ↔ forward < strike))
    ∧ (strike_ = none →
        (SwaptionHelper.performCalculations strike_ nominal_ forward).1 = forward
        ∧ (SwaptionHelper.performCalculations strike_ nominal_ forward).2.type = .Receiver)
    ∧ (SwaptionHelper.performCalculations strike_ nominal_ forward).2.fixedRate
        = (SwaptionHelper.performCalculations strike_ nominal_ forward).1
    ∧ (SwaptionHelper.performCalculations strike_ nominal_ forward).2.nominal = nominal_
    ∧ ((SwaptionHelper.performCalculations strike_ nominal_ forward).2.type = .Receiver →
        (SwaptionHelper.performCalculations strike_ nominal_ forward).2.fixedRate ≤ forward)
    ∧ ((SwaptionHelper.performCalculations strike_ nominal_ forward).2.type = .Payer →
        forward < (SwaptionHelper.performCalculations strike_ nominal_ forward).2.fixedRate) := by
  cases strike_ with
  | none =>
    simp [SwaptionHelper.performCalculations]
  | some strike =>
    by_cases h : strike ≤ forward
    · have h2 : ¬ forward < strike := not_lt.mpr h
      simp [SwaptionHelper.performCalculations, h, h2]
    · have h2 : forward < strike := not_le.mp h
      simp [SwaptionHelper.performCalculations, h, h2]

/-- Evaluation of `performCalculations_swap`: a strike of 3% against a forward of
2% gives a Payer at 3%. -/
theorem SwaptionHelper.performCalculations_swap_witness :
    (SwaptionHelper.performCalculations (some (3/100 : ℚ)) 1 (2/100)).1 = 3/100
    ∧ (SwaptionHelper.performCalculations (some (3/100 : ℚ)) 1 (2/100)).2.type = .Payer := by
  have h := (SwaptionHelper.performCalculations_swap (some (3/100 : ℚ)) 1 (2/100)).1 _ rfl
  exact ⟨h.1, h.2.2.mpr (by norm_num)⟩

/-- C30: `FDDividendEngineShiftScale::executeIntermediateStep(step)` returns the
engine as it is when `events_[step]` is not a Dividend, and otherwise sends
`sMin_`, `sMax_` and `center_` through `x -> x + amount(x)`; for a dividend
whose amount is the same `A` at every level, the adder undoes the reduction
`u -> u - amount(u)` of `setGridLimits`. -/
theorem FDDividendEngineShiftScale.executeIntermediateStep_adder
    (rest : (R → R) → FDDividendEngineBase R G → G) (e : FDDividendEngineBase R G)
    (step : Nat) :
    (∀ date, e.events_[step]? = some (.other date) →
        FDDividendEngineShiftScale.executeIntermediateStep rest e step = some e)
    ∧ (∀ dividend, e.events_[step]? = some (.dividend dividend) →
        ∃ e2, FDDividendEngineShiftScale.executeIntermediateStep rest e step = some e2
          ∧ e2.sMin_ = e.sMin_ + dividend.amountAt e.sMin_
          ∧ e2.sMax_ = e.sMax_ + dividend.amountAt e.sMax_
          ∧ e2.center_ = e.center_ + dividend.amountAt e.center_
          ∧ e2.events_ = e.events_)
    ∧ (∀ (dividend : Dividend R) (A : R), (∀ x, dividend.amountAt x = A) →
        (∀ u, detail.DividendAdder dividend (u - dividend.amountAt u) = u)
        ∧ (∀ u, e.events_[step]? = some (.dividend dividend) → ¬ e.dividendTime step < 0.0 →
            detail.DividendAdder dividend
              (FDDividendEngineShiftScale.reduceUnderlying e u step) = u)) := by
  refine ⟨?_, ?_, ?_⟩
  · intro date h
    simp [FDDividendEngineShiftScale.executeIntermediateStep, h]
  · intro dividend h
    simp [FDDividendEngineShiftScale.executeIntermediateStep, h, detail.DividendAdder]
  · intro dividend A hA
    have h1 : ∀ u, detail.DividendAdder dividend (u - dividend.amountAt u) = u := by
      intro u
      simp only [detail.DividendAdder, hA]
      ring
    refine ⟨h1, ?_⟩
    intro u hev ht
    simp only [FDDividendEngineShiftScale.reduceUnderlying, hev, if_neg ht]
    exact h1 u

/-- Evaluation of `executeIntermediateStep_adder` on the example engine: event 1
is not a dividend and leaves the engine alone; event 0 is a dividend of 5
and moves the center from 100 to 105. -/
theorem FDDividendEngineShiftScale.executeIntermediateStep_adder_witness :
    FDDividendEngineShiftScale.executeIntermediateStep (fun _ _ => ()) Example.fdEngine 1
        = some Example.fdEngine
    ∧ ∃ e2, FDDividendEngineShiftScale.executeIntermediateStep (fun _ _ => ())
          Example.fdEngine 0 = some e2
        ∧ e2.center_ = 105 := by
  have h := FDDividendEngineShiftScale.executeIntermediateStep_adder (fun _ _ => ())
    Example.fdEngine
  refine ⟨(h 1).1 40 rfl, ?_⟩
  obtain ⟨e2, he2, -, -, hc, -⟩ := (h 0).2.1 (Example.fixedDividend 30 5) rfl
  refine ⟨e2, he2, ?_⟩
  rw [hc]
  norm_num [Example.fdEngine, Example.fixedDividend]

end Calibration

section DividendEngines

variable {R G : Type} [LinearOrderedField R]

/-- The discounted dividend of an event: the amount of a dividend, 0 for another
event, times the ratio of the two discount factors at the date of the
event. -/
theorem FDDividendEngineBase.getDiscountedDividend_eq (e : FDDividendEngineBase R G)
    (i : Nat) (event : Event R) (hev : e.events_[i]? = some event) :
    e.getDiscountedDividend i
      = some (event.dividendAmount
        * (e.riskFreeDiscount event.date / e.dividendYieldDiscount event.date)) := by
  cases event <;>
    simp [FDDividendEngineBase.getDiscountedDividend, FDDividendEngineBase.getDividendAmount,
      Event.dividendAmount, hev]

/-- The discounted dividend is read from `events_` and the two discount curves
only. -/
theorem FDDividendEngineBase.getDiscountedDividend_congr (e e2 : FDDividendEngineBase R G)
    (h1 : e2.events_ = e.events_) (h2 : e2.riskFreeDiscount = e.riskFreeDiscount)
    (h3 : e2.dividendYieldDiscount = e.dividendYieldDiscount) (i : Nat) :
    e2.getDiscountedDividend i = e.getDiscountedDividend i := by
  simp [FDDividendEngineBase.getDiscountedDividend, FDDividendEngineBase.getDividendAmount,
    h1, h2, h3]

namespace FDDividendEngineMerton73

/-- A step on an event with discounted dividend `D` multiplies `sMin_`, `sMax_`
and `center_` by `D/center_ + 1` and keeps the events, the spot, the curves
and the dividend times. -/
theorem executeIntermediateStep_some (rest : R → FDDividendEngineBase R G → G)
    (e : FDDividendEngineBase R G) (step : Nat) (D : R)
    (hD : e.getDiscountedDividend step = some D) :
    ∃ e2, executeIntermediateStep rest e step = some e2
      ∧ e2.sMin_ = e.sMin_ * (D / e.center_ + 1)
      ∧ e2.sMax_ = e.sMax_ * (D / e.center_ + 1)
      ∧ e2.center_ = e.center_ * (D / e.center_ + 1)
      ∧ e2.events_ = e.events_ ∧ e2.spot = e.spot
      ∧ e2.riskFreeDiscount = e.riskFreeDiscount
      ∧ e2.dividendYieldDiscount = e.dividendYieldDiscount
      ∧ e2.dividendTime = e.dividendTime := by
  have h1 : (1.0 : R) = 1 := by norm_num
  simp only [executeIntermediateStep, hD, h1]
  exact ⟨_, rfl, rfl, rfl, rfl, rfl, rfl, rfl, rfl, rfl⟩

/-- C24, as the claim states it, fails: with center 1 and a discounted dividend
of -1 the scale factor is 0, `sMin_` and `sMax_` both become 0 and the ratio
`sMax_/sMin_`, 4 before the step, is not kept. -/
theorem scale_ratio_counterexample :
    Example.fdEngineNegative.center_ ≠ 0
    ∧ ∃ e2, executeIntermediateStep (fun _ _ => ()) Example.fdEngineNegative 0 = some e2
        ∧ e2.sMin_ = 0 ∧ e2.sMax_ = 0
        ∧ e2.sMax_ / e2.sMin_ ≠ Example.fdEngineNegative.sMax_ / Example.fdEngineNegative.sMin_ := by
  refine ⟨by norm_num [Example.fdEngineNegative], _, rfl, ?_, ?_, ?_⟩ <;>
    norm_num [Example.fdEngineNegative, Example.fixedDividend, Event.date]

/-- C24, amended: when `executeIntermediateStep(step)` runs with `center_ != 0`
and discounted dividend `D`, `sMin_`, `sMax_` and `center_` are multiplied
by the same factor `1 + D/center_`, so the new center is the old center
plus `D`, and the ratio `sMax_/sMin_` is unchanged provided the factor is
not zero, that is `D != -center_`; an event that is not a Dividend has
`D = 0` and factor 1. -/
theorem executeIntermediateStep_scales (rest : R → FDDividendEngineBase R G → G)
    (e : FDDividendEngineBase R G) (step : Nat) (event : Event R)
    (hev : e.events_[step]? = some event) (hc : e.center_ ≠ 0) :
    ∃ (D : R) (e2 : FDDividendEngineBase R G),
      D = event.dividendAmount
          * (e.riskFreeDiscount event.date / e.dividendYieldDiscount event.date)
      ∧ e.getDiscountedDividend step = some D
      ∧ executeIntermediateStep rest e step = some e2
      ∧ e2.sMin_ = e.sMin_ * (1 + D / e.center_)
      ∧ e2.sMax_ = e.sMax_ * (1 + D / e.center_)
      ∧ e2.center_ = e.center_ * (1 + D / e.center_)
      ∧ e2.center_ = e.center_ + D
      ∧ (D ≠ -e.center_ → e2.sMax_ / e2.sMin_ = e.sMax_ / e.sMin_)
      ∧ ((∀ d, event ≠ .dividend d) → D = 0 ∧ 1 + D / e.center_ = 1) := by
  have hD := FDDividendEngineBase.getDiscountedDividend_eq e step event hev
  obtain ⟨e2, he2, hmin, hmax, hcen, -⟩ := executeIntermediateStep_some rest e step _ hD
  have hzero : (∀ d, event ≠ .dividend d) →
      event.dividendAmount
        * (e.riskFreeDiscount event.date / e.dividendYieldDiscount event.date) = 0 := by
    intro hnd
    cases event with
    | dividend d => exact absurd rfl (hnd d)
    | other date =>
      simp only [Event.dividendAmount]
      norm_num
  refine ⟨_, e2, rfl, hD, he2, ?_, ?_, ?_, ?_, ?_, ?_⟩
  · rw [hmin]; ring
  · rw [hmax]; ring
  · rw [hcen]; ring
  · rw [hcen]
    generalize event.dividendAmount
      * (e.riskFreeDiscount event.date / e.dividendYieldDiscount event.date) = D
    field_simp
    ring
  · intro hne
    rw [hmax, hmin]
    generalize event.dividendAmount
      * (e.riskFreeDiscount event.date / e.dividendYieldDiscount event.date) = D at hne ⊢
    have hf : D / e.center_ + 1 ≠ 0 := by
      intro h0
      apply hne
      field_simp at h0
      linarith
    exact mul_div_mul_right _ _ hf
  · intro hnd
    rw [hzero hnd]
    simp

/-- Evaluation of `executeIntermediateStep_scales` on the example engine, at the
dividend of 5 discounted to 9/2: the center moves from 100 to 209/2. -/
theorem executeIntermediateStep_scales_witness :
    ∃ e2, executeIntermediateStep (fun _ _ => ()) Example.fdEngine 0 = some e2
      ∧ e2.center_ = 209/2 := by
  obtain ⟨D, e2, hD, -, he2, -, -, -, hc, -, -⟩ :=
    executeIntermediateStep_scales (fun _ _ => ()) Example.fdEngine 0
      (.dividend (Example.fixedDividend 30 5)) rfl (by norm_num [Example.fdEngine])
  refine ⟨e2, he2, ?_⟩
  rw [hc, hD]
  norm_num [Example.fdEngine, Example.fixedDividend, Event.date, Event.dividendAmount]

/-- A loop that adds the discounted dividends of the selected indices. -/
theorem foldl_paid {α : Type} (c : α → Prop) [DecidablePred c] (g : α → Option R) :
    ∀ (l : List α) (a : R),
      l.foldl (fun paid i =>
          if c i then
            match g i with
            | some d => paid + d
            | none => paid
          else paid) a
        = a + ((l.filter (fun i => decide (c i))).map (fun i => (g i).getD 0)).sum := by
  intro l
  induction l with
  | nil => intro a; simp
  | cons x xs ih =>
    intro a
    simp only [List.foldl_cons]
    rw [ih]
    by_cases hx : c x
    · cases hg : g x with
      | none => simp [hx, hg, List.filter_cons]
      | some d => simp [hx, hg, List.filter_cons, add_assoc]
    · simp [hx, List.filter_cons]

/-- The value of `paidDividends` after the loop of `setGridLimits`: the sum of
the discounted dividends of the events whose dividend time is not
negative. -/
theorem paidDividends_eq_sum (e : FDDividendEngineBase R G) :
    paidDividends e
      = (((List.range e.events_.length).filter
            (fun i => decide (0.0 ≤ e.dividendTime i))).map
          (fun i => (e.getDiscountedDividend i).getD 0)).sum := by
  have h0 : (0.0 : R) = 0 := by norm_num
  unfold paidDividends
  rw [foldl_paid (fun i => 0.0 ≤ e.dividendTime i) (fun i => e.getDiscountedDividend i), h0,
    zero_add]

/-- A run of intermediate steps that never starts from a zero center adds the
discounted dividends of its steps to the center. -/
theorem runSteps_center (rest : R → FDDividendEngineBase R G → G) :
    ∀ (steps : List Nat) (e : FDDividendEngineBase R G),
      (∀ i ∈ steps, i < e.events_.length) → CentersNonZero rest e steps →
      ∃ e2, runSteps rest e steps = some e2
        ∧ e2.center_
            = e.center_ + (steps.map (fun i => (e.getDiscountedDividend i).getD 0)).sum := by
  intro steps
  induction steps with
  | nil =>
    intro e _ _
    exact ⟨e, rfl, by simp⟩
  | cons i is ih =>
    intro e hlt hnz
    have hi : i < e.events_.length := hlt i (List.mem_cons_self _ _)
    have hev : e.events_[i]? = some e.events_[i] := List.getElem?_eq_getElem hi
    have hD := FDDividendEngineBase.getDiscountedDividend_eq e i _ hev
    obtain ⟨e1, he1, -, -, hcen, hevs, -, hrf, hdy, -⟩ :=
      executeIntermediateStep_some rest e i _ hD
    obtain ⟨hc, hrestnz⟩ := hnz
    rw [he1] at hrestnz
    have hlt1 : ∀ j ∈ is, j < e1.events_.length := by
      intro j hj
      rw [hevs]
      exact hlt j (List.mem_cons_of_mem _ hj)
    obtain ⟨e2, he2, hc2⟩ := ih e1 hlt1 hrestnz
    refine ⟨e2, ?_, ?_⟩
    · simp only [runSteps, he1]
      exact he2
    · rw [hc2, hcen]
      have hsame : (is.map (fun j => (e1.getDiscountedDividend j).getD 0))
          = is.map (fun j => (e.getDiscountedDividend j).getD 0) := by
        apply List.map_congr_left
        intro j _
        rw [FDDividendEngineBase.getDiscountedDividend_congr e e1 hevs hrf hdy]
      rw [hsame, List.map_cons, List.sum_cons, hD, Option.getD_some]
      generalize (e.events_[i]).dividendAmount
        * (e.riskFreeDiscount (e.events_[i]).date
            / e.dividendYieldDiscount (e.events_[i]).date) = D
      field_simp
      ring

/-- C28: `setGridLimits` asks for a grid centered at the spot less the sum of the
discounted dividends of the events whose dividend time is not negative, an
event that is not a Dividend counting for 0; from an engine with that
center, the intermediate steps of those events, run once each in any order,
bring the center back to the spot, provided no step starts from a zero
center. -/
theorem center_returns_to_spot
    (baseSetGridLimits : R → R → FDDividendEngineBase R G → FDDividendEngineBase R G)
    (ensureStrikeInGrid : FDDividendEngineBase R G → FDDividendEngineBase R G)
    (rest : R → FDDividendEngineBase R G → G)
    (e : FDDividendEngineBase R G) (order : List Nat)
    (hperm : order.Perm ((List.range e.events_.length).filter
      (fun i => decide (0.0 ≤ e.dividendTime i))))
    (hcenter : e.center_ = e.spot - paidDividends e)
    (hnz : CentersNonZero rest e order) :
    setGridLimits baseSetGridLimits ensureStrikeInGrid e
        = ensureStrikeInGrid (baseSetGridLimits (e.spot - paidDividends e) e.residualTime e)
    ∧ paidDividends e
        = (((List.range e.events_.length).filter
              (fun i => decide (0.0 ≤ e.dividendTime i))).map
            (fun i => (e.getDiscountedDividend i).getD 0)).sum
    ∧ (∀ i date, e.events_[i]? = some (.other date) → e.getDiscountedDividend i = some 0)
    ∧ ∃ e2, runSteps rest e order = some e2 ∧ e2.center_ = e.spot := by
  refine ⟨rfl, paidDividends_eq_sum e, ?_, ?_⟩
  · intro i date hev
    rw [FDDividendEngineBase.getDiscountedDividend_eq e i _ hev]
    simp only [Event.dividendAmount]
    norm_num
  · have hlt : ∀ i ∈ order, i < e.events_.length := by
      intro i hi
      have := (hperm.mem_iff).mp hi
      exact List.mem_range.mp (List.mem_filter.mp this).1
    obtain ⟨e2, he2, hc2⟩ := runSteps_center rest order e hlt hnz
    refine ⟨e2, he2, ?_⟩
    rw [hc2, hcenter, paidDividends_eq_sum e,
      (hperm.map (fun i => (e.getDiscountedDividend i).getD 0)).sum_eq]
    ring

/-- Evaluation of `center_returns_to_spot` on the example engine, centered at
100 for a spot of 100 + 9/2 + 27/10: the steps of events 2, 0 and 1, in that
order, bring the center to the spot. -/
theorem center_returns_to_spot_witness :
    ∃ e2, runSteps (fun _ _ => ()) Example.fdEngine [2, 0, 1] = some e2
      ∧ e2.center_ = 100 + 5 * (9/10) + 3 * (9/10) := by
  have hperm : [2, 0, 1].Perm ((List.range Example.fdEngine.events_.length).filter
      (fun i => decide (0.0 ≤ Example.fdEngine.dividendTime i))) := by
    have : (List.range Example.fdEngine.events_.length).filter
        (fun i => decide (0.0 ≤ Example.fdEngine.dividendTime i)) = [0, 1, 2] := by
      have h01 : (0.0 : ℚ) ≤ 1 := by norm_num
      simp [Example.fdEngine, List.range_succ, h01]
    rw [this]
    decide
  have hcenter : Example.fdEngine.center_
      = Example.fdEngine.spot - paidDividends Example.fdEngine := by
    with_unfolding_all rfl
  have hnz : CentersNonZero (fun _ _ => ()) Example.fdEngine [2, 0, 1] := by
    simp only [CentersNonZero, executeIntermediateStep, Example.fdEngine,
      FDDividendEngineBase.getDiscountedDividend, FDDividendEngineBase.getDividendAmount,
      Example.fixedDividend, Event.date]
    norm_num
  exact (center_returns_to_spot (fun _ _ e => e) id (fun _ _ => ()) Example.fdEngine [2, 0, 1]
    hperm hcenter hnz).2.2.2

end FDDividendEngineMerton73

end DividendEngines

section VariancePart

variable {R : Type} [LinearOrderedField R]

/-- Every entry of the elementwise product with an array of zeros is zero. -/
theorem QLArray.mul_zero_entries (L z : List R) (hz : ∀ x ∈ z, x = 0) :
    ∀ x ∈ QLArray.mul L z, x = 0 := by
  intro x hx
  unfold QLArray.mul at hx
  rw [List.mem_iff_getElem] at hx
  obtain ⟨n, hn, rfl⟩ := hx
  rw [List.getElem_zipWith]
  have hn2 : n < z.length := by
    rw [List.length_zipWith] at hn
    omega
  rw [hz z[n] (List.getElem_mem hn2), mul_zero]

/-- Entry `i` of `mesher->locations(1)` scaled by a constant. -/
theorem QLArray.scale_locations_entry (c : R) (mesher : FdmMesher R) (i : Nat)
    (hi : i < mesher.layout.size) :
    (QLArray.scale c (mesher.locations 1)).getD i 0
      = c * mesher.location (mesher.layout.iterAt i) 1 := by
  rw [List.getD_eq_getElem?_getD]
  simp [QLArray.scale, FdmMesher.locations_entry mesher 1 i hi]

/-- Entry `i` of `kappa * (theta - mesher->locations(1))`. -/
theorem QLArray.scale_rsub_locations_entry (kappa theta : R) (mesher : FdmMesher R) (i : Nat)
    (hi : i < mesher.layout.size) :
    (QLArray.scale kappa (QLArray.rsub theta (mesher.locations 1))).getD i 0
      = kappa * (theta - mesher.location (mesher.layout.iterAt i) 1) := by
  rw [List.getD_eq_getElem?_getD]
  simp [QLArray.scale, QLArray.rsub, FdmMesher.locations_entry mesher 1 i hi]

/-- The band coefficients of `dyMap_` as the constructor of the variance part
leaves them. -/
theorem FdmHestonVariancePart.create_dyMap (alg : OperatorAlgebra R) (mesher : FdmMesher R)
    (rTS : YieldTermStructure R) (mixedSigma kappa theta : R) (i : Nat)
    (hwf : alg.WellFormed mesher 1) (hi : i < mesher.layout.size) :
    (FdmHestonVariancePart.create alg mesher rTS mixedSigma kappa theta).dyMap_.lower.getD i 0
        = (0.5 * mixedSigma * mixedSigma * mesher.location (mesher.layout.iterAt i) 1)
            * (alg.secondDerivativeOp 1 mesher).lower.getD i 0
          + (kappa * (theta - mesher.location (mesher.layout.iterAt i) 1))
            * (alg.firstDerivativeOp 1 mesher).lower.getD i 0
    ∧ (FdmHestonVariancePart.create alg mesher rTS mixedSigma kappa theta).dyMap_.diag.getD i 0
        = (0.5 * mixedSigma * mixedSigma * mesher.location (mesher.layout.iterAt i) 1)
            * (alg.secondDerivativeOp 1 mesher).diag.getD i 0
          + (kappa * (theta - mesher.location (mesher.layout.iterAt i) 1))
            * (alg.firstDerivativeOp 1 mesher).diag.getD i 0
    ∧ (FdmHestonVariancePart.create alg mesher rTS mixedSigma kappa theta).dyMap_.upper.getD i 0
        = (0.5 * mixedSigma * mixedSigma * mesher.location (mesher.layout.iterAt i) 1)
            * (alg.secondDerivativeOp 1 mesher).upper.getD i 0
          + (kappa * (theta - mesher.location (mesher.layout.iterAt i) 1))
            * (alg.firstDerivativeOp 1 mesher).upper.getD i 0 := by
  obtain ⟨-, hsY, hsYY, -, -, -, -⟩ := hwf
  simp only [FdmHestonVariancePart.create, TripleBandLinearOp.add, TripleBandLinearOp.mult,
    hsY, hsYY]
  refine ⟨?_, ?_, ?_⟩ <;>
  · rw [getD_map_range _ _ _ _ hi, getD_map_range _ _ _ _ hi, getD_map_range _ _ _ _ hi,
      QLArray.scale_locations_entry _ mesher i hi,
      QLArray.scale_rsub_locations_entry _ _ mesher i hi]
    ring

namespace FdmHestonVariancePart

/-- C21: after `setTime(t1, t2)` on the variance part of a freshly built
operator, row `i` of the variance map is row `i` of `dyMap_` with `-0.5*r`
added on the diagonal, band by band and applied to any array, `dyMap_` being
counted once; `dyMap_` is `(0.5*mixedSigma^2*v)*D_yy + (kappa*(theta - v))*D_y`
and `setTime` leaves it alone; the diagonals of the equity map and of the
variance map together carry `-r` over the derivative terms. -/
theorem variance_map_after_setTime (alg : OperatorAlgebra R) (mesher : FdmMesher R)
    (hestonProcess : HestonProcess R) (quantoHelper : Option (FdmQuantoHelper R))
    (leverageFct : Option (LocalVolTermStructure R)) (mixingFactor : R) (exp : R → R)
    (t1 t2 : R) (op : FdmHestonOp R) (i : Nat) (u : List R)
    (hop : op = FdmHestonOp.create alg mesher hestonProcess quantoHelper leverageFct
      mixingFactor)
    (hwf0 : alg.WellFormed mesher 0) (hwf1 : alg.WellFormed mesher 1)
    (hi : i < mesher.layout.size) :
    (op.dyMap_.setTime t1 t2).dyMap_ = op.dyMap_.dyMap_
    ∧ op.dyMap_.dyMap_.lower.getD i 0
        = (0.5 * (hestonProcess.sigma * mixingFactor) * (hestonProcess.sigma * mixingFactor)
              * mesher.location (mesher.layout.iterAt i) 1)
            * (alg.secondDerivativeOp 1 mesher).lower.getD i 0
          + (hestonProcess.kappa
              * (hestonProcess.theta - mesher.location (mesher.layout.iterAt i) 1))
            * (alg.firstDerivativeOp 1 mesher).lower.getD i 0
    ∧ op.dyMap_.dyMap_.diag.getD i 0
        = (0.5 * (hestonProcess.sigma * mixingFactor) * (hestonProcess.sigma * mixingFactor)
              * mesher.location (mesher.layout.iterAt i) 1)
            * (alg.secondDerivativeOp 1 mesher).diag.getD i 0
          + (hestonProcess.kappa
              * (hestonProcess.theta - mesher.location (mesher.layout.iterAt i) 1))
            * (alg.firstDerivativeOp 1 mesher).diag.getD i 0
    ∧ op.dyMap_.dyMap_.upper.getD i 0
        = (0.5 * (hestonProcess.sigma * mixingFactor) * (hestonProcess.sigma * mixingFactor)
              * mesher.location (mesher.layout.iterAt i) 1)
            * (alg.secondDerivativeOp 1 mesher).upper.getD i 0
          + (hestonProcess.kappa
              * (hestonProcess.theta - mesher.location (mesher.layout.iterAt i) 1))
            * (alg.firstDerivativeOp 1 mesher).upper.getD i 0
    ∧ (op.dyMap_.setTime t1 t2).getMap.lower.getD i 0 = op.dyMap_.dyMap_.lower.getD i 0
    ∧ (op.dyMap_.setTime t1 t2).getMap.diag.getD i 0
        = op.dyMap_.dyMap_.diag.getD i 0
          + (-0.5 * hestonProcess.riskFreeRate.forwardRate t1 t2)
    ∧ (op.dyMap_.setTime t1 t2).getMap.upper.getD i 0 = op.dyMap_.dyMap_.upper.getD i 0
    ∧ ((op.dyMap_.setTime t1 t2).getMap.apply u).getD i 0
        = (op.dyMap_.dyMap_.apply u).getD i 0
          + (-0.5 * hestonProcess.riskFreeRate.forwardRate t1 t2) * u.getD i 0
    ∧ (op.setTime exp t1 t2).dyMap_ = op.dyMap_.setTime t1 t2
    ∧ (op.setTime exp t1 t2).dxMap_.getMap.diag.getD i 0
          + (op.setTime exp t1 t2).dyMap_.getMap.diag.getD i 0
        = (op.dxMap_.mapT_.axpyb
              (op.dxMap_.driftCoefficient (op.dxMap_.getLeverageFctSlice exp t1 t2) t1 t2)
              op.dxMap_.dxMap_
              (op.dxMap_.dxxMap_.mult
                (QLArray.mul (op.dxMap_.getLeverageFctSlice exp t1 t2)
                  (op.dxMap_.getLeverageFctSlice exp t1 t2)))
              []).diag.getD i 0
          + op.dyMap_.dyMap_.diag.getD i 0
          + (-hestonProcess.riskFreeRate.forwardRate t1 t2) := by
  obtain ⟨hsT0, -, -, -, -, -, -⟩ := hwf0
  have hcoef := create_dyMap alg mesher hestonProcess.riskFreeRate
    (hestonProcess.sigma * mixingFactor) hestonProcess.kappa hestonProcess.theta i hwf1 hi
  obtain ⟨hsT, hsY, hsYY, hY0, hY2, hYY0, hYY2⟩ := hwf1
  have hdy : op.dyMap_ = create alg mesher hestonProcess.riskFreeRate
      (hestonProcess.sigma * mixingFactor) hestonProcess.kappa hestonProcess.theta := by
    rw [hop]; rfl
  have hrT : op.dyMap_.rTS_ = hestonProcess.riskFreeRate := by rw [hdy]; rfl
  have hrX : op.dxMap_.rTS_ = hestonProcess.riskFreeRate := by rw [hop]; rfl
  have hmapT : op.dyMap_.mapT_ = alg.tripleBandLinearOp 1 mesher := by rw [hdy]; rfl
  have hmapX : op.dxMap_.mapT_ = alg.tripleBandLinearOp 0 mesher := by rw [hop]; rfl
  have hsize : op.dyMap_.mapT_.size = mesher.layout.size := by rw [hmapT]; exact hsT
  have hsizeX : op.dxMap_.mapT_.size = mesher.layout.size := by rw [hmapX]; exact hsT0
  have hdsize : op.dyMap_.dyMap_.size = mesher.layout.size := by rw [hdy]; exact hsYY
  have hd0 : op.dyMap_.dyMap_.i0 = (alg.tripleBandLinearOp 1 mesher).i0 := by
    rw [hdy]; exact hYY0
  have hd2 : op.dyMap_.dyMap_.i2 = (alg.tripleBandLinearOp 1 mesher).i2 := by
    rw [hdy]; exact hYY2
  have hmap : (op.dyMap_.setTime t1 t2).getMap
      = op.dyMap_.mapT_.axpyb [] op.dyMap_.dyMap_ op.dyMap_.dyMap_
          (QLArray.fill 1 (-0.5 * hestonProcess.riskFreeRate.forwardRate t1 t2)) := by
    rw [← hrT]; rfl
  have hnil : TripleBandLinearOp.coeff ([] : List R) i = 0 := by
    simp [TripleBandLinearOp.coeff]
  have hlow : (op.dyMap_.setTime t1 t2).getMap.lower.getD i 0
      = op.dyMap_.dyMap_.lower.getD i 0 := by
    rw [hmap]
    simp only [TripleBandLinearOp.axpyb, hsize]
    rw [getD_map_range _ _ _ _ hi, hnil]
    ring
  have hdiag : (op.dyMap_.setTime t1 t2).getMap.diag.getD i 0
      = op.dyMap_.dyMap_.diag.getD i 0
        + (-0.5 * hestonProcess.riskFreeRate.forwardRate t1 t2) := by
    rw [hmap]
    simp only [TripleBandLinearOp.axpyb, hsize]
    rw [getD_map_range _ _ _ _ hi, hnil, TripleBandLinearOp.coeff_fill_one]
    ring
  have hupp : (op.dyMap_.setTime t1 t2).getMap.upper.getD i 0
      = op.dyMap_.dyMap_.upper.getD i 0 := by
    rw [hmap]
    simp only [TripleBandLinearOp.axpyb, hsize]
    rw [getD_map_range _ _ _ _ hi, hnil]
    ring
  have hi0 : (op.dyMap_.setTime t1 t2).getMap.i0 = (alg.tripleBandLinearOp 1 mesher).i0 := by
    rw [hmap, ← hmapT]; rfl
  have hi2 : (op.dyMap_.setTime t1 t2).getMap.i2 = (alg.tripleBandLinearOp 1 mesher).i2 := by
    rw [hmap, ← hmapT]; rfl
  have hmsize : (op.dyMap_.setTime t1 t2).getMap.size = mesher.layout.size := by
    rw [hmap]; exact hsize
  have hdyc : op.dyMap_.dyMap_ = (create alg mesher hestonProcess.riskFreeRate
      (hestonProcess.sigma * mixingFactor) hestonProcess.kappa hestonProcess.theta).dyMap_ := by
    rw [hdy]
  refine ⟨rfl, ?_, ?_, ?_, hlow, hdiag, hupp, ?_, rfl, ?_⟩
  · rw [hdyc]; exact hcoef.1
  · rw [hdyc]; exact hcoef.2.1
  · rw [hdyc]; exact hcoef.2.2
  · simp only [TripleBandLinearOp.apply, hmsize, hdsize]
    rw [getD_map_range _ _ _ _ hi, getD_map_range _ _ _ _ hi, hlow, hdiag, hupp, hi0, hi2,
      hd0, hd2]
    ring
  · have hX : (op.setTime exp t1 t2).dxMap_.getMap
        = op.dxMap_.mapT_.axpyb
            (op.dxMap_.driftCoefficient (op.dxMap_.getLeverageFctSlice exp t1 t2) t1 t2)
            op.dxMap_.dxMap_
            (op.dxMap_.dxxMap_.mult
              (QLArray.mul (op.dxMap_.getLeverageFctSlice exp t1 t2)
                (op.dxMap_.getLeverageFctSlice exp t1 t2)))
            (QLArray.fill 1 (-0.5 * hestonProcess.riskFreeRate.forwardRate t1 t2)) := by
      rw [← hrX]; rfl
    have hY : (op.setTime exp t1 t2).dyMap_.getMap = (op.dyMap_.setTime t1 t2).getMap := rfl
    rw [hX, hY, hdiag]
    simp only [TripleBandLinearOp.axpyb, hsizeX]
    rw [getD_map_range _ _ _ _ hi, getD_map_range _ _ _ _ hi, hnil,
      TripleBandLinearOp.coeff_fill_one]
    ring

/-- Evaluation of `variance_map_after_setTime` on the example operator at node 4
(variance location 4): the diagonal of the variance map is
`(0.5 * 1 * 1 * 4) * (-2) + (2 * (1 - 4)) * 0 - 0.5 * 5/100`. -/
theorem variance_map_after_setTime_witness :
    ((FdmHestonOp.create Example.alg Example.mesher Example.process none none 1).dyMap_.setTime
      0 1).getMap.diag.getD 4 0 = -161/40 := by
  obtain ⟨-, -, hd, -, -, hdiag, -, -, -, -⟩ :=
    variance_map_after_setTime Example.alg Example.mesher Example.process none none 1
      Example.exp 0 1
      (FdmHestonOp.create Example.alg Example.mesher Example.process none none 1) 4
      [1, 2, 3, 4, 5, 6] rfl ⟨rfl, rfl, rfl, rfl, rfl, rfl, rfl⟩
      ⟨rfl, rfl, rfl, rfl, rfl, rfl, rfl⟩ (by decide)
  rw [hdiag, hd]
  with_unfolding_all rfl

end FdmHestonVariancePart

namespace FdmHestonOp

/-- C22: `apply_mixed(u)` is the leverage slice times, elementwise, the
application to `u` of the correlation map, whose row `i` is the row of the
mixed-derivative operator times `rho * sigma * mixingFactor * v`; the
variance part is built with the vol-of-vol `sigma * mixingFactor`; with
`mixingFactor = 0`, `apply_mixed(u)` is the array of zeros and `dyMap_` has
no second-derivative term. -/
theorem apply_mixed_scaled (alg : OperatorAlgebra R) (mesher : FdmMesher R)
    (hestonProcess : HestonProcess R) (quantoHelper : Option (FdmQuantoHelper R))
    (leverageFct : Option (LocalVolTermStructure R)) (mixingFactor : R) (exp : R → R)
    (t1 t2 : R) (op : FdmHestonOp R) (i : Nat) (u : List R)
    (hop : op = create alg mesher hestonProcess quantoHelper leverageFct mixingFactor)
    (hm : (alg.secondOrderMixedDerivativeOp 0 1 mesher).size = mesher.layout.size)
    (hwf1 : alg.WellFormed mesher 1)
    (hi : i < mesher.layout.size) :
    (∀ op2 : FdmHestonOp R,
        op2.apply_mixed u = QLArray.mul op2.dxMap_.getL (op2.correlationMap_.apply u))
    ∧ (op.setTime exp t1 t2).dxMap_.getL = op.dxMap_.getLeverageFctSlice exp t1 t2
    ∧ ((op.setTime exp t1 t2).correlationMap_.apply u).getD i 0
        = (hestonProcess.rho * hestonProcess.sigma * mixingFactor
              * mesher.location (mesher.layout.iterAt i) 1)
            * ((alg.secondOrderMixedDerivativeOp 0 1 mesher).apply u).getD i 0
    ∧ ((op.setTime exp t1 t2).apply_mixed u).getD i 0
        = (op.dxMap_.getLeverageFctSlice exp t1 t2).getD i 0
            * ((hestonProcess.rho * hestonProcess.sigma * mixingFactor
                  * mesher.location (mesher.layout.iterAt i) 1)
                * ((alg.secondOrderMixedDerivativeOp 0 1 mesher).apply u).getD i 0)
    ∧ op.dyMap_ = FdmHestonVariancePart.create alg mesher hestonProcess.riskFreeRate
        (hestonProcess.sigma * mixingFactor) hestonProcess.kappa hestonProcess.theta
    ∧ (mixingFactor = 0 →
        (op.setTime exp t1 t2).apply_mixed u = QLArray.fill mesher.layout.size 0
        ∧ op.dyMap_.dyMap_.lower.getD i 0
            = (hestonProcess.kappa
                * (hestonProcess.theta - mesher.location (mesher.layout.iterAt i) 1))
              * (alg.firstDerivativeOp 1 mesher).lower.getD i 0
        ∧ op.dyMap_.dyMap_.diag.getD i 0
            = (hestonProcess.kappa
                * (hestonProcess.theta - mesher.location (mesher.layout.iterAt i) 1))
              * (alg.firstDerivativeOp 1 mesher).diag.getD i 0
        ∧ op.dyMap_.dyMap_.upper.getD i 0
            = (hestonProcess.kappa
                * (hestonProcess.theta - mesher.location (mesher.layout.iterAt i) 1))
              * (alg.firstDerivativeOp 1 mesher).upper.getD i 0) := by
  have hcorr : (op.setTime exp t1 t2).correlationMap_
      = (alg.secondOrderMixedDerivativeOp 0 1 mesher).mult
          (QLArray.scale (hestonProcess.rho * hestonProcess.sigma * mixingFactor)
            (mesher.locations 1)) := by
    rw [hop]; rfl
  have hmesh : op.dxMap_.mesher_ = mesher := by rw [hop]; rfl
  have hLlen : (op.dxMap_.getLeverageFctSlice exp t1 t2).length = mesher.layout.size := by
    rw [← hmesh]; exact (FdmHestonEquityPart.slice_invariant exp _ t1 t2).1
  have hrow : ∀ j, j < mesher.layout.size →
      ((op.setTime exp t1 t2).correlationMap_.apply u).getD j 0
        = (hestonProcess.rho * hestonProcess.sigma * mixingFactor
              * mesher.location (mesher.layout.iterAt j) 1)
            * ((alg.secondOrderMixedDerivativeOp 0 1 mesher).apply u).getD j 0 := by
    intro j hj
    rw [hcorr]
    simp only [NinePointLinearOp.apply, NinePointLinearOp.mult, hm]
    rw [getD_map_range _ _ _ _ hj, getD_map_range _ _ _ _ hj,
      List.getD_eq_getElem?_getD (List.map _ (List.range _)), List.getElem?_map,
      List.getElem?_range hj, Option.map_some', Option.getD_some, List.map_map,
      QLArray.scale_locations_entry _ mesher j hj, ← List.sum_map_mul_left]
    apply congrArg
    apply List.map_congr_left
    intro e _
    simp only [Function.comp]
    ring
  have hclen : ((op.setTime exp t1 t2).correlationMap_.apply u).length
      = mesher.layout.size := by
    rw [hcorr]
    simp [NinePointLinearOp.apply, NinePointLinearOp.mult, hm]
  have hmixed : (op.setTime exp t1 t2).apply_mixed u
      = QLArray.mul (op.dxMap_.getLeverageFctSlice exp t1 t2)
          ((op.setTime exp t1 t2).correlationMap_.apply u) := rfl
  have hdy : op.dyMap_ = FdmHestonVariancePart.create alg mesher hestonProcess.riskFreeRate
      (hestonProcess.sigma * mixingFactor) hestonProcess.kappa hestonProcess.theta := by
    rw [hop]; rfl
  refine ⟨fun _ => rfl, rfl, hrow i hi, ?_, hdy, ?_⟩
  · rw [hmixed, QLArray.mul,
      getD_zipWith _ _ _ i 0 0 0 (by rw [hLlen]; exact hi) (by rw [hclen]; exact hi), hrow i hi]
  · intro hmf
    have hcoef := FdmHestonVariancePart.create_dyMap alg mesher hestonProcess.riskFreeRate
      (hestonProcess.sigma * mixingFactor) hestonProcess.kappa hestonProcess.theta i hwf1 hi
    rw [← hdy] at hcoef
    obtain ⟨hl, hd, hu⟩ := hcoef
    refine ⟨?_, ?_, ?_, ?_⟩
    · rw [QLArray.fill, List.eq_replicate_iff]
      refine ⟨?_, ?_⟩
      · rw [hmixed]
        simp [QLArray.mul, hLlen, hclen]
      · rw [hmixed]
        apply QLArray.mul_zero_entries
        intro x hx
        rw [List.mem_iff_getElem] at hx
        obtain ⟨n, hn, rfl⟩ := hx
        rw [hclen] at hn
        have := hrow n hn
        rw [List.getD_eq_getElem?_getD, List.getElem?_eq_getElem (by rw [hclen]; exact hn),
          Option.getD_some] at this
        rw [this, hmf]
        ring
    · rw [hl, hmf]; ring
    · rw [hd, hmf]; ring
    · rw [hu, hmf]; ring

/-- Evaluation of `apply_mixed_scaled` on the example operator built with
`mixingFactor = 0`: `apply_mixed` returns six zeros. -/
theorem apply_mixed_scaled_witness :
    ((create Example.alg Example.mesher Example.process none none 0).setTime
      Example.exp 0 1).apply_mixed [1, 2, 3, 4, 5, 6] = [0, 0, 0, 0, 0, 0] :=
  ((apply_mixed_scaled Example.alg Example.mesher Example.process none none 0
      Example.exp 0 1 (create Example.alg Example.mesher Example.process none none 0) 4
      [1, 2, 3, 4, 5, 6] rfl rfl ⟨rfl, rfl, rfl, rfl, rfl, rfl, rfl⟩ (by decide)).2.2.2.2.2
    rfl).1

end FdmHestonOp

end VariancePart

section BandedSystem

variable {R : Type} [LinearOrderedField R]

/-- A sum over the columns that picks the column `c`, if there is one. -/
theorem sum_pick_column (n c : Nat) (l : R) (x : List R) (hx : x.length = n) :
    (Finset.univ.sum fun j : Fin n => (if c = (j : Nat) then l else 0) * x.getD j 0)
      = x.getD c 0 * l := by
  by_cases hc : c < n
  · rw [Finset.sum_eq_single (⟨c, hc⟩ : Fin n)]
    · simp [mul_comm]
    · intro j _ hj
      have : c ≠ (j : Nat) := fun h => hj (Fin.ext h.symm)
      simp [this]
    · intro h
      exact absurd (Finset.mem_univ _) h
  · have h0 : x.getD c 0 = 0 := by
      rw [List.getD_eq_getElem?_getD, List.getElem?_eq_none (by omega)]
      rfl
    rw [h0, zero_mul]
    apply Finset.sum_eq_zero
    intro j _
    have : c ≠ (j : Nat) := fun h => hc (h ▸ j.isLt)
    simp [this]

/-- The entries of the array built from a function over the nodes. -/
theorem getD_ofFn {n : Nat} (f : Fin n → R) (k : Fin n) :
    (List.ofFn f).getD k 0 = f k := by
  rw [List.getD_eq_getElem?_getD, List.getElem?_eq_getElem (by simp), Option.getD_some,
    List.getElem_ofFn]

/-- An array of `n` entries is the array of its entries. -/
theorem ofFn_getD (n : Nat) (x : List R) (hx : x.length = n) :
    List.ofFn (fun k : Fin n => x.getD k 0) = x := by
  apply List.ext_getElem
  · simp [hx]
  · intro i h1 h2
    rw [List.getElem_ofFn, List.getD_eq_getElem?_getD, List.getElem?_eq_getElem h2,
      Option.getD_some]

namespace TripleBandLinearOp

/-- The implicit operator on an array is the system matrix times its entries. -/
theorem implicitOp_eq_mulVec (m : TripleBandLinearOp R) (a b : R) (x : List R)
    (hx : x.length = m.size) :
    m.implicitOp a b x
      = List.ofFn (Matrix.mulVec (m.systemMatrix a b) (fun k => x.getD k 0)) := by
  apply List.ext_getElem
  · simp [implicitOp, QLArray.add, QLArray.scale, apply, hx]
  · intro i h1 h2
    have hi : i < m.size := by simpa using h2
    have hix : i < x.length := by rw [hx]; exact hi
    rw [List.getElem_ofFn]
    simp only [implicitOp, QLArray.add, QLArray.scale, apply, List.getElem_zipWith,
      List.getElem_map, List.getElem_range, Matrix.mulVec, Matrix.dotProduct, systemMatrix,
      add_mul, mul_assoc, Finset.sum_add_distrib, ← Finset.mul_sum,
      sum_pick_column m.size _ _ x hx]
    rw [List.getD_eq_getElem?_getD x i, List.getElem?_eq_getElem hix, Option.getD_some]
    ring

/-- A non-singular system, as a map on arrays, has a matrix of non-zero
determinant. -/
theorem det_ne_zero_of_nonSingular (m : TripleBandLinearOp R) (a b : R)
    (hns : m.NonSingular a b) : (m.systemMatrix a b).det ≠ 0 := by
  have hinj : Function.Injective (Matrix.mulVec (m.systemMatrix a b)) := by
    intro f g hfg
    have hf := implicitOp_eq_mulVec m a b (List.ofFn f) (by simp)
    have hg := implicitOp_eq_mulVec m a b (List.ofFn g) (by simp)
    simp only [getD_ofFn] at hf hg
    have := hns (List.ofFn f) (List.ofFn g) (by simp) (by simp) (by rw [hf, hg, hfg])
    exact List.ofFn_injective this
  have hu := (Matrix.isUnit_iff_isUnit_det _).mp (Matrix.mulVec_injective_iff_isUnit.mp hinj)
  exact hu.ne_zero

/-- A system whose matrix has a non-zero determinant is non-singular as a map on
arrays. -/
theorem nonSingular_of_det_ne_zero (m : TripleBandLinearOp R) (a b : R)
    (hdet : (m.systemMatrix a b).det ≠ 0) : m.NonSingular a b := by
  intro x y hx hy h
  rw [implicitOp_eq_mulVec m a b x hx, implicitOp_eq_mulVec m a b y hy] at h
  have hinj : Function.Injective (Matrix.mulVec (m.systemMatrix a b)) :=
    Matrix.mulVec_injective_iff_isUnit.mpr
      ((Matrix.isUnit_iff_isUnit_det _).mpr (isUnit_iff_ne_zero.mpr hdet))
  have hxy := hinj (List.ofFn_injective h)
  rw [← ofFn_getD m.size x hx, ← ofFn_getD m.size y hy, hxy]

/-- The modelled banded solve meets the contract of the direction-restricted
solve: on a non-singular system it returns an array of the size of `m` that
solves `(a·m + b·I) x = r`. -/
theorem solve_splitting_meetsContract (m : TripleBandLinearOp R) (a b : R) :
    BandedSolve.MeetsContract TripleBandLinearOp.solve_splitting m a b := by
  intro hns r hr
  have hdet := det_ne_zero_of_nonSingular m a b hns
  refine ⟨List.ofFn (fun j => (m.systemMatrix a b).det⁻¹
      * Matrix.cramer (m.systemMatrix a b) (fun k => r.getD k 0) j), ?_, ?_, ?_⟩
  · simp only [solve_splitting, if_neg hdet]
  · simp
  · rw [implicitOp_eq_mulVec m a b _ (by simp)]
    simp only [getD_ofFn]
    have : (fun j => (m.systemMatrix a b).det⁻¹
          * Matrix.cramer (m.systemMatrix a b) (fun k => r.getD k 0) j)
        = (m.systemMatrix a b).det⁻¹
          • Matrix.cramer (m.systemMatrix a b) (fun k => r.getD k 0) := by
      funext j
      simp
    rw [this, Matrix.mulVec_smul, Matrix.mulVec_cramer, smul_smul, inv_mul_cancel₀ hdet,
      one_smul]
    exact ofFn_getD m.size r hr

end TripleBandLinearOp

end BandedSystem

section BandedInverse

variable {R : Type} [LinearOrderedField R]

namespace FdmHestonOp

/-- C5: for direction 0 or 1, `solve_splitting(d, ., a)` hands the banded solve
the very map `m` that `apply_direction(d, .)` applies, with relaxation
constant 1; so whenever `I + a·m` is non-singular,
`solve_splitting(d, v + a * apply_direction(d, v), a)` returns `v`. -/
theorem solve_splitting_inverts (op : FdmHestonOp R) (d : Nat)
    (m : TripleBandLinearOp R) (a : R) (v : List R)
    (hd : (d = 0 ∧ m = op.dxMap_.getMap) ∨ (d = 1 ∧ m = op.dyMap_.getMap))
    (hv : v.length = m.size)
    (hns : m.NonSingular a 1) :
    apply_direction op d v = .ok (m.apply v)
    ∧ (∀ (solve : BandedSolve R) (r : List R),
        solve_splitting solve op d r a = raiseOnFailure (solve m r a 1))
    ∧ solve_splitting TripleBandLinearOp.solve_splitting op d
        (QLArray.add v (QLArray.scale a (m.apply v))) a = .ok v := by
  have h1 : (1.0 : R) = 1 := by norm_num
  have happly : apply_direction op d v = .ok (m.apply v) := by
    rcases hd with ⟨hd0, hm⟩ | ⟨hd1, hm⟩
    · subst hd0; subst hm; rfl
    · subst hd1; subst hm; rfl
  have hsame : ∀ (solve : BandedSolve R) (r : List R),
      solve_splitting solve op d r a = raiseOnFailure (solve m r a 1) := by
    intro solve r
    rcases hd with ⟨hd0, hm⟩ | ⟨hd1, hm⟩
    · subst hd0; subst hm; simp [solve_splitting, h1]
    · subst hd1; subst hm; simp [solve_splitting, h1]
  refine ⟨happly, hsame, ?_⟩
  have hr : (QLArray.add v (QLArray.scale a (m.apply v))).length = m.size := by
    simp [QLArray.add, QLArray.scale, TripleBandLinearOp.apply, hv]
  obtain ⟨x, hx, hxl, hxe⟩ :=
    TripleBandLinearOp.solve_splitting_meetsContract m a 1 hns _ hr
  have hone : QLArray.scale (1 : R) v = v := by simp [QLArray.scale]
  have hv2 : m.implicitOp a 1 v = QLArray.add v (QLArray.scale a (m.apply v)) := by
    simp [TripleBandLinearOp.implicitOp, hone]
  have hxv : x = v := hns x v hxl hv (hxe.trans hv2.symm)
  rw [hsame, hx, hxv]
  rfl

/-- Evaluation of `solve_splitting_inverts` on the operator over the grid of three
equity nodes by two variance nodes, in the equity direction, with `a = 2`
and `v = [1, 2, 3, 4, 5, 6]`. -/
theorem solve_splitting_inverts_witness :
    solve_splitting TripleBandLinearOp.solve_splitting Example.op 0
      (QLArray.add [1, 2, 3, 4, 5, 6]
        (QLArray.scale 2 (Example.op.dxMap_.getMap.apply [1, 2, 3, 4, 5, 6]))) 2
      = .ok [1, 2, 3, 4, 5, 6] := by
  have hm : Example.op.dxMap_.getMap
      = { direction := 0, size := 6
          i0 := [0, 0, 1, 3, 3, 4], i2 := [1, 2, 2, 4, 5, 5]
          lower := [47/100, 97/100, 47/100, 197/100, 397/100, 197/100]
          diag := [-41/40, -41/40, -41/40, -161/40, -161/40, -161/40]
          upper := [53/100, 3/100, 53/100, 203/100, 3/100, 203/100] } := by
    with_unfolding_all rfl
  have hr6 : List.range 6 = [0, 1, 2, 3, 4, 5] := rfl
  have hns : Example.op.dxMap_.getMap.NonSingular 2 1 := by
    rw [hm]
    intro x y hx hy h
    match x, y, hx, hy with
    | [x0, x1, x2, x3, x4, x5], [y0, y1, y2, y3, y4, y5], _, _ =>
      simp only [TripleBandLinearOp.implicitOp, TripleBandLinearOp.apply,
        QLArray.add, QLArray.scale, hr6, List.map_cons, List.map_nil,
        List.zipWith_cons_cons, List.zipWith_nil_left, List.getD_cons_zero,
        List.getD_cons_succ, List.cons.injEq, and_true] at h
      obtain ⟨h0, h1, h2, h3, h4, h5⟩ := h
      have e0 : x0 = y0 := by linarith
      have e1 : x1 = y1 := by linarith
      have e2 : x2 = y2 := by linarith
      have e3 : x3 = y3 := by linarith
      have e4 : x4 = y4 := by linarith
      have e5 : x5 = y5 := by linarith
      rw [e0, e1, e2, e3, e4, e5]
  exact (solve_splitting_inverts Example.op 0 Example.op.dxMap_.getMap 2 [1, 2, 3, 4, 5, 6]
    (Or.inl ⟨rfl, rfl⟩) rfl hns).2.2

end FdmHestonOp

end BandedInverse

end QuantLib
